import Mathlib

/-!
# Verification development for the streaming-video pipeline (sv5.c, lut.c, haar4.c)

Shallow embedding of the C sources.

* C `int` variables are `Int` (or `Nat` where the value is an index or is read
  from an unsigned buffer); no computation below leaves the 32-bit range.
* A store into a `uint8_t` variable is `toU8` (reduction modulo 256); a store
  into a `uint16_t` variable is reduction modulo 65536.
* A buffer reached through a pointer is a function from the element index to
  the element value; element indices follow the pointer type (`uint8_t*`
  buffers are indexed by byte, `uint16_t*` buffers by 16-bit pixel).
* Loops are recursive functions over an iteration budget and return `none`
  when the budget is used up before the loop condition fails. They are marked
  irreducible so that the elaborator never unrolls them; proofs go through
  their unfolding lemmas.
* The states carry logs of the indices read and written.
-/

namespace SV5

/-! ## Constants of sv5.c -/

/-- Macro `#define HVGA_WIDTH 480` -/
def HVGA_WIDTH : Nat := 480
/-- Macro `#define HVGA_HEIGHT 272` -/
def HVGA_HEIGHT : Nat := 272
/-- Macro `#define WQVGA_WIDTH 432` -/
def WQVGA_WIDTH : Nat := 432
/-- Macro `#define WQVGA_HEIGHT 240` -/
def WQVGA_HEIGHT : Nat := 240
/-- Macro `#define YUYV_SIZE WQVGA_WIDTH*WQVGA_HEIGHT*2` -/
def YUYV_SIZE : Nat := WQVGA_WIDTH * WQVGA_HEIGHT * 2
/-- Global `int lut_size = 256*256*256*2;` (size of the table in bytes) -/
def lut_size : Nat := 256 * 256 * 256 * 2

/-! ## Machine arithmetic -/

/-- C `abs` on `int`. -/
def cAbs (x : Int) : Int := if x < 0 then -x else x

/-- Conversion of an `int` to `uint8_t`. -/
def toU8 (x : Int) : Nat := (x % 256).toNat

/-- Conversion of a non-negative `int` to `uint16_t`. -/
def toU16 (x : Nat) : Nat := x % 65536

/-- Function update: the buffer `mem` after `*(mem + i) = v`. -/
def store (mem : Nat → Nat) (i v : Nat) : Nat → Nat :=
  fun k => if k = i then v else mem k

/-! ## HaarDwt: the per-block kernel (sv5.c 1166-1245, haar4.c 181-260) -/

/-- The four stored results of one colour channel:
`uint8_t red_ll, red_lh, red_hl, red_hh` (and the same for `grn_`, `blu_`). -/
structure ChanOut where
  ll : Nat
  lh : Nat
  hl : Nat
  hh : Nat
  deriving DecidableEq, Repr

/-- The channel computation of `HaarDwt`; the source has three copies of it,
for red (`M = 0x1f`), green (`M = 0x3f`) and blue (`M = 0x1f`). -/
def haarChannel (M : Int) (c_r1c1 c_r1c2 c_r2c1 c_r2c2 : Int) : ChanOut :=
  let lp1 := (c_r1c1 + c_r2c1).tdiv 2
  let lp1 := if lp1 > M then M else lp1
  let lp2 := (c_r1c2 + c_r2c2).tdiv 2
  let lp2 := if lp2 > M then M else lp2
  let lp3 := (lp1 + lp2).tdiv 2
  let lp3 := if lp3 > M then M else lp3
  let c_ll := toU8 lp3
  let hp1 := cAbs ((lp1 - lp2).tdiv 2)
  let hp1 := if hp1 > M then M else hp1
  let c_lh := toU8 (hp1 * 10)
  let hp1 := cAbs ((c_r1c1 - c_r2c1).tdiv 2)
  let hp1 := if hp1 > M then M else hp1
  let hp2 := cAbs ((c_r1c2 - c_r2c2).tdiv 2)
  let hp2 := if hp2 > M then M else hp2
  let lp1 := (hp1 + hp2).tdiv 2
  let lp1 := if lp1 > M then M else lp1
  let c_hl := toU8 (lp1 * 10)
  let hp3 := cAbs ((hp1 - hp2).tdiv 2)
  let hp3 := if hp3 > M then M else hp3
  let c_hh := toU8 (hp3 * 10)
  { ll := c_ll, lh := c_lh, hl := c_hl, hh := c_hh }

/-- Unpacking `red_x = (((x & 0xf800)>>3)>>8)` -/
def unpackRed (p : Nat) : Nat := ((p &&& 0xf800) >>> 3) >>> 8
/-- Unpacking `grn_x = ((x & 0x07e0)>>5)` -/
def unpackGrn (p : Nat) : Nat := (p &&& 0x07e0) >>> 5
/-- Unpacking `blu_x = (x & 0x001f)` -/
def unpackBlu (p : Nat) : Nat := p &&& 0x001f

/-- Packing `rgb565 = ((red << 11) | (grn << 5) | (blu))`, stored in a `uint16_t`. -/
def pack565 (red grn blu : Nat) : Nat :=
  toU16 ((red <<< 11) ||| (grn <<< 5) ||| blu)

/-- The three channel results of one 2x2 block. -/
structure BlockChans where
  red : ChanOut
  grn : ChanOut
  blu : ChanOut
  deriving DecidableEq, Repr

/-- Unpacking of the four pixels of the sliding window and the three channel
computations. -/
def haarBlockChans (r1c1 r1c2 r2c1 r2c2 : Nat) : BlockChans :=
  { red := haarChannel 0x1f (unpackRed r1c1) (unpackRed r1c2) (unpackRed r2c1) (unpackRed r2c2)
    grn := haarChannel 0x3f (unpackGrn r1c1) (unpackGrn r1c2) (unpackGrn r2c1) (unpackGrn r2c2)
    blu := haarChannel 0x1f (unpackBlu r1c1) (unpackBlu r1c2) (unpackBlu r2c1) (unpackBlu r2c2) }

/-- The four output pixels of one block:
`uint16_t rgb565_ll, rgb565_lh, rgb565_hl, rgb565_hh`. -/
structure BlockOut where
  rgb565_ll : Nat
  rgb565_lh : Nat
  rgb565_hl : Nat
  rgb565_hh : Nat
  deriving DecidableEq, Repr

/-- The body of the inner loop of `HaarDwt` between the four reads and the
four writes. -/
def haarBlock (r1c1 r1c2 r2c1 r2c2 : Nat) : BlockOut :=
  let c := haarBlockChans r1c1 r1c2 r2c1 r2c2
  { rgb565_ll := pack565 c.red.ll c.grn.ll c.blu.ll
    rgb565_lh := pack565 c.red.lh c.grn.lh c.blu.lh
    rgb565_hl := pack565 c.red.hl c.grn.hl c.blu.hl
    rgb565_hh := pack565 c.red.hh c.grn.hh c.blu.hh }

/-! ## HaarDwt: the loops (sv5.c 1063-1285) -/

/-- Macro `#define QUAD_ROW_ORIGIN 432/2*240` (always used as `(QUAD_ROW_ORIGIN)`). -/
def QUAD_ROW_ORIGIN : Nat := 432 / 2 * 240
/-- Macro `#define QUAD_COL_OFFSET 432/2` (always used as the left operand of `+`). -/
def QUAD_COL_OFFSET : Nat := 432 / 2
/-- Macro `#define QUAD_ROW_OFFSET 432` -/
def QUAD_ROW_OFFSET : Nat := 432
/-- Macro `#define H_NUM_ROWS 240` -/
def H_NUM_ROWS : Nat := 240
/-- Macro `#define H_NUM_COLS 432` -/
def H_NUM_COLS : Nat := 432
/-- Macro `#define H_ROW_WIDTH 432` -/
def H_ROW_WIDTH : Nat := 432

/-- The output buffer `imgout_ptr` (indexed by pixel) with the logs of the
pixel indices read from `imgin_ptr` and written to `imgout_ptr`, most recent
first. -/
structure HaarState where
  imgout : Nat → Nat
  reads : List Nat
  writes : List Nat

/-- The inner loop `for(j=0; j<H_NUM_COLS; j++)` of `HaarDwt`, entered with
the current `j` and `k`; the body increments `j` once more (`j++` after the
four reads). -/
@[irreducible]
def haarCols (imgin : Nat → Nat) (i quad_row_offset : Nat) :
    Nat → Nat → Nat → HaarState → Option HaarState
  | 0, j, _, st => if j < H_NUM_COLS then none else some st
  | fuel + 1, j, k, st =>
    if j < H_NUM_COLS then
      let r1c1 := imgin ((H_ROW_WIDTH * i) + j)
      let r1c2 := imgin ((H_ROW_WIDTH * i) + (j + 1))
      let r2c1 := imgin ((H_ROW_WIDTH * (i + 1)) + j)
      let r2c2 := imgin ((H_ROW_WIDTH * (i + 1)) + (j + 1))
      let rd := ((H_ROW_WIDTH * (i + 1)) + (j + 1)) :: ((H_ROW_WIDTH * (i + 1)) + j) ::
        ((H_ROW_WIDTH * i) + (j + 1)) :: ((H_ROW_WIDTH * i) + j) :: st.reads
      let j := j + 1
      let px := haarBlock r1c1 r1c2 r2c1 r2c2
      let out := store st.imgout (quad_row_offset + k) px.rgb565_ll
      let out := store out (QUAD_COL_OFFSET + (quad_row_offset + k)) px.rgb565_lh
      let out := store out ((QUAD_ROW_ORIGIN) + (quad_row_offset + k)) px.rgb565_hl
      let out := store out ((QUAD_ROW_ORIGIN) + QUAD_COL_OFFSET + (quad_row_offset + k))
        px.rgb565_hh
      let wr := ((QUAD_ROW_ORIGIN) + QUAD_COL_OFFSET + (quad_row_offset + k)) ::
        ((QUAD_ROW_ORIGIN) + (quad_row_offset + k)) ::
        (QUAD_COL_OFFSET + (quad_row_offset + k)) :: (quad_row_offset + k) :: st.writes
      let k := k + 1
      haarCols imgin i quad_row_offset fuel (j + 1) k { imgout := out, reads := rd, writes := wr }
    else some st

/-- The outer loop `for(i=0; i<H_NUM_ROWS; i++)` of `HaarDwt`, entered with
the current `i` and `h`; the body ends with `i++; h++;`. -/
@[irreducible]
def haarRows (imgin : Nat → Nat) : Nat → Nat → Nat → HaarState → Option HaarState
  | 0, i, _, st => if i < H_NUM_ROWS then none else some st
  | fuel + 1, i, h, st =>
    if i < H_NUM_ROWS then
      let quad_row_offset := QUAD_ROW_OFFSET * h
      match haarCols imgin i quad_row_offset H_NUM_COLS 0 0 st with
      | none => none
      | some st =>
        let i := i + 1
        let h := h + 1
        haarRows imgin fuel (i + 1) h st
    else some st

/-- Function `int HaarDwt(uint16_t *imgin_ptr, uint16_t *imgout_ptr)`: the returned
`int` and the final state. -/
def HaarDwt (imgin imgout : Nat → Nat) : Option (Int × HaarState) :=
  (haarRows imgin H_NUM_ROWS 0 0 { imgout := imgout, reads := [], writes := [] }).map
    fun st => (0, st)

/-! ## convert3 (sv5.c 636-690) -/

/-- The table index `((Y*256*256)+(U*256)+V)` of `convert3`. -/
def lutIndex (Y U V : Nat) : Nat := (Y * 256 * 256) + (U * 256) + V

/-- The output byte buffer `rgb565ptr` with the logs of the byte offsets read
from `cbp`, the entries read from `pbuf` and the byte offsets written, most
recent first. -/
structure ConvState where
  rgb565 : Nat → Nat
  yuvReads : List Nat
  lutReads : List Nat
  writes : List Nat

/-- The loop `for(i=0; i<YUYV_SIZE; i++)` of `convert3`, entered with the
current `i`, `yuvptr` and `rgb565ptr` (as byte offsets); the body increments
`i` three more times. -/
@[irreducible]
def convert3Loop (cbp pbuf : Nat → Nat) :
    Nat → Nat → Nat → Nat → ConvState → Option ConvState
  | 0, i, _, _, st => if i < YUYV_SIZE then none else some st
  | fuel + 1, i, yuvptr, rgb565ptr, st =>
    if i < YUYV_SIZE then
      let rd0 := yuvptr
      let Y1 := cbp yuvptr
      let i := i + 1
      let yuvptr := yuvptr + 1
      let rd1 := yuvptr
      let V0 := cbp yuvptr
      let i := i + 1
      let yuvptr := yuvptr + 1
      let rd2 := yuvptr
      let Y0 := cbp yuvptr
      let i := i + 1
      let yuvptr := yuvptr + 1
      let rd3 := yuvptr
      let U0 := cbp yuvptr
      let yuvptr := yuvptr + 1
      let rgb565 := pbuf (lutIndex Y0 U0 V0)
      let pixel := rgb565 % 256
      let out := store st.rgb565 rgb565ptr pixel
      let wr0 := rgb565ptr
      let rgb565ptr := rgb565ptr + 1
      let pixel := (rgb565 >>> 8) % 256
      let out := store out rgb565ptr pixel
      let wr1 := rgb565ptr
      let rgb565ptr := rgb565ptr + 1
      let rgb565 := pbuf (lutIndex Y1 U0 V0)
      let pixel := rgb565 % 256
      let out := store out rgb565ptr pixel
      let wr2 := rgb565ptr
      let rgb565ptr := rgb565ptr + 1
      let pixel := (rgb565 >>> 8) % 256
      let out := store out rgb565ptr pixel
      let wr3 := rgb565ptr
      let rgb565ptr := rgb565ptr + 1
      convert3Loop cbp pbuf fuel (i + 1) yuvptr rgb565ptr
        { rgb565 := out
          yuvReads := rd3 :: rd2 :: rd1 :: rd0 :: st.yuvReads
          lutReads := lutIndex Y1 U0 V0 :: lutIndex Y0 U0 V0 :: st.lutReads
          writes := wr3 :: wr2 :: wr1 :: wr0 :: st.writes }
    else some st

/-- Function `int convert3(void *cbp, uint8_t *rgb565ptr, uint16_t *pbuf)`: the
returned `int` and the final state. -/
def convert3 (cbp rgb565buf pbuf : Nat → Nat) : Option (Int × ConvState) :=
  (convert3Loop cbp pbuf YUYV_SIZE 0 0 0
      { rgb565 := rgb565buf, yuvReads := [], lutReads := [], writes := [] }).map
    fun st => (0, st)

/-- The `uint16_t` at pixel index `p` of a byte buffer on the little-endian
target (how `HaarDwt((uint16_t*)rgb565ptr, ...)` sees the output of
`convert3`). -/
def readU16LE (bytes : Nat → Nat) (p : Nat) : Nat := bytes (2 * p) + 256 * bytes (2 * p + 1)

/-! ## display_LCD4 (sv5.c 542-570) -/

/-- The framebuffer `fbptr` (indexed by pixel) with the logs of the pixel
indices read from `filebuf_ptr` and written to `fbptr`, most recent first. -/
structure FbState where
  fb : Nat → Nat
  reads : List Nat
  writes : List Nat

/-- The inner loop `for(j=0; j<WQVGA_WIDTH; j++)` of `display_LCD4`; returns
the final `idx`, `filebuf_ptr` (as a pixel offset) and state. -/
@[irreducible]
def lcdCols (filebuf : Nat → Nat) :
    Nat → Nat → Nat → Nat → FbState → Option (Nat × Nat × FbState)
  | 0, j, idx, filebuf_ptr, st =>
    if j < WQVGA_WIDTH then none else some (idx, filebuf_ptr, st)
  | fuel + 1, j, idx, filebuf_ptr, st =>
    if j < WQVGA_WIDTH then
      let st := { fb := store st.fb idx (filebuf filebuf_ptr)
                  reads := filebuf_ptr :: st.reads
                  writes := idx :: st.writes }
      let idx := idx + 1
      let filebuf_ptr := filebuf_ptr + 1
      lcdCols filebuf fuel (j + 1) idx filebuf_ptr st
    else some (idx, filebuf_ptr, st)

/-- The outer loop `for(i=0; i<WQVGA_HEIGHT; i++)` of `display_LCD4`; `r` is
the triple (`idx`, `filebuf_ptr`, state) left by the inner loop. -/
@[irreducible]
def lcdRows (filebuf : Nat → Nat) : Nat → Nat → Nat → Nat → FbState → Option FbState
  | 0, i, _, _, st => if i < WQVGA_HEIGHT then none else some st
  | fuel + 1, i, idx, filebuf_ptr, st =>
    if i < WQVGA_HEIGHT then
      let idx := idx + ((HVGA_WIDTH - WQVGA_WIDTH) / 2)
      match lcdCols filebuf WQVGA_WIDTH 0 idx filebuf_ptr st with
      | none => none
      | some r =>
        let idx := r.1 + ((HVGA_WIDTH - WQVGA_WIDTH) / 2)
        lcdRows filebuf fuel (i + 1) idx r.2.1 r.2.2
    else some st

/-- Function `int display_LCD4(void *fbp, void *filebuf)`: the returned `int` and the
final state. -/
def display_LCD4 (fbp filebuf : Nat → Nat) : Option (Int × FbState) :=
  let idx := HVGA_WIDTH * ((HVGA_HEIGHT - WQVGA_HEIGHT) / 2)
  (lcdRows filebuf WQVGA_HEIGHT 0 idx 0 { fb := fbp, reads := [], writes := [] }).map
    fun st => (0, st)

/-! ## lut.c: the table-building loops (lut.c 64-80) -/

/-- Macro `#define Y_SIZE 256` -/
def Y_SIZE : Nat := 256
/-- Macro `#define U_SIZE 256` -/
def U_SIZE : Nat := 256
/-- Macro `#define V_SIZE 256` -/
def V_SIZE : Nat := 256

/-- Local `int size = 256*256*256*2;` of `main` in lut.c (table size in bytes). -/
def size : Nat := 256 * 256 * 256 * 2

/-- The table `pbuf` (indexed by 16-bit entry), the log of the entries written
(most recent first) and the counter `long count`. -/
structure LutState where
  pbuf : Nat → Nat
  writes : List Nat
  count : Nat

/-- The loop `for(k=0; k<V_SIZE; k++)` of lut.c; `pb` is the write pointer as
an entry offset from `pbuf`. The converter `yuv422_to_rgb565` (floating point
in the source, returning `uint16_t`) is the argument `conv`; the `printf` is
not modelled. -/
@[irreducible]
def lutLoopV (conv : Nat → Nat → Nat → Nat) (y u : Nat) :
    Nat → Nat → Nat → LutState → Option (Nat × LutState)
  | 0, k, pb, st => if k < V_SIZE then none else some (pb, st)
  | fuel + 1, k, pb, st =>
    if k < V_SIZE then
      let v := k % 256
      let count := st.count + 1
      let pixel := conv y u v
      let st := { pbuf := store st.pbuf pb pixel, writes := pb :: st.writes, count := count }
      let pb := pb + 1
      lutLoopV conv y u fuel (k + 1) pb st
    else some (pb, st)

/-- The loop `for(j=0; j<U_SIZE; j++)` of lut.c; `r` is the pair (`pb`, state)
left by the inner loop. -/
@[irreducible]
def lutLoopU (conv : Nat → Nat → Nat → Nat) (y : Nat) :
    Nat → Nat → Nat → LutState → Option (Nat × LutState)
  | 0, j, pb, st => if j < U_SIZE then none else some (pb, st)
  | fuel + 1, j, pb, st =>
    if j < U_SIZE then
      let u := j % 256
      match lutLoopV conv y u V_SIZE 0 pb st with
      | none => none
      | some r => lutLoopU conv y fuel (j + 1) r.1 r.2
    else some (pb, st)

/-- The loop `for(i=0; i<Y_SIZE; i++)` of lut.c; `r` is the pair (`pb`, state)
left by the inner loop. -/
@[irreducible]
def lutLoopY (conv : Nat → Nat → Nat → Nat) :
    Nat → Nat → Nat → LutState → Option (Nat × LutState)
  | 0, i, pb, st => if i < Y_SIZE then none else some (pb, st)
  | fuel + 1, i, pb, st =>
    if i < Y_SIZE then
      let y := i % 256
      match lutLoopU conv y U_SIZE 0 pb st with
      | none => none
      | some r => lutLoopY conv fuel (i + 1) r.1 r.2
    else some (pb, st)

/-- The table-building part of `main` of lut.c: `pb = pbuf`, `count = 0` and
the three nested loops; returns the final `pb` offset and state. -/
def lutBuild (conv : Nat → Nat → Nat → Nat) (pbuf : Nat → Nat) : Option (Nat × LutState) :=
  lutLoopY conv Y_SIZE 0 0 { pbuf := pbuf, writes := [], count := 0 }

/-! ## Section 4.3 of the specification, in its own words -/

/-- Spec 4.3 `clamp(x, lo, hi)`. -/
def clamp (x lo hi : Int) : Int := if x < lo then lo else if x > hi then hi else x

/-- The bit field of width `w` starting at bit `lo` of a pixel. -/
def bitField (p lo w : Nat) : Nat := p / 2 ^ lo % 2 ^ w

/-- Spec 4.3 `lp = clamp((x+y)/2, 0, M)` (truncating division). -/
def specLP (M x y : Int) : Int := clamp ((x + y).tdiv 2) 0 M

/-- Spec 4.3 `hp = clamp(|x-y|/2, 0, M)` (truncating division). -/
def specHP (M x y : Int) : Int := clamp ((|x - y|).tdiv 2) 0 M

/-- Spec 4.3 `LL = clamp((lp1+lp2)/2, 0, M)`. -/
def specLL (M r1c1 r1c2 r2c1 r2c2 : Int) : Int :=
  clamp ((specLP M r1c1 r2c1 + specLP M r1c2 r2c2).tdiv 2) 0 M

/-- Spec 4.3 `LH = clamp(|lp1-lp2|/2, 0, M) * 10`. -/
def specLH (M r1c1 r1c2 r2c1 r2c2 : Int) : Int :=
  clamp ((|specLP M r1c1 r2c1 - specLP M r1c2 r2c2|).tdiv 2) 0 M * 10

/-- Spec 4.3 `HL = clamp((hp1+hp2)/2, 0, M) * 10`. -/
def specHL (M r1c1 r1c2 r2c1 r2c2 : Int) : Int :=
  clamp ((specHP M r1c1 r2c1 + specHP M r1c2 r2c2).tdiv 2) 0 M * 10

/-- Spec 4.3 `HH = clamp(|hp1-hp2|/2, 0, M) * 10`. -/
def specHH (M r1c1 r1c2 r2c1 r2c2 : Int) : Int :=
  clamp ((|specHP M r1c1 r2c1 - specHP M r1c2 r2c2|).tdiv 2) 0 M * 10

/-! ## Auxiliary definitions of the proofs -/

/-- The channel computation before the scaling by 10 and the `uint8_t` stores,
over natural numbers (no sign, no casts). -/
def natPre (M a b c d : Nat) : ChanOut :=
  let lp1 := min ((a + c) / 2) M
  let lp2 := min ((b + d) / 2) M
  let hp1 := min (((a - c) + (c - a)) / 2) M
  let hp2 := min (((b - d) + (d - b)) / 2) M
  { ll := min ((lp1 + lp2) / 2) M
    lh := min (((lp1 - lp2) + (lp2 - lp1)) / 2) M
    hl := min ((hp1 + hp2) / 2) M
    hh := min (((hp1 - hp2) + (hp2 - hp1)) / 2) M }

/-- The channel computation over natural numbers. -/
def natChannel (M a b c d : Nat) : ChanOut :=
  { ll := (natPre M a b c d).ll % 256
    lh := (natPre M a b c d).lh * 10 % 256
    hl := (natPre M a b c d).hl * 10 % 256
    hh := (natPre M a b c d).hh * 10 % 256 }

/-- The four output pixels of the block made of input rows `2*bi`, `2*bi+1`
and columns `2*bj`, `2*bj+1` of a 432-pixel-wide image. -/
def blockAt (imgin : Nat → Nat) (bi bj : Nat) : BlockOut :=
  haarBlock (imgin (432 * (2 * bi) + 2 * bj)) (imgin (432 * (2 * bi) + (2 * bj + 1)))
    (imgin (432 * (2 * bi + 1) + 2 * bj)) (imgin (432 * (2 * bi + 1) + (2 * bj + 1)))

/-- The state after one pass through the body of the inner loop of `HaarDwt`. -/
def haarBody (imgin : Nat → Nat) (i quad_row_offset j k : Nat) (st : HaarState) : HaarState :=
  let px := haarBlock (imgin ((H_ROW_WIDTH * i) + j)) (imgin ((H_ROW_WIDTH * i) + (j + 1)))
    (imgin ((H_ROW_WIDTH * (i + 1)) + j)) (imgin ((H_ROW_WIDTH * (i + 1)) + (j + 1)))
  { imgout :=
      store (store (store (store st.imgout (quad_row_offset + k) px.rgb565_ll)
        (QUAD_COL_OFFSET + (quad_row_offset + k)) px.rgb565_lh)
        ((QUAD_ROW_ORIGIN) + (quad_row_offset + k)) px.rgb565_hl)
        ((QUAD_ROW_ORIGIN) + QUAD_COL_OFFSET + (quad_row_offset + k)) px.rgb565_hh
    reads := ((H_ROW_WIDTH * (i + 1)) + (j + 1)) :: ((H_ROW_WIDTH * (i + 1)) + j) ::
      ((H_ROW_WIDTH * i) + (j + 1)) :: ((H_ROW_WIDTH * i) + j) :: st.reads
    writes := ((QUAD_ROW_ORIGIN) + QUAD_COL_OFFSET + (quad_row_offset + k)) ::
      ((QUAD_ROW_ORIGIN) + (quad_row_offset + k)) ::
      (QUAD_COL_OFFSET + (quad_row_offset + k)) :: (quad_row_offset + k) :: st.writes }

/-- The state after one pass through the body of the loop of `convert3`. -/
def convBody (cbp pbuf : Nat → Nat) (yuvptr rgb565ptr : Nat) (st : ConvState) : ConvState :=
  { rgb565 :=
      store (store (store (store st.rgb565 rgb565ptr
        (pbuf (lutIndex (cbp (yuvptr + 1 + 1)) (cbp (yuvptr + 1 + 1 + 1)) (cbp (yuvptr + 1))) % 256))
        (rgb565ptr + 1)
        ((pbuf (lutIndex (cbp (yuvptr + 1 + 1)) (cbp (yuvptr + 1 + 1 + 1)) (cbp (yuvptr + 1)))
          >>> 8) % 256))
        (rgb565ptr + 1 + 1)
        (pbuf (lutIndex (cbp yuvptr) (cbp (yuvptr + 1 + 1 + 1)) (cbp (yuvptr + 1))) % 256))
        (rgb565ptr + 1 + 1 + 1)
        ((pbuf (lutIndex (cbp yuvptr) (cbp (yuvptr + 1 + 1 + 1)) (cbp (yuvptr + 1))) >>> 8) % 256)
    yuvReads := (yuvptr + 1 + 1 + 1) :: (yuvptr + 1 + 1) :: (yuvptr + 1) :: yuvptr :: st.yuvReads
    lutReads := lutIndex (cbp yuvptr) (cbp (yuvptr + 1 + 1 + 1)) (cbp (yuvptr + 1)) ::
      lutIndex (cbp (yuvptr + 1 + 1)) (cbp (yuvptr + 1 + 1 + 1)) (cbp (yuvptr + 1)) :: st.lutReads
    writes := (rgb565ptr + 1 + 1 + 1) :: (rgb565ptr + 1 + 1) :: (rgb565ptr + 1) :: rgb565ptr ::
      st.writes }

/-! ## yuv422_to_rgb565: the packing statements (sv5.c 795-800, lut.c 138-143) -/

/-- The three `uint8_t` values `red`, `green`, `blue` that the floating-point
statements of `yuv422_to_rgb565` leave. -/
structure Rgb888 where
  red : Nat
  green : Nat
  blue : Nat

/-- The packing statements of `yuv422_to_rgb565` in sv5.c (795-800):
`b16 = ((blue >>3) & 0x1f) << 11; g16 = ((green >> 2) & 0x3f) << 5;`
`r16 = (red >> 3) & 0x1f; bgr565 = b16 | g16 | r16;` on `uint16_t` variables. -/
def pack_bgr565 (red green blue : Nat) : Nat :=
  let b16 := toU16 (((blue >>> 3) &&& 0x1f) <<< 11)
  let g16 := toU16 (((green >>> 2) &&& 0x3f) <<< 5)
  let r16 := toU16 ((red >>> 3) &&& 0x1f)
  let bgr565 := toU16 (b16 ||| g16 ||| r16)
  bgr565

/-- Function `uint16_t yuv422_to_rgb565(uint8_t Y, uint8_t U, uint8_t V)` of
sv5.c (755-803). Its floating-point statements (764-777) are a parameter: the
`uint8_t` values they leave in `red`, `green`, `blue` are given by `fp`; their
model under strict IEEE-754 evaluation is `fpStrict` below. -/
def yuv422_to_rgb565 (fp : Nat → Nat → Nat → Rgb888) (Y U V : Nat) : Nat :=
  pack_bgr565 (fp Y U V).red (fp Y U V).green (fp Y U V).blue

/-- The packing statements of `yuv422_to_rgb565` in lut.c (138-143). -/
def lut_pack_bgr565 (red green blue : Nat) : Nat :=
  let b16 := toU16 (((blue >>> 3) &&& 0x1f) <<< 11)
  let g16 := toU16 (((green >>> 2) &&& 0x3f) <<< 5)
  let r16 := toU16 ((red >>> 3) &&& 0x1f)
  let bgr565 := toU16 (b16 ||| g16 ||| r16)
  bgr565

/-- Function `uint16_t yuv422_to_rgb565(uint8_t Y, uint8_t U, uint8_t V)` of
lut.c (101-145); its floating-point statements (110-123) are the same text as
those of sv5.c and are given by the same `fp`. -/
def lut_yuv422_to_rgb565 (fp : Nat → Nat → Nat → Rgb888) (Y U V : Nat) : Nat :=
  lut_pack_bgr565 (fp Y U V).red (fp Y U V).green (fp Y U V).blue

/-! ## init_fb_color (sv5.c 1019-1035) -/

/-- Macro `#define GRAY 0xc618` -/
def GRAY : Nat := 0xc618

/-- The loop `for(i=0; i<HVGA_WIDTH*HVGA_HEIGHT; i++)` of `init_fb_color`,
entered with the current `i` and `fbptr` (as a pixel offset from `fbp`). -/
@[irreducible]
def initFbLoop (color : Nat) : Nat → Nat → Nat → FbState → Option FbState
  | 0, i, _, st => if i < HVGA_WIDTH * HVGA_HEIGHT then none else some st
  | fuel + 1, i, fbptr, st =>
    if i < HVGA_WIDTH * HVGA_HEIGHT then
      let st := { fb := store st.fb fbptr color, reads := st.reads, writes := fbptr :: st.writes }
      let fbptr := fbptr + 1
      initFbLoop color fuel (i + 1) fbptr st
    else some st

/-- Function `int init_fb_color(void *fbp, uint16_t color)`: the returned `int`
and the final state. -/
def init_fb_color (fbp : Nat → Nat) (color : Nat) : Option (Int × FbState) :=
  (initFbLoop color (HVGA_WIDTH * HVGA_HEIGHT) 0 0 { fb := fbp, reads := [], writes := [] }).map
    fun st => (0, st)

/-! ## main of sv5.c (155-508): system calls and the streaming loop -/

/-- Macro `#define SAMPLE_SIZE 100` -/
def SAMPLE_SIZE : Nat := 100

/-- Global `int count=SAMPLE_SIZE;` (initial value). -/
def count : Int := SAMPLE_SIZE

/-- Global `int tlog=1;`, never assigned. -/
def tlog : Int := 1

/-- The calls of `main` whose outcome decides the control flow or is ignored by
it: `open`, `ioctl` and `mmap` on the framebuffer, the camera and the table. -/
inductive Call where
  | open_fb
  | FBIOGET_VSCREENINFO
  | FBIOPUT_VSCREENINFO
  | FBIOGET_FSCREENINFO
  | mmap_fb
  | open_video
  | VIDIOC_QUERYCAP
  | VIDIOC_S_FMT
  | VIDIOC_REQBUFS
  | VIDIOC_QUERYBUF
  | mmap_video
  | VIDIOC_STREAMON
  | open_lut
  | mmap_lut
  | VIDIOC_QBUF
  | VIDIOC_DQBUF
  | VIDIOC_STREAMOFF
  deriving DecidableEq, Repr

/-- What `main` does, in program order: a call with its outcome (`true` when
the call did not fail), or a call of one of the frame functions. -/
inductive Event where
  | call (c : Call) (ok : Bool)
  | init_fb_color
  | convert3
  | HaarDwt
  | display_LCD4
  deriving DecidableEq, Repr

/-- The capability bits of `linux/videodev2.h` that `main` tests; the header is
not part of the repository, so the two masks are parameters. -/
structure Videodev2 where
  V4L2_CAP_VIDEO_CAPTURE : Nat
  V4L2_CAP_STREAMING : Nat

/-- The environment of one run of `main`: the outcome of every call (`true`
when it does not fail; `qbuf n` and `dqbuf n` are the calls of pass `n` of the
streaming loop, counted from 0), the capability word that `VIDIOC_QUERYCAP`
reports, the bytes of the capture buffer after the `VIDIOC_DQBUF` of pass `n`,
the entries of the mapped table and the pixels of the mapped framebuffer. -/
structure Sys where
  open_fb : Bool
  fbioget_vscreeninfo : Bool
  fbioput_vscreeninfo : Bool
  fbioget_vscreeninfo2 : Bool
  fbioget_fscreeninfo : Bool
  mmap_fb : Bool
  open_video : Bool
  querycap : Bool
  capabilities : Nat
  s_fmt : Bool
  reqbufs : Bool
  querybuf : Bool
  mmap_video : Bool
  streamon : Bool
  open_lut : Bool
  mmap_lut : Bool
  qbuf : Nat → Bool
  dqbuf : Nat → Bool
  streamoff : Bool
  frame : Nat → Nat → Nat
  lut : Nat → Nat
  fb : Nat → Nat

/-- How a run of `main` ends: the exit status (the argument of `exit` or the
value returned by `main`), the events in program order, the framebuffer and the
number of completed passes of the streaming loop. -/
structure Outcome where
  status : Int
  trace : List Event
  fb : Nat → Nat
  frames : Nat

/-- Lines 157-336 of `main`: every call up to the mapping of the table.
`Sum.inl` is the outcome when `main` leaves there (`exit(1)`, `exit(0)` at line
267, `return(0)` at lines 325 and 335); `Sum.inr` is the trace with which `main`
goes on. The results of the `FBIOGET_*` calls (172, 183, 184) are not tested. -/
def setup (hdr : Videodev2) (sys : Sys) : Sum Outcome (List Event) :=
  let tr := [Event.call Call.open_fb sys.open_fb]
  if sys.open_fb = false then Sum.inl ⟨1, tr, sys.fb, 0⟩ else
  let tr := tr ++ [Event.call Call.FBIOGET_VSCREENINFO sys.fbioget_vscreeninfo]
  let tr := tr ++ [Event.call Call.FBIOPUT_VSCREENINFO sys.fbioput_vscreeninfo]
  if sys.fbioput_vscreeninfo = false then Sum.inl ⟨1, tr, sys.fb, 0⟩ else
  let tr := tr ++ [Event.call Call.FBIOGET_VSCREENINFO sys.fbioget_vscreeninfo2]
  let tr := tr ++ [Event.call Call.FBIOGET_FSCREENINFO sys.fbioget_fscreeninfo]
  let tr := tr ++ [Event.call Call.mmap_fb sys.mmap_fb]
  if sys.mmap_fb = false then Sum.inl ⟨1, tr, sys.fb, 0⟩ else
  let tr := tr ++ [Event.call Call.open_video sys.open_video]
  if sys.open_video = false then Sum.inl ⟨1, tr, sys.fb, 0⟩ else
  let tr := tr ++ [Event.call Call.VIDIOC_QUERYCAP sys.querycap]
  if sys.querycap = false then Sum.inl ⟨1, tr, sys.fb, 0⟩ else
  if sys.capabilities &&& hdr.V4L2_CAP_VIDEO_CAPTURE = 0 then Sum.inl ⟨1, tr, sys.fb, 0⟩ else
  if sys.capabilities &&& hdr.V4L2_CAP_STREAMING = 0 then Sum.inl ⟨1, tr, sys.fb, 0⟩ else
  let tr := tr ++ [Event.call Call.VIDIOC_S_FMT sys.s_fmt]
  if sys.s_fmt = false then Sum.inl ⟨1, tr, sys.fb, 0⟩ else
  let tr := tr ++ [Event.call Call.VIDIOC_REQBUFS sys.reqbufs]
  if sys.reqbufs = false then Sum.inl ⟨0, tr, sys.fb, 0⟩ else
  let tr := tr ++ [Event.call Call.VIDIOC_QUERYBUF sys.querybuf]
  if sys.querybuf = false then Sum.inl ⟨1, tr, sys.fb, 0⟩ else
  let tr := tr ++ [Event.call Call.mmap_video sys.mmap_video]
  if sys.mmap_video = false then Sum.inl ⟨1, tr, sys.fb, 0⟩ else
  let tr := tr ++ [Event.call Call.VIDIOC_STREAMON sys.streamon]
  if sys.streamon = false then Sum.inl ⟨1, tr, sys.fb, 0⟩ else
  let tr := tr ++ [Event.call Call.open_lut sys.open_lut]
  if sys.open_lut = false then Sum.inl ⟨0, tr, sys.fb, 0⟩ else
  let tr := tr ++ [Event.call Call.mmap_lut sys.mmap_lut]
  if sys.mmap_lut = false then Sum.inl ⟨0, tr, sys.fb, 0⟩ else
  Sum.inr tr

/-- The three buffers that the frame functions work on: the bytes of
`rgb565ptr`, the pixels of `imgout_ptr` and the pixels of the framebuffer
`fbp`. -/
structure Bufs where
  rgb565 : Nat → Nat
  imgout : Nat → Nat
  fb : Nat → Nat

/-- Lines 413-429 of `main`: `convert3(cbp, rgb565ptr, lut_ptr);`
`HaarDwt((uint16_t*)rgb565ptr, imgout_ptr);`
`display_LCD4(fbp,(uint8_t*)imgout_ptr);` (the return values are ignored). -/
def processFrame (cbp lut_ptr : Nat → Nat) (b : Bufs) : Option Bufs :=
  (convert3 cbp b.rgb565 lut_ptr).bind fun r1 =>
    (HaarDwt (readU16LE r1.2.rgb565) b.imgout).bind fun r2 =>
      (display_LCD4 b.fb r2.2.imgout).map fun r3 =>
        { rgb565 := r1.2.rgb565, imgout := r2.2.imgout, fb := r3.2.fb }

/-- The variables of the streaming loop: `count`, the number `n` of completed
passes (it indexes the environment), the buffers and the trace so far. -/
structure LoopState where
  count : Int
  n : Nat
  bufs : Bufs
  trace : List Event

/-- One pass through the body of `while(count)` either calls `exit` or reaches
the end of the body. -/
inductive BodyResult where
  | exit (status : Int) (s : LoopState)
  | next (s : LoopState)

/-- The body of `while(count)` (lines 389-434): `VIDIOC_QBUF`, `VIDIOC_DQBUF`
(each with `exit(1)` on failure), the three frame functions on the frame that
the camera delivered, and `if(tlog) count--;`. -/
def streamBody (sys : Sys) (s : LoopState) : Option BodyResult :=
  let tr := s.trace ++ [Event.call Call.VIDIOC_QBUF (sys.qbuf s.n)]
  if sys.qbuf s.n = false then some (BodyResult.exit 1 { s with trace := tr }) else
  let tr := tr ++ [Event.call Call.VIDIOC_DQBUF (sys.dqbuf s.n)]
  if sys.dqbuf s.n = false then some (BodyResult.exit 1 { s with trace := tr }) else
  (processFrame (sys.frame s.n) sys.lut s.bufs).map fun b =>
    let tr := tr ++ [Event.convert3, Event.HaarDwt, Event.display_LCD4]
    let count := if tlog ≠ 0 then s.count - 1 else s.count
    BodyResult.next { count := count, n := s.n + 1, bufs := b, trace := tr }

/-- How the streaming loop ends: with the status of an `exit` inside the body,
or by leaving the loop (`exited = none`). -/
structure LoopEnd where
  exited : Option Int
  s : LoopState

/-- The loop `while(count)` of `main`. -/
@[irreducible]
def streamLoop (sys : Sys) : Nat → LoopState → Option LoopEnd
  | 0, s => if s.count ≠ 0 then none else some ⟨none, s⟩
  | fuel + 1, s =>
    if s.count ≠ 0 then
      match streamBody sys s with
      | none => none
      | some r =>
        match r with
        | BodyResult.exit status s' => some ⟨some status, s'⟩
        | BodyResult.next s' => streamLoop sys fuel s'
    else some ⟨none, s⟩

/-- Lines 438-506 of `main`, after the streaming loop: when the loop called
`exit` that is the outcome; otherwise `VIDIOC_STREAMOFF` with `exit(1)` on
failure, and `return 0`. -/
def shutdown (sys : Sys) (e : LoopEnd) : Outcome :=
  match e.exited with
  | some status => ⟨status, e.s.trace, e.s.bufs.fb, e.s.n⟩
  | none =>
    let tr := e.s.trace ++ [Event.call Call.VIDIOC_STREAMOFF sys.streamoff]
    if sys.streamoff = false then ⟨1, tr, e.s.bufs.fb, e.s.n⟩
    else ⟨0, tr, e.s.bufs.fb, e.s.n⟩

/-- Function `int main(void)` of sv5.c: `setup`, then `malloc`/`memset` of the
two frame buffers (316-317, 370-371), `init_fb_color(fbp, GRAY)` (365), the
streaming loop and `shutdown`. The clock, console, `madvise` and
clean-up calls and the page-touching loop over the table (347-350) have no
effect on the exit status, the frame functions or the framebuffer and are left
out. -/
def main (hdr : Videodev2) (sys : Sys) : Option Outcome :=
  match setup hdr sys with
  | Sum.inl o => some o
  | Sum.inr tr =>
    (init_fb_color sys.fb GRAY).bind fun r0 =>
      let tr := tr ++ [Event.init_fb_color]
      let b : Bufs := { rgb565 := fun _ => 0, imgout := fun _ => 0xffff, fb := r0.2.fb }
      (streamLoop sys SAMPLE_SIZE { count := count, n := 0, bufs := b, trace := tr }).map
        fun e => shutdown sys e

/-- An environment in which every call succeeds, the camera reports the two
capability bits 0x00000001 and 0x04000000, and frames, table and framebuffer
are all zero. -/
def sysOk : Sys :=
  { open_fb := true, fbioget_vscreeninfo := true, fbioput_vscreeninfo := true,
    fbioget_vscreeninfo2 := true, fbioget_fscreeninfo := true, mmap_fb := true,
    open_video := true, querycap := true, capabilities := 0x04000001, s_fmt := true,
    reqbufs := true, querybuf := true, mmap_video := true, streamon := true,
    open_lut := true, mmap_lut := true, qbuf := fun _ => true, dqbuf := fun _ => true,
    streamoff := true, frame := fun _ _ => 0, lut := fun _ => 0, fb := fun _ => 0 }

/-- The values that `linux/videodev2.h` gives the two capability masks. -/
def hdrLinux : Videodev2 :=
  { V4L2_CAP_VIDEO_CAPTURE := 0x00000001, V4L2_CAP_STREAMING := 0x04000000 }

/-! ## Section 3 of the specification: the capture-buffer lifecycle -/

/-- Spec 3, CaptureBuffer lifecycle states (`Filled` is not observable by the
process: it lies between a successful queue and a successful dequeue). -/
inductive BufState where
  | Unqueued
  | Queued
  | Dequeued
  deriving DecidableEq, Repr

/-- Spec 3: a successful `VIDIOC_QBUF` is allowed only when the buffer is not
queued, a successful `VIDIOC_DQBUF` only when it is queued, and `convert3` may
read the buffer only while it is dequeued; `none` is a violation. -/
def bufStep (s : BufState) (e : Event) : Option BufState :=
  if e = Event.call Call.VIDIOC_QBUF true then
    (if s = BufState.Queued then none else some BufState.Queued)
  else if e = Event.call Call.VIDIOC_DQBUF true then
    (if s = BufState.Queued then some BufState.Dequeued else none)
  else if e = Event.convert3 then
    (if s = BufState.Dequeued then some s else none)
  else some s

/-- The lifecycle state after a trace, or `none` when the trace violates the
lifecycle. -/
def bufRun : BufState → List Event → Option BufState
  | s, [] => some s
  | s, e :: es =>
    match bufStep s e with
    | none => none
    | some s' => bufRun s' es

/-- One pass of the streaming loop without failure, as events. -/
def round : List Event :=
  [Event.call Call.VIDIOC_QBUF true, Event.call Call.VIDIOC_DQBUF true, Event.convert3,
    Event.HaarDwt, Event.display_LCD4]

/-- The events of `k` passes without failure. -/
def rounds : Nat → List Event
  | 0 => []
  | k + 1 => round ++ rounds k

/-- The state of the streaming loop after `k` passes through its body, none of
which calls `exit`; `none` when one does. -/
def afterPasses (sys : Sys) : Nat → LoopState → Option LoopState
  | 0, s => some s
  | k + 1, s =>
    match streamBody sys s with
    | some (BodyResult.next s') => afterPasses sys k s'
    | _ => none

/-- No call that `main` tests fails: every tested call of `setup` succeeds, the
two capability bits are reported, the `VIDIOC_QBUF` and `VIDIOC_DQBUF` of each
of the `SAMPLE_SIZE` passes succeed and so does `VIDIOC_STREAMOFF`. -/
def NoFailure (hdr : Videodev2) (sys : Sys) : Prop :=
  sys.open_fb = true ∧ sys.fbioput_vscreeninfo = true ∧ sys.mmap_fb = true ∧
  sys.open_video = true ∧ sys.querycap = true ∧
  sys.capabilities &&& hdr.V4L2_CAP_VIDEO_CAPTURE ≠ 0 ∧
  sys.capabilities &&& hdr.V4L2_CAP_STREAMING ≠ 0 ∧
  sys.s_fmt = true ∧ sys.reqbufs = true ∧ sys.querybuf = true ∧ sys.mmap_video = true ∧
  sys.streamon = true ∧ sys.open_lut = true ∧ sys.mmap_lut = true ∧
  (∀ n, n < SAMPLE_SIZE → sys.qbuf n = true ∧ sys.dqbuf n = true) ∧
  sys.streamoff = true

/-- The events of the streaming loop's body: the two buffer calls and the three
frame functions. -/
def loopEvent : Event → Bool
  | Event.call Call.VIDIOC_QBUF _ => true
  | Event.call Call.VIDIOC_DQBUF _ => true
  | Event.convert3 => true
  | Event.HaarDwt => true
  | Event.display_LCD4 => true
  | _ => false

/-- The events of a result of `setup`, on either side. -/
def sumTrace : Sum Outcome (List Event) → List Event
  | Sum.inl o => o.trace
  | Sum.inr tr => tr

/-! ## convert2 (sv5.c 576-630) -/

/-- The loop `for(i=0; i<YUYV_SIZE; i++)` of `convert2`, entered with the
current `i`, `yuvptr` and `rgb565ptr` (as byte offsets). The function
`yuv422_to_rgb565` that the body calls is the argument `conv`; `convert2` reads
no table, so the log `lutReads` stays as it is. -/
@[irreducible]
def convert2Loop (conv : Nat → Nat → Nat → Nat) (cbp : Nat → Nat) :
    Nat → Nat → Nat → Nat → ConvState → Option ConvState
  | 0, i, _, _, st => if i < YUYV_SIZE then none else some st
  | fuel + 1, i, yuvptr, rgb565ptr, st =>
    if i < YUYV_SIZE then
      let rd0 := yuvptr
      let Y1 := cbp yuvptr
      let i := i + 1
      let yuvptr := yuvptr + 1
      let rd1 := yuvptr
      let V0 := cbp yuvptr
      let i := i + 1
      let yuvptr := yuvptr + 1
      let rd2 := yuvptr
      let Y0 := cbp yuvptr
      let i := i + 1
      let yuvptr := yuvptr + 1
      let rd3 := yuvptr
      let U0 := cbp yuvptr
      let yuvptr := yuvptr + 1
      let rgb565 := conv Y0 U0 V0
      let pixel := rgb565 % 256
      let out := store st.rgb565 rgb565ptr pixel
      let wr0 := rgb565ptr
      let rgb565ptr := rgb565ptr + 1
      let pixel := (rgb565 >>> 8) % 256
      let out := store out rgb565ptr pixel
      let wr1 := rgb565ptr
      let rgb565ptr := rgb565ptr + 1
      let rgb565 := conv Y1 U0 V0
      let pixel := rgb565 % 256
      let out := store out rgb565ptr pixel
      let wr2 := rgb565ptr
      let rgb565ptr := rgb565ptr + 1
      let pixel := (rgb565 >>> 8) % 256
      let out := store out rgb565ptr pixel
      let wr3 := rgb565ptr
      let rgb565ptr := rgb565ptr + 1
      convert2Loop conv cbp fuel (i + 1) yuvptr rgb565ptr
        { rgb565 := out
          yuvReads := rd3 :: rd2 :: rd1 :: rd0 :: st.yuvReads
          lutReads := st.lutReads
          writes := wr3 :: wr2 :: wr1 :: wr0 :: st.writes }
    else some st

/-- Function `int convert2(void *cbp, uint8_t *rgb565ptr)`: the returned `int`
and the final state. -/
def convert2 (conv : Nat → Nat → Nat → Nat) (cbp rgb565buf : Nat → Nat) :
    Option (Int × ConvState) :=
  (convert2Loop conv cbp YUYV_SIZE 0 0 0
      { rgb565 := rgb565buf, yuvReads := [], lutReads := [], writes := [] }).map
    fun st => (0, st)

/-! ## HaarDwt of haar4.c (86-300) -/

/-- Macro `#define QUAD_ROW_ORIGIN 256*512` of haar4.c (always used as
`(QUAD_ROW_ORIGIN)`). -/
def haar4_QUAD_ROW_ORIGIN : Nat := 256 * 512
/-- Macro `#define QUAD_COL_OFFSET 256` of haar4.c -/
def haar4_QUAD_COL_OFFSET : Nat := 256
/-- Macro `#define QUAD_ROW_OFFSET 512` of haar4.c -/
def haar4_QUAD_ROW_OFFSET : Nat := 512
/-- Macro `#define H_ROW_WIDTH 512` of haar4.c -/
def haar4_H_ROW_WIDTH : Nat := 512
/-- Macro `#define H_COL_HEIGHT 512` of haar4.c -/
def haar4_H_COL_HEIGHT : Nat := 512

/-- The inner loop `for(j=0; j<H_COL_HEIGHT; j++)` of `HaarDwt` in haar4.c,
entered with the current `j` and `k`; the body increments `j` once more. The
kernel between the reads and the writes is the same text as in sv5.c. -/
@[irreducible]
def haar4Cols (imgin : Nat → Nat) (i quad_row_offset : Nat) :
    Nat → Nat → Nat → HaarState → Option HaarState
  | 0, j, _, st => if j < haar4_H_COL_HEIGHT then none else some st
  | fuel + 1, j, k, st =>
    if j < haar4_H_COL_HEIGHT then
      let r1c1 := imgin ((haar4_H_ROW_WIDTH * i) + j)
      let r1c2 := imgin ((haar4_H_ROW_WIDTH * i) + (j + 1))
      let r2c1 := imgin ((haar4_H_ROW_WIDTH * (i + 1)) + j)
      let r2c2 := imgin ((haar4_H_ROW_WIDTH * (i + 1)) + (j + 1))
      let rd := ((haar4_H_ROW_WIDTH * (i + 1)) + (j + 1)) :: ((haar4_H_ROW_WIDTH * (i + 1)) + j) ::
        ((haar4_H_ROW_WIDTH * i) + (j + 1)) :: ((haar4_H_ROW_WIDTH * i) + j) :: st.reads
      let j := j + 1
      let px := haarBlock r1c1 r1c2 r2c1 r2c2
      let out := store st.imgout (quad_row_offset + k) px.rgb565_ll
      let out := store out (haar4_QUAD_COL_OFFSET + (quad_row_offset + k)) px.rgb565_lh
      let out := store out ((haar4_QUAD_ROW_ORIGIN) + (quad_row_offset + k)) px.rgb565_hl
      let out := store out
        ((haar4_QUAD_ROW_ORIGIN) + haar4_QUAD_COL_OFFSET + (quad_row_offset + k)) px.rgb565_hh
      let wr := ((haar4_QUAD_ROW_ORIGIN) + haar4_QUAD_COL_OFFSET + (quad_row_offset + k)) ::
        ((haar4_QUAD_ROW_ORIGIN) + (quad_row_offset + k)) ::
        (haar4_QUAD_COL_OFFSET + (quad_row_offset + k)) :: (quad_row_offset + k) :: st.writes
      let k := k + 1
      haar4Cols imgin i quad_row_offset fuel (j + 1) k { imgout := out, reads := rd, writes := wr }
    else some st

/-- The outer loop `for(i=0; i<H_ROW_WIDTH; i++)` of `HaarDwt` in haar4.c,
entered with the current `i` and `h`; the body ends with `i++; h++;`. -/
@[irreducible]
def haar4Rows (imgin : Nat → Nat) : Nat → Nat → Nat → HaarState → Option HaarState
  | 0, i, _, st => if i < haar4_H_ROW_WIDTH then none else some st
  | fuel + 1, i, h, st =>
    if i < haar4_H_ROW_WIDTH then
      let quad_row_offset := haar4_QUAD_ROW_OFFSET * h
      match haar4Cols imgin i quad_row_offset haar4_H_COL_HEIGHT 0 0 st with
      | none => none
      | some st =>
        let i := i + 1
        let h := h + 1
        haar4Rows imgin fuel (i + 1) h st
    else some st

/-- Function `int HaarDwt(uint16_t *imgin_ptr, uint16_t *imgout_ptr)` of
haar4.c: the returned `int` and the final state. -/
def haar4_HaarDwt (imgin imgout : Nat → Nat) : Option (Int × HaarState) :=
  (haar4Rows imgin haar4_H_ROW_WIDTH 0 0 { imgout := imgout, reads := [], writes := [] }).map
    fun st => (0, st)

/-! ## HaarDwt with every clamp statement removed -/

/-- The channel computation of `HaarDwt` with every statement
`if(x>M) x=M;` deleted (so the channel maximum `M` no longer occurs). -/
def haarChannelNoClamp (c_r1c1 c_r1c2 c_r2c1 c_r2c2 : Int) : ChanOut :=
  let lp1 := (c_r1c1 + c_r2c1).tdiv 2
  let lp2 := (c_r1c2 + c_r2c2).tdiv 2
  let lp3 := (lp1 + lp2).tdiv 2
  let c_ll := toU8 lp3
  let hp1 := cAbs ((lp1 - lp2).tdiv 2)
  let c_lh := toU8 (hp1 * 10)
  let hp1 := cAbs ((c_r1c1 - c_r2c1).tdiv 2)
  let hp2 := cAbs ((c_r1c2 - c_r2c2).tdiv 2)
  let lp1 := (hp1 + hp2).tdiv 2
  let c_hl := toU8 (lp1 * 10)
  let hp3 := cAbs ((hp1 - hp2).tdiv 2)
  let c_hh := toU8 (hp3 * 10)
  { ll := c_ll, lh := c_lh, hl := c_hl, hh := c_hh }

/-- The body of the inner loop of `HaarDwt` between the reads and the writes,
with every clamp statement deleted. -/
def haarBlockNoClamp (r1c1 r1c2 r2c1 r2c2 : Nat) : BlockOut :=
  let red := haarChannelNoClamp (unpackRed r1c1) (unpackRed r1c2) (unpackRed r2c1) (unpackRed r2c2)
  let grn := haarChannelNoClamp (unpackGrn r1c1) (unpackGrn r1c2) (unpackGrn r2c1) (unpackGrn r2c2)
  let blu := haarChannelNoClamp (unpackBlu r1c1) (unpackBlu r1c2) (unpackBlu r2c1) (unpackBlu r2c2)
  { rgb565_ll := pack565 red.ll grn.ll blu.ll
    rgb565_lh := pack565 red.lh grn.lh blu.lh
    rgb565_hl := pack565 red.hl grn.hl blu.hl
    rgb565_hh := pack565 red.hh grn.hh blu.hh }

/-- The inner loop of `HaarDwt` of sv5.c with every clamp statement deleted. -/
@[irreducible]
def haarColsNoClamp (imgin : Nat → Nat) (i quad_row_offset : Nat) :
    Nat → Nat → Nat → HaarState → Option HaarState
  | 0, j, _, st => if j < H_NUM_COLS then none else some st
  | fuel + 1, j, k, st =>
    if j < H_NUM_COLS then
      let r1c1 := imgin ((H_ROW_WIDTH * i) + j)
      let r1c2 := imgin ((H_ROW_WIDTH * i) + (j + 1))
      let r2c1 := imgin ((H_ROW_WIDTH * (i + 1)) + j)
      let r2c2 := imgin ((H_ROW_WIDTH * (i + 1)) + (j + 1))
      let rd := ((H_ROW_WIDTH * (i + 1)) + (j + 1)) :: ((H_ROW_WIDTH * (i + 1)) + j) ::
        ((H_ROW_WIDTH * i) + (j + 1)) :: ((H_ROW_WIDTH * i) + j) :: st.reads
      let j := j + 1
      let px := haarBlockNoClamp r1c1 r1c2 r2c1 r2c2
      let out := store st.imgout (quad_row_offset + k) px.rgb565_ll
      let out := store out (QUAD_COL_OFFSET + (quad_row_offset + k)) px.rgb565_lh
      let out := store out ((QUAD_ROW_ORIGIN) + (quad_row_offset + k)) px.rgb565_hl
      let out := store out ((QUAD_ROW_ORIGIN) + QUAD_COL_OFFSET + (quad_row_offset + k))
        px.rgb565_hh
      let wr := ((QUAD_ROW_ORIGIN) + QUAD_COL_OFFSET + (quad_row_offset + k)) ::
        ((QUAD_ROW_ORIGIN) + (quad_row_offset + k)) ::
        (QUAD_COL_OFFSET + (quad_row_offset + k)) :: (quad_row_offset + k) :: st.writes
      let k := k + 1
      haarColsNoClamp imgin i quad_row_offset fuel (j + 1) k
        { imgout := out, reads := rd, writes := wr }
    else some st

/-- The outer loop of `HaarDwt` of sv5.c over the inner loop without clamps. -/
@[irreducible]
def haarRowsNoClamp (imgin : Nat → Nat) : Nat → Nat → Nat → HaarState → Option HaarState
  | 0, i, _, st => if i < H_NUM_ROWS then none else some st
  | fuel + 1, i, h, st =>
    if i < H_NUM_ROWS then
      let quad_row_offset := QUAD_ROW_OFFSET * h
      match haarColsNoClamp imgin i quad_row_offset H_NUM_COLS 0 0 st with
      | none => none
      | some st =>
        let i := i + 1
        let h := h + 1
        haarRowsNoClamp imgin fuel (i + 1) h st
    else some st

/-- Function `HaarDwt` of sv5.c with every clamp statement deleted. -/
def HaarDwtNoClamp (imgin imgout : Nat → Nat) : Option (Int × HaarState) :=
  (haarRowsNoClamp imgin H_NUM_ROWS 0 0 { imgout := imgout, reads := [], writes := [] }).map
    fun st => (0, st)

/-- The inner loop of `HaarDwt` of haar4.c with every clamp statement deleted. -/
@[irreducible]
def haar4ColsNoClamp (imgin : Nat → Nat) (i quad_row_offset : Nat) :
    Nat → Nat → Nat → HaarState → Option HaarState
  | 0, j, _, st => if j < haar4_H_COL_HEIGHT then none else some st
  | fuel + 1, j, k, st =>
    if j < haar4_H_COL_HEIGHT then
      let r1c1 := imgin ((haar4_H_ROW_WIDTH * i) + j)
      let r1c2 := imgin ((haar4_H_ROW_WIDTH * i) + (j + 1))
      let r2c1 := imgin ((haar4_H_ROW_WIDTH * (i + 1)) + j)
      let r2c2 := imgin ((haar4_H_ROW_WIDTH * (i + 1)) + (j + 1))
      let rd := ((haar4_H_ROW_WIDTH * (i + 1)) + (j + 1)) :: ((haar4_H_ROW_WIDTH * (i + 1)) + j) ::
        ((haar4_H_ROW_WIDTH * i) + (j + 1)) :: ((haar4_H_ROW_WIDTH * i) + j) :: st.reads
      let j := j + 1
      let px := haarBlockNoClamp r1c1 r1c2 r2c1 r2c2
      let out := store st.imgout (quad_row_offset + k) px.rgb565_ll
      let out := store out (haar4_QUAD_COL_OFFSET + (quad_row_offset + k)) px.rgb565_lh
      let out := store out ((haar4_QUAD_ROW_ORIGIN) + (quad_row_offset + k)) px.rgb565_hl
      let out := store out
        ((haar4_QUAD_ROW_ORIGIN) + haar4_QUAD_COL_OFFSET + (quad_row_offset + k)) px.rgb565_hh
      let wr := ((haar4_QUAD_ROW_ORIGIN) + haar4_QUAD_COL_OFFSET + (quad_row_offset + k)) ::
        ((haar4_QUAD_ROW_ORIGIN) + (quad_row_offset + k)) ::
        (haar4_QUAD_COL_OFFSET + (quad_row_offset + k)) :: (quad_row_offset + k) :: st.writes
      let k := k + 1
      haar4ColsNoClamp imgin i quad_row_offset fuel (j + 1) k
        { imgout := out, reads := rd, writes := wr }
    else some st

/-- The outer loop of `HaarDwt` of haar4.c over the inner loop without clamps. -/
@[irreducible]
def haar4RowsNoClamp (imgin : Nat → Nat) : Nat → Nat → Nat → HaarState → Option HaarState
  | 0, i, _, st => if i < haar4_H_ROW_WIDTH then none else some st
  | fuel + 1, i, h, st =>
    if i < haar4_H_ROW_WIDTH then
      let quad_row_offset := haar4_QUAD_ROW_OFFSET * h
      match haar4ColsNoClamp imgin i quad_row_offset haar4_H_COL_HEIGHT 0 0 st with
      | none => none
      | some st =>
        let i := i + 1
        let h := h + 1
        haar4RowsNoClamp imgin fuel (i + 1) h st
    else some st

/-- Function `HaarDwt` of haar4.c with every clamp statement deleted. -/
def haar4_HaarDwtNoClamp (imgin imgout : Nat → Nat) : Option (Int × HaarState) :=
  (haar4RowsNoClamp imgin haar4_H_ROW_WIDTH 0 0
    { imgout := imgout, reads := [], writes := [] }).map fun st => (0, st)

/-! ## Section 9 of the specification: one transform for every resolution -/

/-- The four output pixels of the block made of input rows `2*bi`, `2*bi+1`
and columns `2*bj`, `2*bj+1` of an image `W` pixels wide. -/
def blockOf (W : Nat) (imgin : Nat → Nat) (bi bj : Nat) : BlockOut :=
  haarBlock (imgin (W * (2 * bi) + 2 * bj)) (imgin (W * (2 * bi) + (2 * bj + 1)))
    (imgin (W * (2 * bi + 1) + 2 * bj)) (imgin (W * (2 * bi + 1) + (2 * bj + 1)))

/-- The transform parameterised by width `W` and height `H`, as a function
from the output pixel index to the pixel: row `w / W` and column `w % W` select
the quadrant, and within the quadrant the block; indices from `W * H` on keep
what the output buffer held. -/
def haarTransform (W H : Nat) (imgin imgout : Nat → Nat) (w : Nat) : Nat :=
  if w < W * H then
    let px := blockOf W imgin (w / W % (H / 2)) (w % W % (W / 2))
    if w / W < H / 2 then
      (if w % W < W / 2 then px.rgb565_ll else px.rgb565_lh)
    else
      (if w % W < W / 2 then px.rgb565_hl else px.rgb565_hh)
  else imgout w

/-! ## Auxiliary definitions of the proofs (second part) -/

/-- The state after one pass through the body of the loop of `convert2`. -/
def conv2Body (conv : Nat → Nat → Nat → Nat) (cbp : Nat → Nat) (yuvptr rgb565ptr : Nat)
    (st : ConvState) : ConvState :=
  { rgb565 :=
      store (store (store (store st.rgb565 rgb565ptr
        (conv (cbp (yuvptr + 1 + 1)) (cbp (yuvptr + 1 + 1 + 1)) (cbp (yuvptr + 1)) % 256))
        (rgb565ptr + 1)
        ((conv (cbp (yuvptr + 1 + 1)) (cbp (yuvptr + 1 + 1 + 1)) (cbp (yuvptr + 1)) >>> 8) % 256))
        (rgb565ptr + 1 + 1)
        (conv (cbp yuvptr) (cbp (yuvptr + 1 + 1 + 1)) (cbp (yuvptr + 1)) % 256))
        (rgb565ptr + 1 + 1 + 1)
        ((conv (cbp yuvptr) (cbp (yuvptr + 1 + 1 + 1)) (cbp (yuvptr + 1)) >>> 8) % 256)
    yuvReads := (yuvptr + 1 + 1 + 1) :: (yuvptr + 1 + 1) :: (yuvptr + 1) :: yuvptr :: st.yuvReads
    lutReads := st.lutReads
    writes := (rgb565ptr + 1 + 1 + 1) :: (rgb565ptr + 1 + 1) :: (rgb565ptr + 1) :: rgb565ptr ::
      st.writes }

/-- The state after one pass through the body of the inner loop of `HaarDwt`
of haar4.c. -/
def haar4Body (imgin : Nat → Nat) (i quad_row_offset j k : Nat) (st : HaarState) : HaarState :=
  let px := haarBlock (imgin ((haar4_H_ROW_WIDTH * i) + j)) (imgin ((haar4_H_ROW_WIDTH * i) + (j + 1)))
    (imgin ((haar4_H_ROW_WIDTH * (i + 1)) + j)) (imgin ((haar4_H_ROW_WIDTH * (i + 1)) + (j + 1)))
  { imgout :=
      store (store (store (store st.imgout (quad_row_offset + k) px.rgb565_ll)
        (haar4_QUAD_COL_OFFSET + (quad_row_offset + k)) px.rgb565_lh)
        ((haar4_QUAD_ROW_ORIGIN) + (quad_row_offset + k)) px.rgb565_hl)
        ((haar4_QUAD_ROW_ORIGIN) + haar4_QUAD_COL_OFFSET + (quad_row_offset + k)) px.rgb565_hh
    reads := ((haar4_H_ROW_WIDTH * (i + 1)) + (j + 1)) :: ((haar4_H_ROW_WIDTH * (i + 1)) + j) ::
      ((haar4_H_ROW_WIDTH * i) + (j + 1)) :: ((haar4_H_ROW_WIDTH * i) + j) :: st.reads
    writes := ((haar4_QUAD_ROW_ORIGIN) + haar4_QUAD_COL_OFFSET + (quad_row_offset + k)) ::
      ((haar4_QUAD_ROW_ORIGIN) + (quad_row_offset + k)) ::
      (haar4_QUAD_COL_OFFSET + (quad_row_offset + k)) :: (quad_row_offset + k) :: st.writes }

/-! ## The floating-point statements of yuv422_to_rgb565 under strict IEEE-754 evaluation
(sv5.c 764-777, lut.c 110-123) -/

/-- The integer nearest to `a / b`, ties to the even one. -/
def rneQuot (a b : Nat) : Nat :=
  let q := a / b
  let r := a % b
  if 2 * r < b then q else if 2 * r > b then q + 1 else if q % 2 = 0 then q else q + 1

/-- IEEE-754 round-to-nearest-even to `p` significant bits. A `double` or
`float` value `v` is represented exactly by the integer `v * 2^54`: every value
that the statements of `yuv422_to_rgb565` produce is a multiple of `2^-54` of
magnitude below `2^10`, far inside the normal range of both formats, so the
exponent range is not modelled. -/
def roundBits (p : Nat) (x : Int) : Int :=
  let m := x.natAbs
  let s := (Nat.log2 m + 1) - p
  let r := rneQuot m (2 ^ s) * 2 ^ s
  if x < 0 then -(r : Int) else (r : Int)

/-- The result of a `double` operation: the exact result rounded to 53 bits. -/
def toDouble (x : Int) : Int := roundBits 53 x

/-- The conversion of a `double` to `float` in `r = ...;`: rounding to 24 bits. -/
def toFloat (x : Int) : Int := roundBits 24 x

/-- The `double` that a decimal constant `num / den` denotes (the nearest one),
in units of `2^-54`; `k` is the number of fraction bits of a `double` of that
magnitude (52 for a constant in [1, 2)). -/
def doubleLit (num den k : Nat) : Int := (rneQuot (num * 2 ^ k) den : Int) * 2 ^ (54 - k)

/-- The constant `1.164` -/
def d1_164 : Int := doubleLit 1164 1000 52
/-- The constant `1.596` -/
def d1_596 : Int := doubleLit 1596 1000 52
/-- The constant `0.813` (in [0.5, 1): 53 fraction bits) -/
def d0_813 : Int := doubleLit 813 1000 53
/-- The constant `0.391` (in [0.25, 0.5): 54 fraction bits) -/
def d0_391 : Int := doubleLit 391 1000 54
/-- The constant `2.018` (in [2, 4): 51 fraction bits) -/
def d2_018 : Int := doubleLit 2018 1000 51

/-- The statements `if(r<0) r=0; if(r>255) r=255; red = (uint8_t)r;` on a
`float` `r` (the conversion to `uint8_t` truncates toward zero). -/
def clampToU8 (r : Int) : Nat :=
  let r := if r < 0 then 0 else r
  let r := if r > 255 * 2 ^ 54 then 255 * 2 ^ 54 else r
  toU8 (r.tdiv (2 ^ 54))

/-- The statements for `red`:
`r = 1.164*(float)(Y-16) + 1.596*(float)(V-128);` and the three that follow.
`Y-16` is an `int`, its conversion to `float` and then `double` is exact, each
product and the sum are `double` operations, and the assignment rounds to
`float`. -/
def fpRed (Y V : Nat) : Nat :=
  let r := toFloat (toDouble (toDouble (d1_164 * ((Y : Int) - 16)) +
    toDouble (d1_596 * ((V : Int) - 128))))
  clampToU8 r

/-- The statements for `green`:
`g = 1.164*(float)(Y-16) - 0.813*(float)(V-128) - 0.391*(float)(U-128);` and
the three that follow; the subtractions associate to the left. -/
def fpGreen (Y U V : Nat) : Nat :=
  let g := toFloat (toDouble (toDouble (toDouble (d1_164 * ((Y : Int) - 16)) -
    toDouble (d0_813 * ((V : Int) - 128))) - toDouble (d0_391 * ((U : Int) - 128))))
  clampToU8 g

/-- The statements for `blue`:
`b = 1.164*(float)(Y-16) + 2.018*(float)(U-128);` and the three that follow. -/
def fpBlue (Y U : Nat) : Nat :=
  let b := toFloat (toDouble (toDouble (d1_164 * ((Y : Int) - 16)) +
    toDouble (d2_018 * ((U : Int) - 128))))
  clampToU8 b

/-- The floating-point part of `yuv422_to_rgb565` (the same text in sv5.c and
lut.c) when every operation is evaluated in its own type and rounded once: no
extended precision and no fused multiply-add. -/
def fpStrict (Y U V : Nat) : Rgb888 :=
  { red := fpRed Y V, green := fpGreen Y U V, blue := fpBlue Y U }

/-! ## Section 4.1 of the specification: the conversion formula over the rationals -/

/-- Spec 4.1 `clamp(x, 0, 255)` on an exact value, truncated to an 8-bit
integer (the clamped value is not negative, so truncation is the floor). -/
def specChannel (x : ℚ) : Nat :=
  (⌊(if x < 0 then 0 else if x > 255 then 255 else x : ℚ)⌋).toNat

/-- Spec 4.1 `r = clamp(1.164*(Y-16) + 1.596*(V-128), 0, 255)`, truncated. -/
def specRed (Y V : Nat) : Nat :=
  specChannel (1.164 * ((Y : ℚ) - 16) + 1.596 * ((V : ℚ) - 128))

/-- Spec 4.1 `g = clamp(1.164*(Y-16) - 0.813*(V-128) - 0.391*(U-128), 0, 255)`,
truncated. -/
def specGreen (Y U V : Nat) : Nat :=
  specChannel (1.164 * ((Y : ℚ) - 16) - 0.813 * ((V : ℚ) - 128) - 0.391 * ((U : ℚ) - 128))

/-- Spec 4.1 `b = clamp(1.164*(Y-16) + 2.018*(U-128), 0, 255)`, truncated. -/
def specBlue (Y U : Nat) : Nat :=
  specChannel (1.164 * ((Y : ℚ) - 16) + 2.018 * ((U : ℚ) - 128))

/-- The channel value of the exact formula whose value is `N / 1000`. -/
def specThousandths (N : Int) : Nat :=
  if N < 0 then 0 else if N > 255000 then 255 else (N / 1000).toNat

/-! ## Arithmetic lemmas -/

theorem cAbs_tdiv2 (x : Int) : cAbs (x.tdiv 2) = ((x.natAbs / 2 : Nat) : Int) := by
  unfold cAbs
  rcases Int.le_total 0 x with h | h
  · rw [Int.tdiv_eq_ediv h (by decide)]
    split <;> omega
  · have : x.tdiv 2 = -((-x) / 2) := by
      rw [← Int.tdiv_eq_ediv (by omega) (by decide), Int.neg_tdiv, neg_neg]
    rw [this]
    split <;> omega

theorem tdiv2_add (x y : Nat) :
    ((x : Int) + (y : Int)).tdiv 2 = (((x + y) / 2 : Nat) : Int) := by
  rw [Int.tdiv_eq_ediv (by omega) (by decide)]
  omega

theorem cAbs_tdiv2_sub (x y : Nat) :
    cAbs (((x : Int) - (y : Int)).tdiv 2) = ((((x - y) + (y - x)) / 2 : Nat) : Int) := by
  rw [cAbs_tdiv2]
  omega

theorem abs_sub_tdiv2 (x y : Nat) :
    (|(x : Int) - (y : Int)|).tdiv 2 = ((((x - y) + (y - x)) / 2 : Nat) : Int) := by
  rw [Int.abs_eq_natAbs, Int.tdiv_eq_ediv (by omega) (by decide)]
  omega

theorem clamp_hi_nat (x M : Nat) :
    (if (x : Int) > (M : Int) then (M : Int) else (x : Int)) = ((min x M : Nat) : Int) := by
  split <;> omega

theorem clamp_nat (x M : Nat) : clamp (x : Int) 0 (M : Int) = ((min x M : Nat) : Int) := by
  unfold clamp
  split
  · omega
  · split <;> omega

theorem toU8_nat (n : Nat) : toU8 (n : Int) = n % 256 := by
  unfold toU8
  omega

theorem toU8_mul10 (n : Nat) : toU8 ((n : Int) * 10) = n * 10 % 256 := by
  unfold toU8
  omega

theorem haarChannel_eq_nat (M a b c d : Nat) :
    haarChannel (M : Int) (a : Int) (b : Int) (c : Int) (d : Int) = natChannel M a b c d := by
  simp only [haarChannel, natChannel, natPre, tdiv2_add, clamp_hi_nat, cAbs_tdiv2_sub, toU8_nat,
    toU8_mul10]

theorem unpackRed_eq (p : Nat) : unpackRed p = p / 2048 % 32 := by
  unfold unpackRed
  apply Nat.eq_of_testBit_eq
  intro i
  have h : (0xf800 : Nat) = (2 ^ 5 - 1) <<< 11 := by decide
  have h2 : p / 2048 % 32 = (p >>> 11) % 2 ^ 5 := by simp [Nat.shiftRight_eq_div_pow]
  rw [h, h2, Nat.testBit_mod_two_pow]
  simp only [Nat.testBit_shiftRight, Nat.testBit_and, Nat.testBit_shiftLeft,
    Nat.testBit_two_pow_sub_one]
  by_cases hi : i < 5
  · have : 3 + (8 + i) - 11 < 5 := by omega
    have e : 3 + (8 + i) = 11 + i := by omega
    simp [hi, this, e]
  · have : ¬ (3 + (8 + i) - 11 < 5) := by omega
    simp [hi, this]

theorem unpackGrn_eq (p : Nat) : unpackGrn p = p / 32 % 64 := by
  unfold unpackGrn
  apply Nat.eq_of_testBit_eq
  intro i
  have h : (0x07e0 : Nat) = (2 ^ 6 - 1) <<< 5 := by decide
  have h2 : p / 32 % 64 = (p >>> 5) % 2 ^ 6 := by simp [Nat.shiftRight_eq_div_pow]
  rw [h, h2, Nat.testBit_mod_two_pow]
  simp only [Nat.testBit_shiftRight, Nat.testBit_and, Nat.testBit_shiftLeft,
    Nat.testBit_two_pow_sub_one]
  by_cases hi : i < 6
  · have : 5 + i - 5 < 6 := by omega
    simp [hi, this]
  · have : ¬ (5 + i - 5 < 6) := by omega
    simp [hi, this]

theorem unpackBlu_eq (p : Nat) : unpackBlu p = p % 32 := by
  unfold unpackBlu
  exact Nat.and_pow_two_sub_one_eq_mod p 5

theorem pack565_eq (r g b : Nat) (hr : r < 32) (hg : g < 64) (hb : b < 32) :
    pack565 r g b = r * 2048 + g * 32 + b := by
  unfold pack565 toU16
  have h1 : r <<< 11 ||| g <<< 5 = 2 ^ 5 * (2 ^ 6 * r + g) := by
    rw [Nat.shiftLeft_eq, Nat.shiftLeft_eq]
    have e : r * 2 ^ 11 = 2 ^ 11 * r := Nat.mul_comm _ _
    have hg2 : g * 2 ^ 5 < 2 ^ 11 := by omega
    rw [e, ← Nat.mul_add_lt_is_or hg2 r]
    omega
  rw [h1, ← Nat.mul_add_lt_is_or (by omega : b < 2 ^ 5)]
  omega

/-- The block computation on the three bit fields of the four pixels. -/
theorem haarBlockChans_eq (r1c1 r1c2 r2c1 r2c2 : Nat) :
    haarBlockChans r1c1 r1c2 r2c1 r2c2 =
      { red := natChannel 31 (r1c1 / 2048 % 32) (r1c2 / 2048 % 32) (r2c1 / 2048 % 32)
          (r2c2 / 2048 % 32)
        grn := natChannel 63 (r1c1 / 32 % 64) (r1c2 / 32 % 64) (r2c1 / 32 % 64) (r2c2 / 32 % 64)
        blu := natChannel 31 (r1c1 % 32) (r1c2 % 32) (r2c1 % 32) (r2c2 % 32) } := by
  unfold haarBlockChans
  rw [show (0x1f : Int) = ((31 : Nat) : Int) from rfl, show (0x3f : Int) = ((63 : Nat) : Int) from rfl]
  simp only [haarChannel_eq_nat, unpackRed_eq, unpackGrn_eq, unpackBlu_eq]

theorem bitField_11_5 (p : Nat) : bitField p 11 5 = p / 2048 % 32 := by
  simp [bitField]

theorem bitField_5_6 (p : Nat) : bitField p 5 6 = p / 32 % 64 := by
  simp [bitField]

theorem bitField_0_5 (p : Nat) : bitField p 0 5 = p % 32 := by
  simp [bitField]

/-- The specification formulas on channel values that are natural numbers. -/
theorem spec_eq_nat (M a b c d : Nat) :
    specLL M a b c d = (((natPre M a b c d).ll : Nat) : Int) ∧
    specLH M a b c d = (((natPre M a b c d).lh * 10 : Nat) : Int) ∧
    specHL M a b c d = (((natPre M a b c d).hl * 10 : Nat) : Int) ∧
    specHH M a b c d = (((natPre M a b c d).hh * 10 : Nat) : Int) := by
  simp only [specLL, specLH, specHL, specHH, specLP, specHP, tdiv2_add, clamp_nat, abs_sub_tdiv2,
    Nat.cast_mul, Nat.cast_ofNat, natPre]
  exact ⟨trivial, trivial, trivial, trivial⟩

/-- No clamp is reached: bounds of the pre-scale values. -/
theorem natPre_bounds (M a b c d : Nat) (ha : a ≤ M) (hb : b ≤ M) (hc : c ≤ M) (hd : d ≤ M) :
    (natPre M a b c d).ll ≤ M ∧ (natPre M a b c d).lh ≤ M / 2 ∧
    (natPre M a b c d).hl ≤ M / 2 ∧ (natPre M a b c d).hh ≤ M / 4 := by
  simp only [natPre]
  have h1 : min ((a + c) / 2) M ≤ M := Nat.min_le_right _ _
  have h2 : min ((b + d) / 2) M ≤ M := Nat.min_le_right _ _
  have h3 : min (((a - c) + (c - a)) / 2) M ≤ M / 2 := by omega
  have h4 : min (((b - d) + (d - b)) / 2) M ≤ M / 2 := by omega
  generalize min ((a + c) / 2) M = L1 at *
  generalize min ((b + d) / 2) M = L2 at *
  generalize min (((a - c) + (c - a)) / 2) M = H1 at *
  generalize min (((b - d) + (d - b)) / 2) M = H2 at *
  refine ⟨?_, ?_, ?_, ?_⟩ <;> omega

/-- A flat block has no detail. -/
theorem natPre_uniform (M a : Nat) (ha : a ≤ M) :
    natPre M a a a a = { ll := a, lh := 0, hl := 0, hh := 0 } := by
  simp only [natPre]
  have h1 : min ((a + a) / 2) M = a := by omega
  simp [h1]

/-! ## HaarDwt: loop invariants -/

theorem haarCols_succ (imgin : Nat → Nat) (i q fuel j k : Nat) (st : HaarState) :
    haarCols imgin i q (fuel + 1) j k st =
      if j < 432 then haarCols imgin i q fuel (j + 1 + 1) (k + 1) (haarBody imgin i q j k st)
      else some st := by
  rw [haarCols]
  rfl

theorem haarCols_zero (imgin : Nat → Nat) (i q j k : Nat) (st : HaarState) :
    haarCols imgin i q 0 j k st = if j < 432 then none else some st := by
  rw [haarCols]
  rfl

/-- The inner loop of `HaarDwt` on block row `h`, entered at block column `k0`. -/
theorem haarCols_spec (imgin : Nat → Nat) (h : Nat) (hh : h < 120) :
    ∀ (fuel k0 j k : Nat) (st : HaarState), j = 2 * k0 → k = k0 → k0 ≤ 216 → 216 ≤ k0 + fuel →
      ∃ st', haarCols imgin (2 * h) (QUAD_ROW_OFFSET * h) fuel j k st = some st' ∧
        (∀ c, k0 ≤ c → c < 216 →
          st'.imgout (432 * h + c) = (blockAt imgin h c).rgb565_ll ∧
          st'.imgout (432 * h + 216 + c) = (blockAt imgin h c).rgb565_lh ∧
          st'.imgout (432 * (120 + h) + c) = (blockAt imgin h c).rgb565_hl ∧
          st'.imgout (432 * (120 + h) + 216 + c) = (blockAt imgin h c).rgb565_hh) ∧
        (∀ w, ¬ (w < 103680 ∧ w % 51840 / 432 = h ∧ k0 ≤ w % 216) →
          st'.imgout w = st.imgout w) ∧
        (∀ w, st'.writes.count w = st.writes.count w +
          if w < 103680 ∧ w % 51840 / 432 = h ∧ k0 ≤ w % 216 then 1 else 0) ∧
        (∀ r, r ∈ st'.reads → r ∈ st.reads ∨ r < 103680) := by
  intro fuel
  induction fuel with
  | zero =>
    intro k0 j k st hj hk hk0 hf
    refine ⟨st, ?_, ?_, ?_, ?_, ?_⟩
    · rw [haarCols_zero, if_neg (by omega)]
    · intro c h1 h2
      omega
    · intro w _
      rfl
    · intro w
      rw [if_neg (by omega)]
      rfl
    · intro r hr
      exact Or.inl hr
  | succ n ih =>
    intro k0 j k st hj hk hk0 hf
    by_cases hlt : k0 < 216
    · obtain ⟨st', hrun, hval, hpres, hcnt, hrd⟩ :=
        ih (k0 + 1) (j + 1 + 1) (k + 1) (haarBody imgin (2 * h) (QUAD_ROW_OFFSET * h) j k st)
          (by omega) (by omega) (by omega) (by omega)
      have hQ1 : QUAD_ROW_OFFSET = 432 := rfl
      have hQ2 : QUAD_COL_OFFSET = 216 := rfl
      have hQ3 : QUAD_ROW_ORIGIN = 51840 := rfl
      have hQ4 : H_ROW_WIDTH = 432 := rfl
      refine ⟨st', ?_, ?_, ?_, ?_, ?_⟩
      · rw [haarCols_succ, if_pos (by omega)]
        exact hrun
      · intro c h1 h2
        by_cases hc : c = k0
        · subst hc
          rw [hpres _ (by omega), hpres _ (by omega), hpres _ (by omega), hpres _ (by omega)]
          simp only [haarBody, store, hQ1, hQ2, hQ3, hQ4, blockAt, hj, hk]
          refine ⟨?_, ?_, ?_, ?_⟩
          · rw [if_neg (by omega), if_neg (by omega), if_neg (by omega), if_pos trivial]
          · rw [if_neg (by omega), if_neg (by omega), if_pos (by omega)]
          · rw [if_neg (by omega), if_pos (by omega)]
          · rw [if_pos (by omega)]
        · exact hval c (by omega) h2
      · intro w hw
        rw [hpres w (by omega)]
        simp only [haarBody, store, hQ1, hQ2, hQ3, hQ4, hk]
        rw [if_neg (by omega), if_neg (by omega), if_neg (by omega), if_neg (by omega)]
      · intro w
        rw [hcnt w]
        simp only [haarBody, hQ1, hQ2, hQ3, hQ4, hk, List.count_cons, beq_iff_eq]
        split_ifs <;> omega
      · intro r hr
        rcases hrd r hr with h1 | h1
        · simp only [haarBody, hQ4, hj, List.mem_cons] at h1
          rcases h1 with h1 | h1 | h1 | h1 | h1
          · right; omega
          · right; omega
          · right; omega
          · right; omega
          · exact Or.inl h1
        · exact Or.inr h1
    · have hk216 : k0 = 216 := by omega
      refine ⟨st, ?_, ?_, ?_, ?_, ?_⟩
      · rw [haarCols_succ, if_neg (by omega)]
      · intro c h1 h2
        omega
      · intro w _
        rfl
      · intro w
        rw [if_neg (by omega)]
        rfl
      · intro r hr
        exact Or.inl hr

theorem haarRows_succ (imgin : Nat → Nat) (fuel i h : Nat) (st : HaarState) :
    haarRows imgin (fuel + 1) i h st =
      if i < 240 then
        match haarCols imgin i (QUAD_ROW_OFFSET * h) 432 0 0 st with
        | none => none
        | some st => haarRows imgin fuel (i + 1 + 1) (h + 1) st
      else some st := by
  rw [haarRows]
  rfl

theorem haarRows_zero (imgin : Nat → Nat) (i h : Nat) (st : HaarState) :
    haarRows imgin 0 i h st = if i < 240 then none else some st := by
  rw [haarRows]
  rfl

/-- The outer loop of `HaarDwt`, entered at block row `h0`. -/
theorem haarRows_spec (imgin : Nat → Nat) :
    ∀ (fuel h0 i h : Nat) (st : HaarState), i = 2 * h0 → h = h0 → h0 ≤ 120 → 120 ≤ h0 + fuel →
      ∃ st', haarRows imgin fuel i h st = some st' ∧
        (∀ bi bj, h0 ≤ bi → bi < 120 → bj < 216 →
          st'.imgout (432 * bi + bj) = (blockAt imgin bi bj).rgb565_ll ∧
          st'.imgout (432 * bi + 216 + bj) = (blockAt imgin bi bj).rgb565_lh ∧
          st'.imgout (432 * (120 + bi) + bj) = (blockAt imgin bi bj).rgb565_hl ∧
          st'.imgout (432 * (120 + bi) + 216 + bj) = (blockAt imgin bi bj).rgb565_hh) ∧
        (∀ w, ¬ (w < 103680 ∧ h0 ≤ w % 51840 / 432) → st'.imgout w = st.imgout w) ∧
        (∀ w, st'.writes.count w = st.writes.count w +
          if w < 103680 ∧ h0 ≤ w % 51840 / 432 then 1 else 0) ∧
        (∀ r, r ∈ st'.reads → r ∈ st.reads ∨ r < 103680) := by
  intro fuel
  induction fuel with
  | zero =>
    intro h0 i h st hi hh hh0 hf
    refine ⟨st, ?_, ?_, ?_, ?_, ?_⟩
    · rw [haarRows_zero, if_neg (by omega)]
    · intro bi bj h1 h2
      omega
    · intro w _
      rfl
    · intro w
      rw [if_neg (by omega)]
      rfl
    · intro r hr
      exact Or.inl hr
  | succ n ih =>
    intro h0 i h st hi hh hh0 hf
    by_cases hlt : h0 < 120
    · subst hh
      subst hi
      obtain ⟨st1, hrun1, hval1, hpres1, hcnt1, hrd1⟩ :=
        haarCols_spec imgin h hlt 432 0 0 0 st rfl rfl (by omega) (by omega)
      obtain ⟨st', hrun, hval, hpres, hcnt, hrd⟩ :=
        ih (h + 1) (2 * h + 1 + 1) (h + 1) st1 (by omega) rfl (by omega) (by omega)
      refine ⟨st', ?_, ?_, ?_, ?_, ?_⟩
      · rw [haarRows_succ, if_pos (by omega), hrun1]
        exact hrun
      · intro bi bj h1 h2 h3
        by_cases hb : bi = h
        · subst hb
          rw [hpres _ (by omega), hpres _ (by omega), hpres _ (by omega), hpres _ (by omega)]
          exact hval1 bj (by omega) h3
        · exact hval bi bj (by omega) h2 h3
      · intro w hw
        rw [hpres w (by omega), hpres1 w (by omega)]
      · intro w
        rw [hcnt w, hcnt1 w]
        split_ifs <;> omega
      · intro r hr
        rcases hrd r hr with h1 | h1
        · exact hrd1 r h1
        · exact Or.inr h1
    · refine ⟨st, ?_, ?_, ?_, ?_, ?_⟩
      · rw [haarRows_succ, if_neg (by omega)]
      · intro bi bj h1 h2
        omega
      · intro w _
        rfl
      · intro w
        rw [if_neg (by omega)]
        rfl
      · intro r hr
        exact Or.inl hr

/-- The whole of `HaarDwt`: it returns 0, every block is placed in the four
quadrants, nothing else changes, every output index below 103680 is written
once and every input index read is below 103680. -/
theorem HaarDwt_spec (imgin imgout : Nat → Nat) :
    ∃ st, HaarDwt imgin imgout = some (0, st) ∧
      (∀ bi bj, bi < 120 → bj < 216 →
        st.imgout (432 * bi + bj) = (blockAt imgin bi bj).rgb565_ll ∧
        st.imgout (432 * bi + 216 + bj) = (blockAt imgin bi bj).rgb565_lh ∧
        st.imgout (432 * (120 + bi) + bj) = (blockAt imgin bi bj).rgb565_hl ∧
        st.imgout (432 * (120 + bi) + 216 + bj) = (blockAt imgin bi bj).rgb565_hh) ∧
      (∀ w, 103680 ≤ w → st.imgout w = imgout w) ∧
      (∀ w, st.writes.count w = if w < 103680 then 1 else 0) ∧
      (∀ r, r ∈ st.reads → r < 103680) := by
  obtain ⟨st, hrun, hval, hpres, hcnt, hrd⟩ :=
    haarRows_spec imgin 240 0 0 0 { imgout := imgout, reads := [], writes := [] } rfl rfl
      (by omega) (by omega)
  refine ⟨st, ?_, ?_, ?_, ?_, ?_⟩
  · unfold HaarDwt
    rw [show H_NUM_ROWS = 240 from rfl, hrun]
    rfl
  · intro bi bj h1 h2
    exact hval bi bj (by omega) h1 h2
  · intro w hw
    rw [hpres w (by omega)]
  · intro w
    rw [hcnt w]
    simp only [List.count_nil, Nat.zero_add]
    split_ifs <;> omega
  · intro r hr
    rcases hrd r hr with h1 | h1
    · simp at h1
    · exact h1

/-! ## convert3: loop invariant -/

theorem convert3Loop_succ (cbp pbuf : Nat → Nat) (fuel i yp op : Nat) (st : ConvState) :
    convert3Loop cbp pbuf (fuel + 1) i yp op st =
      if i < 207360 then
        convert3Loop cbp pbuf fuel (i + 1 + 1 + 1 + 1) (yp + 1 + 1 + 1 + 1) (op + 1 + 1 + 1 + 1)
          (convBody cbp pbuf yp op st)
      else some st := by
  rw [convert3Loop]
  rfl

theorem convert3Loop_zero (cbp pbuf : Nat → Nat) (i yp op : Nat) (st : ConvState) :
    convert3Loop cbp pbuf 0 i yp op st = if i < 207360 then none else some st := by
  rw [convert3Loop]
  rfl

/-- The loop of `convert3`, entered at macropixel `n`. -/
theorem convert3Loop_spec (cbp pbuf : Nat → Nat) :
    ∀ (fuel n i yp op : Nat) (st : ConvState), i = 4 * n → yp = 4 * n → op = 4 * n →
      n ≤ 51840 → 51840 ≤ n + fuel →
      ∃ st', convert3Loop cbp pbuf fuel i yp op st = some st' ∧
        (∀ m, n ≤ m → m < 51840 →
          st'.rgb565 (4 * m) =
            pbuf (lutIndex (cbp (4 * m + 2)) (cbp (4 * m + 3)) (cbp (4 * m + 1))) % 256 ∧
          st'.rgb565 (4 * m + 1) =
            (pbuf (lutIndex (cbp (4 * m + 2)) (cbp (4 * m + 3)) (cbp (4 * m + 1))) >>> 8) % 256 ∧
          st'.rgb565 (4 * m + 2) =
            pbuf (lutIndex (cbp (4 * m)) (cbp (4 * m + 3)) (cbp (4 * m + 1))) % 256 ∧
          st'.rgb565 (4 * m + 3) =
            (pbuf (lutIndex (cbp (4 * m)) (cbp (4 * m + 3)) (cbp (4 * m + 1))) >>> 8) % 256) ∧
        (∀ b, ¬ (4 * n ≤ b ∧ b < 207360) → st'.rgb565 b = st.rgb565 b) ∧
        (∀ b, st'.writes.count b = st.writes.count b +
          if 4 * n ≤ b ∧ b < 207360 then 1 else 0) ∧
        (∀ b, st'.yuvReads.count b = st.yuvReads.count b +
          if 4 * n ≤ b ∧ b < 207360 then 1 else 0) ∧
        (∀ r, r ∈ st'.lutReads → r ∈ st.lutReads ∨ ∃ m, n ≤ m ∧ m < 51840 ∧
          (r = lutIndex (cbp (4 * m + 2)) (cbp (4 * m + 3)) (cbp (4 * m + 1)) ∨
           r = lutIndex (cbp (4 * m)) (cbp (4 * m + 3)) (cbp (4 * m + 1)))) ∧
        st'.lutReads.length = st.lutReads.length + 2 * (51840 - n) := by
  intro fuel
  induction fuel with
  | zero =>
    intro n i yp op st hi hyp hop hn hf
    refine ⟨st, ?_, ?_, ?_, ?_, ?_, ?_, ?_⟩
    · rw [convert3Loop_zero, if_neg (by omega)]
    · intro m h1 h2
      omega
    · intro b _
      rfl
    · intro b
      rw [if_neg (by omega)]
      rfl
    · intro b
      rw [if_neg (by omega)]
      rfl
    · intro r hr
      exact Or.inl hr
    · omega
  | succ f ih =>
    intro n i yp op st hi hyp hop hn hf
    by_cases hlt : n < 51840
    · obtain ⟨st', hrun, hval, hpres, hcw, hcr, hlr, hlen⟩ :=
        ih (n + 1) (i + 1 + 1 + 1 + 1) (yp + 1 + 1 + 1 + 1) (op + 1 + 1 + 1 + 1)
          (convBody cbp pbuf yp op st) (by omega) (by omega) (by omega) (by omega) (by omega)
      subst hyp
      subst hop
      refine ⟨st', ?_, ?_, ?_, ?_, ?_, ?_, ?_⟩
      · rw [convert3Loop_succ, if_pos (by omega)]
        exact hrun
      · intro m h1 h2
        by_cases hm : m = n
        · subst hm
          rw [hpres _ (by omega), hpres _ (by omega), hpres _ (by omega), hpres _ (by omega)]
          simp only [convBody, store]
          refine ⟨?_, ?_, ?_, ?_⟩
          · rw [if_neg (by omega), if_neg (by omega), if_neg (by omega), if_pos trivial]
          · rw [if_neg (by omega), if_neg (by omega), if_pos trivial]
          · rw [if_neg (by omega), if_pos trivial]
          · rw [if_pos trivial]
        · exact hval m (by omega) h2
      · intro b hb
        rw [hpres b (by omega)]
        simp only [convBody, store]
        rw [if_neg (by omega), if_neg (by omega), if_neg (by omega), if_neg (by omega)]
      · intro b
        rw [hcw b]
        simp only [convBody, List.count_cons, beq_iff_eq]
        split_ifs <;> omega
      · intro b
        rw [hcr b]
        simp only [convBody, List.count_cons, beq_iff_eq]
        split_ifs <;> omega
      · intro r hr
        rcases hlr r hr with h1 | ⟨m, h1, h2, h3⟩
        · simp only [convBody, List.mem_cons] at h1
          rcases h1 with h1 | h1 | h1
          · exact Or.inr ⟨n, Nat.le_refl n, hlt, Or.inr h1⟩
          · exact Or.inr ⟨n, Nat.le_refl n, hlt, Or.inl h1⟩
          · exact Or.inl h1
        · exact Or.inr ⟨m, by omega, h2, h3⟩
      · rw [hlen]
        simp only [convBody, List.length_cons]
        omega
    · refine ⟨st, ?_, ?_, ?_, ?_, ?_, ?_, ?_⟩
      · rw [convert3Loop_succ, if_neg (by omega)]
      · intro m h1 h2
        omega
      · intro b _
        rfl
      · intro b
        rw [if_neg (by omega)]
        rfl
      · intro b
        rw [if_neg (by omega)]
        rfl
      · intro r hr
        exact Or.inl hr
      · omega

/-- The whole of `convert3`. -/
theorem convert3_spec (cbp rgb565buf pbuf : Nat → Nat) :
    ∃ st, convert3 cbp rgb565buf pbuf = some (0, st) ∧
      (∀ m, m < 51840 →
        st.rgb565 (4 * m) =
          pbuf (lutIndex (cbp (4 * m + 2)) (cbp (4 * m + 3)) (cbp (4 * m + 1))) % 256 ∧
        st.rgb565 (4 * m + 1) =
          (pbuf (lutIndex (cbp (4 * m + 2)) (cbp (4 * m + 3)) (cbp (4 * m + 1))) >>> 8) % 256 ∧
        st.rgb565 (4 * m + 2) =
          pbuf (lutIndex (cbp (4 * m)) (cbp (4 * m + 3)) (cbp (4 * m + 1))) % 256 ∧
        st.rgb565 (4 * m + 3) =
          (pbuf (lutIndex (cbp (4 * m)) (cbp (4 * m + 3)) (cbp (4 * m + 1))) >>> 8) % 256) ∧
      (∀ b, 207360 ≤ b → st.rgb565 b = rgb565buf b) ∧
      (∀ b, st.writes.count b = if b < 207360 then 1 else 0) ∧
      (∀ b, st.yuvReads.count b = if b < 207360 then 1 else 0) ∧
      (∀ r, r ∈ st.lutReads → ∃ m, m < 51840 ∧
        (r = lutIndex (cbp (4 * m + 2)) (cbp (4 * m + 3)) (cbp (4 * m + 1)) ∨
         r = lutIndex (cbp (4 * m)) (cbp (4 * m + 3)) (cbp (4 * m + 1)))) ∧
      st.lutReads.length = 103680 := by
  obtain ⟨st, hrun, hval, hpres, hcw, hcr, hlr, hlen⟩ :=
    convert3Loop_spec cbp pbuf YUYV_SIZE 0 0 0 0
      { rgb565 := rgb565buf, yuvReads := [], lutReads := [], writes := [] } rfl rfl rfl
      (by omega) (by rw [show YUYV_SIZE = 207360 from rfl]; omega)
  refine ⟨st, ?_, ?_, ?_, ?_, ?_, ?_, ?_⟩
  · unfold convert3
    rw [hrun]
    rfl
  · intro m hm
    exact hval m (by omega) hm
  · intro b hb
    rw [hpres b (by omega)]
  · intro b
    refine (hcw b).trans ?_
    simp only [List.count_nil, Nat.zero_add, Nat.mul_zero, Nat.zero_le, true_and]
  · intro b
    refine (hcr b).trans ?_
    simp only [List.count_nil, Nat.zero_add, Nat.mul_zero, Nat.zero_le, true_and]
  · intro r hr
    rcases hlr r hr with h1 | ⟨m, _, h2, h3⟩
    · simp at h1
    · exact ⟨m, h2, h3⟩
  · simp only [List.length_nil] at hlen
    omega

/-! ## display_LCD4: loop invariants -/

theorem lcdCols_succ (filebuf : Nat → Nat) (fuel j idx fp : Nat) (st : FbState) :
    lcdCols filebuf (fuel + 1) j idx fp st =
      if j < 432 then
        lcdCols filebuf fuel (j + 1) (idx + 1) (fp + 1)
          { fb := store st.fb idx (filebuf fp), reads := fp :: st.reads, writes := idx :: st.writes }
      else some (idx, fp, st) := by
  rw [lcdCols]
  rfl

theorem lcdCols_zero (filebuf : Nat → Nat) (j idx fp : Nat) (st : FbState) :
    lcdCols filebuf 0 j idx fp st = if j < 432 then none else some (idx, fp, st) := by
  rw [lcdCols]
  rfl

/-- The inner loop of `display_LCD4` on a row that starts at framebuffer index
`base` and source index `fbase`, entered at column `j0`. -/
theorem lcdCols_spec (filebuf : Nat → Nat) (base fbase : Nat) :
    ∀ (fuel j0 j idx fp : Nat) (st : FbState), j = j0 → idx = base + j0 → fp = fbase + j0 →
      j0 ≤ 432 → 432 ≤ j0 + fuel →
      ∃ st', lcdCols filebuf fuel j idx fp st = some (base + 432, fbase + 432, st') ∧
        (∀ c, j0 ≤ c → c < 432 → st'.fb (base + c) = filebuf (fbase + c)) ∧
        (∀ w, ¬ (base + j0 ≤ w ∧ w < base + 432) → st'.fb w = st.fb w) ∧
        (∀ w, st'.writes.count w = st.writes.count w +
          if base + j0 ≤ w ∧ w < base + 432 then 1 else 0) ∧
        (∀ r, st'.reads.count r = st.reads.count r +
          if fbase + j0 ≤ r ∧ r < fbase + 432 then 1 else 0) := by
  intro fuel
  induction fuel with
  | zero =>
    intro j0 j idx fp st hj hidx hfp hj0 hf
    have e : j0 = 432 := by omega
    subst e
    subst hj
    subst hidx
    subst hfp
    refine ⟨st, ?_, ?_, ?_, ?_, ?_⟩
    · rw [lcdCols_zero, if_neg (by omega)]
    · intro c h1 h2
      omega
    · intro w _
      rfl
    · intro w
      rw [if_neg (by omega)]
      rfl
    · intro r
      rw [if_neg (by omega)]
      rfl
  | succ n ih =>
    intro j0 j idx fp st hj hidx hfp hj0 hf
    subst hj
    subst hidx
    subst hfp
    by_cases hlt : j < 432
    · obtain ⟨st', hrun, hval, hpres, hcw, hcr⟩ :=
        ih (j + 1) (j + 1) (base + j + 1) (fbase + j + 1)
          { fb := store st.fb (base + j) (filebuf (fbase + j)), reads := (fbase + j) :: st.reads,
            writes := (base + j) :: st.writes } rfl rfl rfl (by omega) (by omega)
      refine ⟨st', ?_, ?_, ?_, ?_, ?_⟩
      · rw [lcdCols_succ, if_pos hlt]
        exact hrun
      · intro c h1 h2
        by_cases hc : c = j
        · subst hc
          rw [hpres _ (by omega)]
          simp only [store]
          rw [if_pos trivial]
        · exact hval c (by omega) h2
      · intro w hw
        rw [hpres w (by omega)]
        simp only [store]
        rw [if_neg (by omega)]
      · intro w
        rw [hcw w]
        simp only [List.count_cons, beq_iff_eq]
        split_ifs <;> omega
      · intro r
        rw [hcr r]
        simp only [List.count_cons, beq_iff_eq]
        split_ifs <;> omega
    · have e : j = 432 := by omega
      subst e
      refine ⟨st, ?_, ?_, ?_, ?_, ?_⟩
      · rw [lcdCols_succ, if_neg (by omega)]
      · intro c h1 h2
        omega
      · intro w _
        rfl
      · intro w
        rw [if_neg (by omega)]
        rfl
      · intro r
        rw [if_neg (by omega)]
        rfl

theorem lcd_margin : (HVGA_WIDTH - WQVGA_WIDTH) / 2 = 24 := by decide

theorem lcd_origin : HVGA_WIDTH * ((HVGA_HEIGHT - WQVGA_HEIGHT) / 2) = 480 * 16 := by decide

theorem lcdRows_step (filebuf : Nat → Nat) (fuel i idx fp idx1 fp1 : Nat) (st st1 : FbState)
    (hi : i < 240)
    (h : lcdCols filebuf 432 0 (idx + 24) fp st = some (idx1, fp1, st1)) :
    lcdRows filebuf (fuel + 1) i idx fp st = lcdRows filebuf fuel (i + 1) (idx1 + 24) fp1 st1 := by
  rw [lcdRows, lcd_margin, show WQVGA_WIDTH = 432 from rfl, show WQVGA_HEIGHT = 240 from rfl,
    if_pos hi]
  simp only [h]

theorem lcdRows_done (filebuf : Nat → Nat) (fuel i idx fp : Nat) (st : FbState)
    (hi : ¬ i < 240) : lcdRows filebuf fuel i idx fp st = some st := by
  cases fuel with
  | zero => rw [lcdRows, show WQVGA_HEIGHT = 240 from rfl, if_neg hi]
  | succ n => rw [lcdRows, show WQVGA_HEIGHT = 240 from rfl, if_neg hi]

/-- The outer loop of `display_LCD4`, entered at source row `i0`. -/
theorem lcdRows_spec (filebuf : Nat → Nat) :
    ∀ (fuel i0 i idx fp : Nat) (st : FbState), i = i0 → idx = 480 * (16 + i0) → fp = 432 * i0 →
      i0 ≤ 240 → 240 ≤ i0 + fuel →
      ∃ st', lcdRows filebuf fuel i idx fp st = some st' ∧
        (∀ r c, i0 ≤ r → r < 240 → c < 432 →
          st'.fb (480 * (16 + r) + 24 + c) = filebuf (432 * r + c)) ∧
        (∀ w, ¬ (16 + i0 ≤ w / 480 ∧ w / 480 ≤ 255 ∧ 24 ≤ w % 480 ∧ w % 480 ≤ 455) →
          st'.fb w = st.fb w) ∧
        (∀ w, st'.writes.count w = st.writes.count w +
          if 16 + i0 ≤ w / 480 ∧ w / 480 ≤ 255 ∧ 24 ≤ w % 480 ∧ w % 480 ≤ 455 then 1 else 0) ∧
        (∀ r, st'.reads.count r = st.reads.count r +
          if 432 * i0 ≤ r ∧ r < 103680 then 1 else 0) := by
  intro fuel
  induction fuel with
  | zero =>
    intro i0 i idx fp st hi hidx hfp hi0 hf
    refine ⟨st, ?_, ?_, ?_, ?_, ?_⟩
    · exact lcdRows_done filebuf 0 i idx fp st (by omega)
    · intro r c h1 h2
      omega
    · intro w _
      rfl
    · intro w
      rw [if_neg (by omega)]
      rfl
    · intro r
      rw [if_neg (by omega)]
      rfl
  | succ n ih =>
    intro i0 i idx fp st hi hidx hfp hi0 hf
    subst hi
    by_cases hlt : i < 240
    · obtain ⟨st1, hrun1, hval1, hpres1, hcw1, hcr1⟩ :=
        lcdCols_spec filebuf (idx + 24) fp 432 0 0 (idx + 24) fp st rfl rfl rfl (by omega)
          (by omega)
      obtain ⟨st', hrun, hval, hpres, hcw, hcr⟩ :=
        ih (i + 1) (i + 1) (idx + 24 + 432 + 24) (fp + 432) st1 rfl (by omega) (by omega)
          (by omega) (by omega)
      refine ⟨st', ?_, ?_, ?_, ?_, ?_⟩
      · rw [lcdRows_step filebuf n i idx fp _ _ st st1 hlt hrun1]
        exact hrun
      · intro r c h1 h2 h3
        by_cases hr : r = i
        · subst hr
          rw [hpres _ (by omega)]
          have := hval1 c (by omega) h3
          rw [show 480 * (16 + r) + 24 + c = idx + 24 + c by omega,
            show 432 * r + c = fp + c by omega]
          exact this
        · exact hval r c (by omega) h2 h3
      · intro w hw
        rw [hpres w (by omega), hpres1 w (by omega)]
      · intro w
        rw [hcw w, hcw1 w]
        split_ifs <;> omega
      · intro r
        rw [hcr r, hcr1 r]
        split_ifs <;> omega
    · refine ⟨st, ?_, ?_, ?_, ?_, ?_⟩
      · exact lcdRows_done filebuf (n + 1) i idx fp st (by omega)
      · intro r c h1 h2
        omega
      · intro w _
        rfl
      · intro w
        rw [if_neg (by omega)]
        rfl
      · intro r
        rw [if_neg (by omega)]
        rfl

/-- The whole of `display_LCD4`. -/
theorem display_LCD4_spec (fbp filebuf : Nat → Nat) :
    ∃ st, display_LCD4 fbp filebuf = some (0, st) ∧
      (∀ r c, r < 240 → c < 432 → st.fb (480 * (16 + r) + 24 + c) = filebuf (432 * r + c)) ∧
      (∀ w, ¬ (16 ≤ w / 480 ∧ w / 480 ≤ 255 ∧ 24 ≤ w % 480 ∧ w % 480 ≤ 455) →
        st.fb w = fbp w) ∧
      (∀ w, st.writes.count w =
        if 16 ≤ w / 480 ∧ w / 480 ≤ 255 ∧ 24 ≤ w % 480 ∧ w % 480 ≤ 455 then 1 else 0) ∧
      (∀ r, st.reads.count r = if r < 103680 then 1 else 0) := by
  obtain ⟨st, hrun, hval, hpres, hcw, hcr⟩ :=
    lcdRows_spec filebuf 240 0 0 (480 * 16) 0 { fb := fbp, reads := [], writes := [] } rfl rfl rfl
      (by omega) (by omega)
  refine ⟨st, ?_, ?_, ?_, ?_, ?_⟩
  · unfold display_LCD4
    rw [lcd_origin, show WQVGA_HEIGHT = 240 from rfl]
    simp only [hrun, Option.map_some']
  · intro r c h1 h2
    exact hval r c (by omega) h1 h2
  · intro w hw
    rw [hpres w (by omega)]
  · intro w
    refine (hcw w).trans ?_
    simp only [List.count_nil, Nat.zero_add, Nat.add_zero, Nat.mul_zero, Nat.zero_le, true_and]
  · intro r
    refine (hcr r).trans ?_
    simp only [List.count_nil, Nat.zero_add, Nat.add_zero, Nat.mul_zero, Nat.zero_le, true_and]

/-! ## lut.c: loop invariants -/

theorem lutLoopV_succ (conv : Nat → Nat → Nat → Nat) (y u fuel k pb : Nat) (st : LutState) :
    lutLoopV conv y u (fuel + 1) k pb st =
      if k < 256 then
        lutLoopV conv y u fuel (k + 1) (pb + 1)
          { pbuf := store st.pbuf pb (conv y u (k % 256)), writes := pb :: st.writes,
            count := st.count + 1 }
      else some (pb, st) := by
  rw [lutLoopV]
  rfl

theorem lutLoopV_zero (conv : Nat → Nat → Nat → Nat) (y u k pb : Nat) (st : LutState) :
    lutLoopV conv y u 0 k pb st = if k < 256 then none else some (pb, st) := by
  rw [lutLoopV]
  rfl

/-- The innermost loop of lut.c writing the 256 entries that start at `base`,
entered at `k0`. -/
theorem lutLoopV_spec (conv : Nat → Nat → Nat → Nat) (y u base : Nat) :
    ∀ (fuel k0 k pb : Nat) (st : LutState), k = k0 → pb = base + k0 → k0 ≤ 256 →
      256 ≤ k0 + fuel →
      ∃ st', lutLoopV conv y u fuel k pb st = some (base + 256, st') ∧
        (∀ v, k0 ≤ v → v < 256 → st'.pbuf (base + v) = conv y u v) ∧
        (∀ w, ¬ (base + k0 ≤ w ∧ w < base + 256) → st'.pbuf w = st.pbuf w) ∧
        (∀ w, st'.writes.count w = st.writes.count w +
          if base + k0 ≤ w ∧ w < base + 256 then 1 else 0) ∧
        (st'.count = st.count + (256 - k0) ∧
          st'.writes.length = st.writes.length + (256 - k0)) := by
  intro fuel
  induction fuel with
  | zero =>
    intro k0 k pb st hk hpb hk0 hf
    have e : k0 = 256 := by omega
    subst e
    subst hk
    subst hpb
    refine ⟨st, ?_, ?_, ?_, ?_, ?_⟩
    · rw [lutLoopV_zero, if_neg (by omega)]
    · intro v h1 h2
      omega
    · intro w _
      rfl
    · intro w
      rw [if_neg (by omega)]
      rfl
    · exact ⟨rfl, rfl⟩
  | succ n ih =>
    intro k0 k pb st hk hpb hk0 hf
    subst hk
    subst hpb
    by_cases hlt : k < 256
    · obtain ⟨st', hrun, hval, hpres, hcw, hcnt⟩ :=
        ih (k + 1) (k + 1) (base + k + 1)
          { pbuf := store st.pbuf (base + k) (conv y u (k % 256)), writes := (base + k) :: st.writes,
            count := st.count + 1 } rfl rfl (by omega) (by omega)
      refine ⟨st', ?_, ?_, ?_, ?_, ?_⟩
      · rw [lutLoopV_succ, if_pos hlt]
        exact hrun
      · intro v h1 h2
        by_cases hv : v = k
        · subst hv
          rw [hpres _ (by omega)]
          simp only [store]
          rw [if_pos trivial, Nat.mod_eq_of_lt hlt]
        · exact hval v (by omega) h2
      · intro w hw
        rw [hpres w (by omega)]
        simp only [store]
        rw [if_neg (by omega)]
      · intro w
        rw [hcw w]
        simp only [List.count_cons, beq_iff_eq]
        split_ifs <;> omega
      · rw [hcnt.1, hcnt.2]
        simp only [List.length_cons]
        omega
    · have e : k = 256 := by omega
      subst e
      refine ⟨st, ?_, ?_, ?_, ?_, ?_⟩
      · rw [lutLoopV_succ, if_neg (by omega)]
      · intro v h1 h2
        omega
      · intro w _
        rfl
      · intro w
        rw [if_neg (by omega)]
        rfl
      · exact ⟨rfl, rfl⟩

theorem lutLoopU_step (conv : Nat → Nat → Nat → Nat) (y fuel j pb pb1 : Nat) (st st1 : LutState)
    (hj : j < 256) (h : lutLoopV conv y (j % 256) 256 0 pb st = some (pb1, st1)) :
    lutLoopU conv y (fuel + 1) j pb st = lutLoopU conv y fuel (j + 1) pb1 st1 := by
  rw [lutLoopU, show U_SIZE = 256 from rfl, show V_SIZE = 256 from rfl, if_pos hj]
  simp only [h]

theorem lutLoopU_done (conv : Nat → Nat → Nat → Nat) (y fuel j pb : Nat) (st : LutState)
    (hj : ¬ j < 256) : lutLoopU conv y fuel j pb st = some (pb, st) := by
  cases fuel with
  | zero => rw [lutLoopU, show U_SIZE = 256 from rfl, if_neg hj]
  | succ n => rw [lutLoopU, show U_SIZE = 256 from rfl, if_neg hj]

/-- The middle loop of lut.c writing the 65536 entries that start at `base`,
entered at `j0`. -/
theorem lutLoopU_spec (conv : Nat → Nat → Nat → Nat) (y base : Nat) :
    ∀ (fuel j0 j pb : Nat) (st : LutState), j = j0 → pb = base + 256 * j0 → j0 ≤ 256 →
      256 ≤ j0 + fuel →
      ∃ st', lutLoopU conv y fuel j pb st = some (base + 65536, st') ∧
        (∀ u v, j0 ≤ u → u < 256 → v < 256 → st'.pbuf (base + 256 * u + v) = conv y u v) ∧
        (∀ w, ¬ (base + 256 * j0 ≤ w ∧ w < base + 65536) → st'.pbuf w = st.pbuf w) ∧
        (∀ w, st'.writes.count w = st.writes.count w +
          if base + 256 * j0 ≤ w ∧ w < base + 65536 then 1 else 0) ∧
        (st'.count = st.count + 256 * (256 - j0) ∧
          st'.writes.length = st.writes.length + 256 * (256 - j0)) := by
  intro fuel
  induction fuel with
  | zero =>
    intro j0 j pb st hj hpb hj0 hf
    have e : j0 = 256 := by omega
    subst e
    subst hj
    subst hpb
    refine ⟨st, ?_, ?_, ?_, ?_, ?_⟩
    · exact lutLoopU_done conv y 0 256 _ st (by omega)
    · intro u v h1 h2
      omega
    · intro w _
      rfl
    · intro w
      rw [if_neg (by omega)]
      rfl
    · exact ⟨rfl, rfl⟩
  | succ n ih =>
    intro j0 j pb st hj hpb hj0 hf
    subst hj
    subst hpb
    by_cases hlt : j < 256
    · obtain ⟨st1, hrun1, hval1, hpres1, hcw1, hcnt1⟩ :=
        lutLoopV_spec conv y (j % 256) (base + 256 * j) 256 0 0 (base + 256 * j) st rfl rfl
          (by omega) (by omega)
      rw [Nat.mod_eq_of_lt hlt] at hrun1 hval1
      obtain ⟨st', hrun, hval, hpres, hcw, hcnt⟩ :=
        ih (j + 1) (j + 1) (base + 256 * j + 256) st1 rfl (by omega) (by omega) (by omega)
      refine ⟨st', ?_, ?_, ?_, ?_, ?_⟩
      · rw [lutLoopU_step conv y n j _ _ st st1 hlt (by rw [Nat.mod_eq_of_lt hlt]; exact hrun1)]
        exact hrun
      · intro u v h1 h2 h3
        by_cases hu : u = j
        · subst hu
          rw [hpres _ (by omega)]
          exact hval1 v (by omega) h3
        · exact hval u v (by omega) h2 h3
      · intro w hw
        rw [hpres w (by omega), hpres1 w (by omega)]
      · intro w
        rw [hcw w, hcw1 w]
        split_ifs <;> omega
      · rw [hcnt.1, hcnt.2, hcnt1.1, hcnt1.2]
        omega
    · have e : j = 256 := by omega
      subst e
      refine ⟨st, ?_, ?_, ?_, ?_, ?_⟩
      · exact lutLoopU_done conv y (n + 1) 256 _ st (by omega)
      · intro u v h1 h2
        omega
      · intro w _
        rfl
      · intro w
        rw [if_neg (by omega)]
        rfl
      · exact ⟨rfl, rfl⟩

theorem lutLoopY_step (conv : Nat → Nat → Nat → Nat) (fuel i pb pb1 : Nat) (st st1 : LutState)
    (hi : i < 256) (h : lutLoopU conv (i % 256) 256 0 pb st = some (pb1, st1)) :
    lutLoopY conv (fuel + 1) i pb st = lutLoopY conv fuel (i + 1) pb1 st1 := by
  rw [lutLoopY, show Y_SIZE = 256 from rfl, show U_SIZE = 256 from rfl, if_pos hi]
  simp only [h]

theorem lutLoopY_done (conv : Nat → Nat → Nat → Nat) (fuel i pb : Nat) (st : LutState)
    (hi : ¬ i < 256) : lutLoopY conv fuel i pb st = some (pb, st) := by
  cases fuel with
  | zero => rw [lutLoopY, show Y_SIZE = 256 from rfl, if_neg hi]
  | succ n => rw [lutLoopY, show Y_SIZE = 256 from rfl, if_neg hi]

/-- The outer loop of lut.c, entered at `i0`. -/
theorem lutLoopY_spec (conv : Nat → Nat → Nat → Nat) :
    ∀ (fuel i0 i pb : Nat) (st : LutState), i = i0 → pb = 65536 * i0 → i0 ≤ 256 →
      256 ≤ i0 + fuel →
      ∃ st', lutLoopY conv fuel i pb st = some (16777216, st') ∧
        (∀ y u v, i0 ≤ y → y < 256 → u < 256 → v < 256 →
          st'.pbuf (65536 * y + 256 * u + v) = conv y u v) ∧
        (∀ w, ¬ (65536 * i0 ≤ w ∧ w < 16777216) → st'.pbuf w = st.pbuf w) ∧
        (∀ w, st'.writes.count w = st.writes.count w +
          if 65536 * i0 ≤ w ∧ w < 16777216 then 1 else 0) ∧
        (st'.count = st.count + 65536 * (256 - i0) ∧
          st'.writes.length = st.writes.length + 65536 * (256 - i0)) := by
  intro fuel
  induction fuel with
  | zero =>
    intro i0 i pb st hi hpb hi0 hf
    have e : i0 = 256 := by omega
    subst e
    subst hi
    subst hpb
    refine ⟨st, ?_, ?_, ?_, ?_, ?_⟩
    · exact lutLoopY_done conv 0 256 _ st (by omega)
    · intro y u v h1 h2
      omega
    · intro w _
      rfl
    · intro w
      rw [if_neg (by omega)]
      rfl
    · exact ⟨rfl, rfl⟩
  | succ n ih =>
    intro i0 i pb st hi hpb hi0 hf
    subst hi
    subst hpb
    by_cases hlt : i < 256
    · obtain ⟨st1, hrun1, hval1, hpres1, hcw1, hcnt1⟩ :=
        lutLoopU_spec conv (i % 256) (65536 * i) 256 0 0 (65536 * i) st rfl rfl
          (by omega) (by omega)
      obtain ⟨st', hrun, hval, hpres, hcw, hcnt⟩ :=
        ih (i + 1) (i + 1) (65536 * i + 65536) st1 rfl (by omega) (by omega) (by omega)
      refine ⟨st', ?_, ?_, ?_, ?_, ?_⟩
      · rw [lutLoopY_step conv n i _ _ st st1 hlt hrun1]
        exact hrun
      · intro y u v h1 h2 h3 h4
        by_cases hy : y = i
        · subst hy
          rw [hpres _ (by omega)]
          have := hval1 u v (by omega) h3 h4
          rw [Nat.mod_eq_of_lt hlt] at this
          exact this
        · exact hval y u v (by omega) h2 h3 h4
      · intro w hw
        rw [hpres w (by omega), hpres1 w (by omega)]
      · intro w
        rw [hcw w, hcw1 w]
        split_ifs <;> omega
      · rw [hcnt.1, hcnt.2, hcnt1.1, hcnt1.2]
        omega
    · have e : i = 256 := by omega
      subst e
      refine ⟨st, ?_, ?_, ?_, ?_, ?_⟩
      · exact lutLoopY_done conv (n + 1) 256 _ st (by omega)
      · intro y u v h1 h2
        omega
      · intro w _
        rfl
      · intro w
        rw [if_neg (by omega)]
        rfl
      · exact ⟨rfl, rfl⟩

/-- The table-building loops of lut.c as a whole. -/
theorem lutBuild_spec (conv : Nat → Nat → Nat → Nat) (pbuf : Nat → Nat) :
    ∃ st, lutBuild conv pbuf = some (16777216, st) ∧
      (∀ y u v, y < 256 → u < 256 → v < 256 → st.pbuf (65536 * y + 256 * u + v) = conv y u v) ∧
      (∀ w, 16777216 ≤ w → st.pbuf w = pbuf w) ∧
      (∀ w, st.writes.count w = if w < 16777216 then 1 else 0) ∧
      st.count = 16777216 ∧ st.writes.length = 16777216 := by
  obtain ⟨st, hrun, hval, hpres, hcw, hcnt⟩ :=
    lutLoopY_spec conv 256 0 0 0 { pbuf := pbuf, writes := [], count := 0 } rfl rfl
      (by omega) (by omega)
  refine ⟨st, ?_, ?_, ?_, ?_, ?_, ?_⟩
  · unfold lutBuild
    rw [show Y_SIZE = 256 from rfl, hrun]
  · intro y u v h1 h2 h3
    exact hval y u v (by omega) h1 h2 h3
  · intro w hw
    rw [hpres w (by omega)]
  · intro w
    refine (hcw w).trans ?_
    simp only [List.count_nil, Nat.zero_add, Nat.mul_zero, Nat.zero_le, true_and]
  · have h1 := hcnt.1
    simp only [] at h1
    omega
  · have h2 := hcnt.2
    simp only [List.length_nil] at h2
    omega

/-! ## Auxiliary facts for the claims -/

/-- A block of four equal 16-bit pixels. -/
theorem haarBlock_uniform (p : Nat) (hp : p < 65536) :
    haarBlock p p p p = { rgb565_ll := p, rgb565_lh := 0, rgb565_hl := 0, rgb565_hh := 0 } := by
  simp only [haarBlock, haarBlockChans_eq, natChannel]
  rw [natPre_uniform 31 (p / 2048 % 32) (by omega), natPre_uniform 63 (p / 32 % 64) (by omega),
    natPre_uniform 31 (p % 32) (by omega)]
  have e1 : p / 2048 % 32 % 256 = p / 2048 % 32 := by omega
  have e2 : p / 32 % 64 % 256 = p / 32 % 64 := by omega
  have e3 : p % 32 % 256 = p % 32 := by omega
  have z : pack565 0 0 0 = 0 := by decide
  simp only [e1, e2, e3, Nat.zero_mul, Nat.zero_mod, z,
    pack565_eq _ _ _ (by omega : p / 2048 % 32 < 32) (by omega : p / 32 % 64 < 64)
      (by omega : p % 32 < 32)]
  congr 1
  omega

/-- The blocks of two images that agree below index 103680 are the same. -/
theorem blockAt_congr (f g : Nat → Nat) (h : ∀ r, r < 103680 → f r = g r) (bi bj : Nat)
    (hbi : bi < 120) (hbj : bj < 216) : blockAt f bi bj = blockAt g bi bj := by
  simp only [blockAt]
  rw [h _ (by omega), h _ (by omega), h _ (by omega), h _ (by omega)]

/-- Every output index below 103680 is one of the four quadrant positions of
one block. -/
theorem quadrant_decode (w : Nat) (hw : w < 103680) :
    ∃ bi bj, bi < 120 ∧ bj < 216 ∧
      (w = 432 * bi + bj ∨ w = 432 * bi + 216 + bj ∨ w = 432 * (120 + bi) + bj ∨
        w = 432 * (120 + bi) + 216 + bj) := by
  refine ⟨w % 51840 / 432, w % 216, by omega, by omega, ?_⟩
  omega

/-! ## The claims -/

/-- C1: for every input frame and every table of 16-bit entries, convert3
returns 0 and, for each macropixel m below 51840 with input bytes
(b0,b1,b2,b3) = (Y1,V0,Y0,U0), output pixel 2m is `table[Y0*65536 + U0*256 + V0]`
and output pixel 2m+1 is `table[Y1*65536 + U0*256 + V0]`, each stored as two
bytes, low byte first. -/
theorem convert3_emits_table_lookups (cbp rgb565buf pbuf : Nat → Nat)
    (hp : ∀ n, pbuf n < 65536) :
    ∃ st, convert3 cbp rgb565buf pbuf = some (0, st) ∧
      ∀ m, m < 51840 →
        readU16LE st.rgb565 (2 * m) =
          pbuf (cbp (4 * m + 2) * 65536 + cbp (4 * m + 3) * 256 + cbp (4 * m + 1)) ∧
        readU16LE st.rgb565 (2 * m + 1) =
          pbuf (cbp (4 * m) * 65536 + cbp (4 * m + 3) * 256 + cbp (4 * m + 1)) ∧
        st.rgb565 (4 * m) =
          pbuf (cbp (4 * m + 2) * 65536 + cbp (4 * m + 3) * 256 + cbp (4 * m + 1)) % 256 ∧
        st.rgb565 (4 * m + 1) =
          pbuf (cbp (4 * m + 2) * 65536 + cbp (4 * m + 3) * 256 + cbp (4 * m + 1)) / 256 ∧
        st.rgb565 (4 * m + 2) =
          pbuf (cbp (4 * m) * 65536 + cbp (4 * m + 3) * 256 + cbp (4 * m + 1)) % 256 ∧
        st.rgb565 (4 * m + 3) =
          pbuf (cbp (4 * m) * 65536 + cbp (4 * m + 3) * 256 + cbp (4 * m + 1)) / 256 := by
  obtain ⟨st, hrun, hval, -⟩ := convert3_spec cbp rgb565buf pbuf
  refine ⟨st, hrun, ?_⟩
  intro m hm
  obtain ⟨h0, h1, h2, h3⟩ := hval m hm
  have e0 : lutIndex (cbp (4 * m + 2)) (cbp (4 * m + 3)) (cbp (4 * m + 1)) =
      cbp (4 * m + 2) * 65536 + cbp (4 * m + 3) * 256 + cbp (4 * m + 1) := by
    simp only [lutIndex]
    omega
  have e1 : lutIndex (cbp (4 * m)) (cbp (4 * m + 3)) (cbp (4 * m + 1)) =
      cbp (4 * m) * 65536 + cbp (4 * m + 3) * 256 + cbp (4 * m + 1) := by
    simp only [lutIndex]
    omega
  rw [e0] at h0 h1
  rw [e1] at h2 h3
  have b0 := hp (cbp (4 * m + 2) * 65536 + cbp (4 * m + 3) * 256 + cbp (4 * m + 1))
  have b1 := hp (cbp (4 * m) * 65536 + cbp (4 * m + 3) * 256 + cbp (4 * m + 1))
  simp only [Nat.shiftRight_eq_div_pow] at h1 h3
  have r0 : readU16LE st.rgb565 (2 * m) = st.rgb565 (4 * m) + 256 * st.rgb565 (4 * m + 1) := by
    unfold readU16LE
    rw [show 2 * (2 * m) = 4 * m by omega]
  have r1 : readU16LE st.rgb565 (2 * m + 1) =
      st.rgb565 (4 * m + 2) + 256 * st.rgb565 (4 * m + 3) := by
    unfold readU16LE
    rw [show 2 * (2 * m + 1) + 1 = 4 * m + 3 by omega, show 2 * (2 * m + 1) = 4 * m + 2 by omega]
  rw [r0, r1, h0, h1, h2, h3]
  generalize pbuf (cbp (4 * m + 2) * 65536 + cbp (4 * m + 3) * 256 + cbp (4 * m + 1)) = x at *
  generalize pbuf (cbp (4 * m) * 65536 + cbp (4 * m + 3) * 256 + cbp (4 * m + 1)) = y at *
  refine ⟨?_, ?_, ?_, ?_, ?_, ?_⟩ <;> omega

/-- C1 (witness): the frame whose byte i is `i % 256`, with the table whose
entry n is `n % 65536`. -/
theorem convert3_emits_table_lookups_witness :
    ∃ st, convert3 (fun i => i % 256) (fun _ => 0) (fun n => n % 65536) = some (0, st) ∧
      ∀ m, m < 51840 →
        readU16LE st.rgb565 (2 * m) =
          (fun n => n % 65536) ((fun i => i % 256) (4 * m + 2) * 65536 +
            (fun i => i % 256) (4 * m + 3) * 256 + (fun i => i % 256) (4 * m + 1)) ∧
        readU16LE st.rgb565 (2 * m + 1) =
          (fun n => n % 65536) ((fun i => i % 256) (4 * m) * 65536 +
            (fun i => i % 256) (4 * m + 3) * 256 + (fun i => i % 256) (4 * m + 1)) ∧
        st.rgb565 (4 * m) =
          (fun n => n % 65536) ((fun i => i % 256) (4 * m + 2) * 65536 +
            (fun i => i % 256) (4 * m + 3) * 256 + (fun i => i % 256) (4 * m + 1)) % 256 ∧
        st.rgb565 (4 * m + 1) =
          (fun n => n % 65536) ((fun i => i % 256) (4 * m + 2) * 65536 +
            (fun i => i % 256) (4 * m + 3) * 256 + (fun i => i % 256) (4 * m + 1)) / 256 ∧
        st.rgb565 (4 * m + 2) =
          (fun n => n % 65536) ((fun i => i % 256) (4 * m) * 65536 +
            (fun i => i % 256) (4 * m + 3) * 256 + (fun i => i % 256) (4 * m + 1)) % 256 ∧
        st.rgb565 (4 * m + 3) =
          (fun n => n % 65536) ((fun i => i % 256) (4 * m) * 65536 +
            (fun i => i % 256) (4 * m + 3) * 256 + (fun i => i % 256) (4 * m + 1)) / 256 :=
  convert3_emits_table_lookups (fun i => i % 256) (fun _ => 0) (fun n => n % 65536)
    (fun n => Nat.mod_lt n (by decide))

/-- C2: for every 2x2 block and each of the three channels (bits 11-15 with
M = 31, bits 5-10 with M = 63, bits 0-4 with M = 31) the LL channel value that
HaarDwt computes is the specification's `clamp((lp1+lp2)/2, 0, M)`, it lies in
`[0, M]`, and the LL output pixel is the 5/6/5 packing of the three LL channel
values: unpacking the LL pixel returns them. -/
theorem haarBlock_ll_is_clamped_average_and_packs (r1c1 r1c2 r2c1 r2c2 : Nat) :
    ((((haarBlockChans r1c1 r1c2 r2c1 r2c2).red.ll : Nat) : Int) =
        specLL 31 (bitField r1c1 11 5) (bitField r1c2 11 5) (bitField r2c1 11 5)
          (bitField r2c2 11 5) ∧
      (haarBlockChans r1c1 r1c2 r2c1 r2c2).red.ll ≤ 31) ∧
    ((((haarBlockChans r1c1 r1c2 r2c1 r2c2).grn.ll : Nat) : Int) =
        specLL 63 (bitField r1c1 5 6) (bitField r1c2 5 6) (bitField r2c1 5 6)
          (bitField r2c2 5 6) ∧
      (haarBlockChans r1c1 r1c2 r2c1 r2c2).grn.ll ≤ 63) ∧
    ((((haarBlockChans r1c1 r1c2 r2c1 r2c2).blu.ll : Nat) : Int) =
        specLL 31 (bitField r1c1 0 5) (bitField r1c2 0 5) (bitField r2c1 0 5)
          (bitField r2c2 0 5) ∧
      (haarBlockChans r1c1 r1c2 r2c1 r2c2).blu.ll ≤ 31) ∧
    (haarBlock r1c1 r1c2 r2c1 r2c2).rgb565_ll =
      (haarBlockChans r1c1 r1c2 r2c1 r2c2).red.ll * 2 ^ 11 +
        (haarBlockChans r1c1 r1c2 r2c1 r2c2).grn.ll * 2 ^ 5 +
        (haarBlockChans r1c1 r1c2 r2c1 r2c2).blu.ll ∧
    bitField (haarBlock r1c1 r1c2 r2c1 r2c2).rgb565_ll 11 5 =
      (haarBlockChans r1c1 r1c2 r2c1 r2c2).red.ll ∧
    bitField (haarBlock r1c1 r1c2 r2c1 r2c2).rgb565_ll 5 6 =
      (haarBlockChans r1c1 r1c2 r2c1 r2c2).grn.ll ∧
    bitField (haarBlock r1c1 r1c2 r2c1 r2c2).rgb565_ll 0 5 =
      (haarBlockChans r1c1 r1c2 r2c1 r2c2).blu.ll ∧
    unpackRed (haarBlock r1c1 r1c2 r2c1 r2c2).rgb565_ll =
      (haarBlockChans r1c1 r1c2 r2c1 r2c2).red.ll ∧
    unpackGrn (haarBlock r1c1 r1c2 r2c1 r2c2).rgb565_ll =
      (haarBlockChans r1c1 r1c2 r2c1 r2c2).grn.ll ∧
    unpackBlu (haarBlock r1c1 r1c2 r2c1 r2c2).rgb565_ll =
      (haarBlockChans r1c1 r1c2 r2c1 r2c2).blu.ll := by
  have hr := (spec_eq_nat 31 (r1c1 / 2048 % 32) (r1c2 / 2048 % 32) (r2c1 / 2048 % 32)
    (r2c2 / 2048 % 32)).1
  have hg := (spec_eq_nat 63 (r1c1 / 32 % 64) (r1c2 / 32 % 64) (r2c1 / 32 % 64)
    (r2c2 / 32 % 64)).1
  have hb := (spec_eq_nat 31 (r1c1 % 32) (r1c2 % 32) (r2c1 % 32) (r2c2 % 32)).1
  have br := (natPre_bounds 31 (r1c1 / 2048 % 32) (r1c2 / 2048 % 32) (r2c1 / 2048 % 32)
    (r2c2 / 2048 % 32) (by omega) (by omega) (by omega) (by omega)).1
  have bg := (natPre_bounds 63 (r1c1 / 32 % 64) (r1c2 / 32 % 64) (r2c1 / 32 % 64)
    (r2c2 / 32 % 64) (by omega) (by omega) (by omega) (by omega)).1
  have bb := (natPre_bounds 31 (r1c1 % 32) (r1c2 % 32) (r2c1 % 32) (r2c2 % 32)
    (by omega) (by omega) (by omega) (by omega)).1
  simp only [Nat.cast_ofNat] at hr hg hb
  simp only [haarBlock, haarBlockChans_eq, bitField_11_5, bitField_5_6, bitField_0_5,
    unpackRed_eq, unpackGrn_eq, unpackBlu_eq, natChannel, hr, hg, hb]
  generalize (natPre 31 (r1c1 / 2048 % 32) (r1c2 / 2048 % 32) (r2c1 / 2048 % 32)
    (r2c2 / 2048 % 32)).ll = R at *
  generalize (natPre 63 (r1c1 / 32 % 64) (r1c2 / 32 % 64) (r2c1 / 32 % 64)
    (r2c2 / 32 % 64)).ll = G at *
  generalize (natPre 31 (r1c1 % 32) (r1c2 % 32) (r2c1 % 32) (r2c2 % 32)).ll = B at *
  have e1 : R % 256 = R := by omega
  have e2 : G % 256 = G := by omega
  have e3 : B % 256 = B := by omega
  rw [e1, e2, e3, pack565_eq R G B (by omega) (by omega) (by omega)]
  refine ⟨⟨?_, br⟩, ⟨?_, bg⟩, ⟨?_, bb⟩, ?_, ?_, ?_, ?_, ?_, ?_, ?_⟩ <;> omega

/-- C3 (counterexample): the block whose green fields are 63, 0, 63, 0 has
pre-scale LH value 31; the specification's LH value is 310 but the value that
HaarDwt stores in `grn_lh` and packs is 54. -/
theorem haarBlock_green_lh_is_reduced :
    bitField 0x07e0 5 6 = 63 ∧ bitField 0 5 6 = 0 ∧
    specLH 63 (bitField 0x07e0 5 6) (bitField 0 5 6) (bitField 0x07e0 5 6) (bitField 0 5 6)
      = 310 ∧
    (haarBlockChans 0x07e0 0 0x07e0 0).grn.lh = 54 ∧
    (((haarBlockChans 0x07e0 0 0x07e0 0).grn.lh : Nat) : Int) ≠
      specLH 63 (bitField 0x07e0 5 6) (bitField 0 5 6) (bitField 0x07e0 5 6) (bitField 0 5 6) ∧
    (haarBlock 0x07e0 0 0x07e0 0).rgb565_lh = pack565 0 54 0 := by
  decide

/-- C3 (amended): for every 2x2 block and each channel with channel max M, the
LH, HL and HH channel values that HaarDwt packs into the output pixels are the
specification's `clamp(..)*10` values reduced modulo 256 by the `uint8_t`
store; in both 5-bit channels, and for HH in the 6-bit channel, the reduction
changes nothing and the packed value is `clamp(..)*10` itself. -/
theorem haarBlock_details_are_scaled_mod_256 (r1c1 r1c2 r2c1 r2c2 : Nat) :
    ((((haarBlockChans r1c1 r1c2 r2c1 r2c2).red.lh : Nat) : Int) =
        specLH 31 (bitField r1c1 11 5) (bitField r1c2 11 5) (bitField r2c1 11 5)
          (bitField r2c2 11 5) ∧
      (((haarBlockChans r1c1 r1c2 r2c1 r2c2).red.hl : Nat) : Int) =
        specHL 31 (bitField r1c1 11 5) (bitField r1c2 11 5) (bitField r2c1 11 5)
          (bitField r2c2 11 5) ∧
      (((haarBlockChans r1c1 r1c2 r2c1 r2c2).red.hh : Nat) : Int) =
        specHH 31 (bitField r1c1 11 5) (bitField r1c2 11 5) (bitField r2c1 11 5)
          (bitField r2c2 11 5)) ∧
    ((((haarBlockChans r1c1 r1c2 r2c1 r2c2).grn.lh : Nat) : Int) =
        specLH 63 (bitField r1c1 5 6) (bitField r1c2 5 6) (bitField r2c1 5 6)
          (bitField r2c2 5 6) % 256 ∧
      (((haarBlockChans r1c1 r1c2 r2c1 r2c2).grn.hl : Nat) : Int) =
        specHL 63 (bitField r1c1 5 6) (bitField r1c2 5 6) (bitField r2c1 5 6)
          (bitField r2c2 5 6) % 256 ∧
      (((haarBlockChans r1c1 r1c2 r2c1 r2c2).grn.hh : Nat) : Int) =
        specHH 63 (bitField r1c1 5 6) (bitField r1c2 5 6) (bitField r2c1 5 6)
          (bitField r2c2 5 6)) ∧
    ((((haarBlockChans r1c1 r1c2 r2c1 r2c2).blu.lh : Nat) : Int) =
        specLH 31 (bitField r1c1 0 5) (bitField r1c2 0 5) (bitField r2c1 0 5)
          (bitField r2c2 0 5) ∧
      (((haarBlockChans r1c1 r1c2 r2c1 r2c2).blu.hl : Nat) : Int) =
        specHL 31 (bitField r1c1 0 5) (bitField r1c2 0 5) (bitField r2c1 0 5)
          (bitField r2c2 0 5) ∧
      (((haarBlockChans r1c1 r1c2 r2c1 r2c2).blu.hh : Nat) : Int) =
        specHH 31 (bitField r1c1 0 5) (bitField r1c2 0 5) (bitField r2c1 0 5)
          (bitField r2c2 0 5)) ∧
    (haarBlock r1c1 r1c2 r2c1 r2c2).rgb565_lh =
      pack565 (haarBlockChans r1c1 r1c2 r2c1 r2c2).red.lh
        (haarBlockChans r1c1 r1c2 r2c1 r2c2).grn.lh (haarBlockChans r1c1 r1c2 r2c1 r2c2).blu.lh ∧
    (haarBlock r1c1 r1c2 r2c1 r2c2).rgb565_hl =
      pack565 (haarBlockChans r1c1 r1c2 r2c1 r2c2).red.hl
        (haarBlockChans r1c1 r1c2 r2c1 r2c2).grn.hl (haarBlockChans r1c1 r1c2 r2c1 r2c2).blu.hl ∧
    (haarBlock r1c1 r1c2 r2c1 r2c2).rgb565_hh =
      pack565 (haarBlockChans r1c1 r1c2 r2c1 r2c2).red.hh
        (haarBlockChans r1c1 r1c2 r2c1 r2c2).grn.hh (haarBlockChans r1c1 r1c2 r2c1 r2c2).blu.hh := by
  have hr := spec_eq_nat 31 (r1c1 / 2048 % 32) (r1c2 / 2048 % 32) (r2c1 / 2048 % 32)
    (r2c2 / 2048 % 32)
  have hg := spec_eq_nat 63 (r1c1 / 32 % 64) (r1c2 / 32 % 64) (r2c1 / 32 % 64)
    (r2c2 / 32 % 64)
  have hb := spec_eq_nat 31 (r1c1 % 32) (r1c2 % 32) (r2c1 % 32) (r2c2 % 32)
  have br := natPre_bounds 31 (r1c1 / 2048 % 32) (r1c2 / 2048 % 32) (r2c1 / 2048 % 32)
    (r2c2 / 2048 % 32) (by omega) (by omega) (by omega) (by omega)
  have bg := natPre_bounds 63 (r1c1 / 32 % 64) (r1c2 / 32 % 64) (r2c1 / 32 % 64)
    (r2c2 / 32 % 64) (by omega) (by omega) (by omega) (by omega)
  have bb := natPre_bounds 31 (r1c1 % 32) (r1c2 % 32) (r2c1 % 32) (r2c2 % 32)
    (by omega) (by omega) (by omega) (by omega)
  simp only [Nat.cast_ofNat] at hr hg hb
  obtain ⟨-, hr1, hr2, hr3⟩ := hr
  obtain ⟨-, hg1, hg2, hg3⟩ := hg
  obtain ⟨-, hb1, hb2, hb3⟩ := hb
  refine ⟨?_, ?_, ?_, rfl, rfl, rfl⟩
  · simp only [haarBlockChans_eq, bitField_11_5, natChannel, hr1, hr2, hr3]
    generalize natPre 31 (r1c1 / 2048 % 32) (r1c2 / 2048 % 32) (r2c1 / 2048 % 32)
      (r2c2 / 2048 % 32) = P at *
    refine ⟨?_, ?_, ?_⟩ <;> omega
  · simp only [haarBlockChans_eq, bitField_5_6, natChannel, hg1, hg2, hg3]
    generalize natPre 63 (r1c1 / 32 % 64) (r1c2 / 32 % 64) (r2c1 / 32 % 64)
      (r2c2 / 32 % 64) = P at *
    refine ⟨?_, ?_, ?_⟩ <;> omega
  · simp only [haarBlockChans_eq, bitField_0_5, natChannel, hb1, hb2, hb3]
    generalize natPre 31 (r1c1 % 32) (r1c2 % 32) (r2c1 % 32) (r2c2 % 32) = P at *
    refine ⟨?_, ?_, ?_⟩ <;> omega

/-- C4: in the 432x240 HaarDwt, for every block index (bi, bj) with bi < 120
and bj < 216, the block made of input rows 2bi, 2bi+1 and columns 2bj, 2bj+1
puts its LL pixel at output (row bi, column bj), its LH pixel at
(bi, 216+bj), its HL pixel at (120+bi, bj) and its HH pixel at
(120+bi, 216+bj), row-major with row width 432. -/
theorem HaarDwt_quadrant_placement (imgin imgout : Nat → Nat) (bi bj : Nat)
    (hbi : bi < 120) (hbj : bj < 216) :
    ∃ st, HaarDwt imgin imgout = some (0, st) ∧
      st.imgout (432 * bi + bj) =
        (haarBlock (imgin (432 * (2 * bi) + 2 * bj)) (imgin (432 * (2 * bi) + (2 * bj + 1)))
          (imgin (432 * (2 * bi + 1) + 2 * bj))
          (imgin (432 * (2 * bi + 1) + (2 * bj + 1)))).rgb565_ll ∧
      st.imgout (432 * bi + 216 + bj) =
        (haarBlock (imgin (432 * (2 * bi) + 2 * bj)) (imgin (432 * (2 * bi) + (2 * bj + 1)))
          (imgin (432 * (2 * bi + 1) + 2 * bj))
          (imgin (432 * (2 * bi + 1) + (2 * bj + 1)))).rgb565_lh ∧
      st.imgout (432 * (120 + bi) + bj) =
        (haarBlock (imgin (432 * (2 * bi) + 2 * bj)) (imgin (432 * (2 * bi) + (2 * bj + 1)))
          (imgin (432 * (2 * bi + 1) + 2 * bj))
          (imgin (432 * (2 * bi + 1) + (2 * bj + 1)))).rgb565_hl ∧
      st.imgout (432 * (120 + bi) + 216 + bj) =
        (haarBlock (imgin (432 * (2 * bi) + 2 * bj)) (imgin (432 * (2 * bi) + (2 * bj + 1)))
          (imgin (432 * (2 * bi + 1) + 2 * bj))
          (imgin (432 * (2 * bi + 1) + (2 * bj + 1)))).rgb565_hh := by
  obtain ⟨st, hrun, hval, -⟩ := HaarDwt_spec imgin imgout
  exact ⟨st, hrun, hval bi bj hbi hbj⟩

/-- C4 (witness): block (119, 215), the last one, of the image whose pixel i is
`i % 65536`. -/
theorem HaarDwt_quadrant_placement_witness :
    ∃ st, HaarDwt (fun i => i % 65536) (fun _ => 0xffff) = some (0, st) ∧
      st.imgout (432 * 119 + 215) =
        (haarBlock ((fun i => i % 65536) (432 * (2 * 119) + 2 * 215))
          ((fun i => i % 65536) (432 * (2 * 119) + (2 * 215 + 1)))
          ((fun i => i % 65536) (432 * (2 * 119 + 1) + 2 * 215))
          ((fun i => i % 65536) (432 * (2 * 119 + 1) + (2 * 215 + 1)))).rgb565_ll ∧
      st.imgout (432 * 119 + 216 + 215) =
        (haarBlock ((fun i => i % 65536) (432 * (2 * 119) + 2 * 215))
          ((fun i => i % 65536) (432 * (2 * 119) + (2 * 215 + 1)))
          ((fun i => i % 65536) (432 * (2 * 119 + 1) + 2 * 215))
          ((fun i => i % 65536) (432 * (2 * 119 + 1) + (2 * 215 + 1)))).rgb565_lh ∧
      st.imgout (432 * (120 + 119) + 215) =
        (haarBlock ((fun i => i % 65536) (432 * (2 * 119) + 2 * 215))
          ((fun i => i % 65536) (432 * (2 * 119) + (2 * 215 + 1)))
          ((fun i => i % 65536) (432 * (2 * 119 + 1) + 2 * 215))
          ((fun i => i % 65536) (432 * (2 * 119 + 1) + (2 * 215 + 1)))).rgb565_hl ∧
      st.imgout (432 * (120 + 119) + 216 + 215) =
        (haarBlock ((fun i => i % 65536) (432 * (2 * 119) + 2 * 215))
          ((fun i => i % 65536) (432 * (2 * 119) + (2 * 215 + 1)))
          ((fun i => i % 65536) (432 * (2 * 119 + 1) + 2 * 215))
          ((fun i => i % 65536) (432 * (2 * 119 + 1) + (2 * 215 + 1)))).rgb565_hh :=
  HaarDwt_quadrant_placement (fun i => i % 65536) (fun _ => 0xffff) 119 215 (by decide)
    (by decide)

/-- C5: for every input image and every initial output buffer, the 432x240
HaarDwt terminates and returns 0; it reads only input indices below 103680; it
writes every output index below 103680 exactly once and no other index, and
leaves the buffer beyond unchanged; and the 103680 output pixels depend only on
the input pixels below 103680, not on what the output buffer held before. -/
theorem HaarDwt_total_and_footprint (imgin imgout : Nat → Nat) :
    ∃ st, HaarDwt imgin imgout = some (0, st) ∧
      (∀ r, r ∈ st.reads → r < 103680) ∧
      (∀ w, st.writes.count w = if w < 103680 then 1 else 0) ∧
      (∀ w, 103680 ≤ w → st.imgout w = imgout w) ∧
      (∀ imgin' imgout' : Nat → Nat, (∀ r, r < 103680 → imgin' r = imgin r) →
        ∃ st', HaarDwt imgin' imgout' = some (0, st') ∧
          ∀ w, w < 103680 → st'.imgout w = st.imgout w) := by
  obtain ⟨st, hrun, hval, hpres, hcw, hrd⟩ := HaarDwt_spec imgin imgout
  refine ⟨st, hrun, hrd, hcw, hpres, ?_⟩
  intro imgin' imgout' hagree
  obtain ⟨st', hrun', hval', -⟩ := HaarDwt_spec imgin' imgout'
  refine ⟨st', hrun', ?_⟩
  intro w hw
  obtain ⟨bi, bj, hbi, hbj, hcase⟩ := quadrant_decode w hw
  obtain ⟨a1, a2, a3, a4⟩ := hval bi bj hbi hbj
  obtain ⟨b1, b2, b3, b4⟩ := hval' bi bj hbi hbj
  rw [blockAt_congr imgin' imgin hagree bi bj hbi hbj] at b1 b2 b3 b4
  rcases hcase with h | h | h | h
  · rw [h, a1, b1]
  · rw [h, a2, b2]
  · rw [h, a3, b3]
  · rw [h, a4, b4]

/-- C6: for every 16-bit pixel p, the block whose four pixels are p has LL
pixel p and LH, HL, HH pixels 0; hence HaarDwt of a frame whose 103680 pixels
are all p has p everywhere in the LL quadrant (rows below 120, columns below
216) and 0 everywhere in the other three quadrants. -/
theorem HaarDwt_uniform_frame (p : Nat) (hp : p < 65536) (imgin imgout : Nat → Nat)
    (hu : ∀ i, i < 103680 → imgin i = p) :
    haarBlock p p p p = { rgb565_ll := p, rgb565_lh := 0, rgb565_hl := 0, rgb565_hh := 0 } ∧
    ∃ st, HaarDwt imgin imgout = some (0, st) ∧
      ∀ r c, r < 240 → c < 432 →
        st.imgout (432 * r + c) = if r < 120 ∧ c < 216 then p else 0 := by
  have hblk := haarBlock_uniform p hp
  refine ⟨hblk, ?_⟩
  obtain ⟨st, hrun, hval, -⟩ := HaarDwt_spec imgin imgout
  refine ⟨st, hrun, ?_⟩
  intro r c hr hc
  have key : ∀ bi bj, bi < 120 → bj < 216 → blockAt imgin bi bj =
      { rgb565_ll := p, rgb565_lh := 0, rgb565_hl := 0, rgb565_hh := 0 } := by
    intro bi bj hbi hbj
    simp only [blockAt]
    rw [hu _ (by omega), hu _ (by omega), hu _ (by omega), hu _ (by omega)]
    exact hblk
  by_cases h1 : r < 120
  · by_cases h2 : c < 216
    · obtain ⟨a1, -⟩ := hval r c h1 h2
      rw [if_pos ⟨h1, h2⟩, a1, key r c h1 h2]
    · obtain ⟨-, a2, -⟩ := hval r (c - 216) h1 (by omega)
      rw [if_neg (by omega), show 432 * r + c = 432 * r + 216 + (c - 216) by omega, a2,
        key r (c - 216) h1 (by omega)]
  · by_cases h2 : c < 216
    · obtain ⟨-, -, a3, -⟩ := hval (r - 120) c (by omega) h2
      rw [if_neg (by omega), show 432 * r + c = 432 * (120 + (r - 120)) + c by omega, a3,
        key (r - 120) c (by omega) h2]
    · obtain ⟨-, -, -, a4⟩ := hval (r - 120) (c - 216) (by omega) (by omega)
      rw [if_neg (by omega),
        show 432 * r + c = 432 * (120 + (r - 120)) + 216 + (c - 216) by omega, a4,
        key (r - 120) (c - 216) (by omega) (by omega)]

/-- C6 (witness): the uniform frame of value 0x1234. -/
theorem HaarDwt_uniform_frame_witness :
    haarBlock 0x1234 0x1234 0x1234 0x1234 =
      { rgb565_ll := 0x1234, rgb565_lh := 0, rgb565_hl := 0, rgb565_hh := 0 } ∧
    ∃ st, HaarDwt (fun _ => 0x1234) (fun _ => 0xffff) = some (0, st) ∧
      ∀ r c, r < 240 → c < 432 →
        st.imgout (432 * r + c) = if r < 120 ∧ c < 216 then 0x1234 else 0 :=
  HaarDwt_uniform_frame 0x1234 (by decide) (fun _ => 0x1234) (fun _ => 0xffff)
    (fun _ _ => rfl)

/-- C7: a block whose red fields (bits 11-15) are 31, 0, 31, 0 has
`lp1 = 31`, `lp2 = 0`, `LL_red = 15`, `LH_red = clamp(|lp1-lp2|/2, 0, 31)*10 = 150`
and `HL_red = HH_red = 0`; a block whose blue fields (bits 0-4) are 31, 0, 31, 0
has `LL_blue = 15` and `LH_blue = 150`. -/
theorem haarBlock_known_vector (p1 p2 p3 p4 q1 q2 q3 q4 : Nat)
    (hp : bitField p1 11 5 = 31 ∧ bitField p2 11 5 = 0 ∧ bitField p3 11 5 = 31 ∧
      bitField p4 11 5 = 0)
    (hq : bitField q1 0 5 = 31 ∧ bitField q2 0 5 = 0 ∧ bitField q3 0 5 = 31 ∧
      bitField q4 0 5 = 0) :
    (haarBlockChans p1 p2 p3 p4).red = { ll := 15, lh := 150, hl := 0, hh := 0 } ∧
    specLP 31 31 31 = 31 ∧ specLP 31 0 0 = 0 ∧ specLH 31 31 0 31 0 = 150 ∧
    (haarBlockChans q1 q2 q3 q4).blu.ll = 15 ∧ (haarBlockChans q1 q2 q3 q4).blu.lh = 150 := by
  simp only [bitField_11_5] at hp
  simp only [bitField_0_5] at hq
  obtain ⟨h1, h2, h3, h4⟩ := hp
  obtain ⟨g1, g2, g3, g4⟩ := hq
  simp only [haarBlockChans_eq, h1, h2, h3, h4, g1, g2, g3, g4]
  decide

/-- C7 (witness): the blocks (0xf800, 0, 0xf800, 0) and (0x001f, 0, 0x001f, 0). -/
theorem haarBlock_known_vector_witness :
    (haarBlockChans 0xf800 0 0xf800 0).red = { ll := 15, lh := 150, hl := 0, hh := 0 } ∧
    specLP 31 31 31 = 31 ∧ specLP 31 0 0 = 0 ∧ specLH 31 31 0 31 0 = 150 ∧
    (haarBlockChans 0x001f 0 0x001f 0).blu.ll = 15 ∧
    (haarBlockChans 0x001f 0 0x001f 0).blu.lh = 150 :=
  haarBlock_known_vector 0xf800 0 0xf800 0 0x001f 0 0x001f 0 (by decide) (by decide)

/-- C8: on a surface addressed row-major with row width 480, display_LCD4
returns 0, copies source pixel (i, j) of the 432x240 image, for every i < 240
and j < 432, to panel row 16+i, column 24+j (the first source pixel lands at
row 16, column 24), and leaves every panel pixel outside rows 16..255 x columns
24..455 with the value it had before the call. -/
theorem display_LCD4_centers_image (fbp filebuf : Nat → Nat) :
    ∃ st, display_LCD4 fbp filebuf = some (0, st) ∧
      (∀ i j, i < 240 → j < 432 → st.fb (480 * (16 + i) + (24 + j)) = filebuf (432 * i + j)) ∧
      st.fb (480 * 16 + 24) = filebuf 0 ∧
      (∀ r c, c < 480 → ¬ (16 ≤ r ∧ r ≤ 255 ∧ 24 ≤ c ∧ c ≤ 455) →
        st.fb (480 * r + c) = fbp (480 * r + c)) := by
  obtain ⟨st, hrun, hval, hpres, -⟩ := display_LCD4_spec fbp filebuf
  refine ⟨st, hrun, ?_, ?_, ?_⟩
  · intro i j hi hj
    rw [show 480 * (16 + i) + (24 + j) = 480 * (16 + i) + 24 + j by omega]
    exact hval i j hi hj
  · have := hval 0 0 (by omega) (by omega)
    simpa using this
  · intro r c hc hout
    exact hpres (480 * r + c) (by omega)

/-- C9: after the table-building loops of lut.c, for every Y, U, V below 256
the entry at index `Y*65536 + U*256 + V` is `yuv422_to_rgb565(Y, U, V)` (the
converter is the argument `conv`), every index below 256^3 has been written
exactly once and no other index, so exactly 256^3 entries, which is `size`
bytes, have been written, and `count` is 256^3. -/
theorem lutBuild_fills_table (conv : Nat → Nat → Nat → Nat) (pbuf : Nat → Nat) :
    ∃ st, lutBuild conv pbuf = some (256 ^ 3, st) ∧
      (∀ Y U V, Y < 256 → U < 256 → V < 256 →
        st.pbuf (Y * 65536 + U * 256 + V) = conv Y U V) ∧
      (∀ w, st.writes.count w = if w < 256 ^ 3 then 1 else 0) ∧
      st.writes.length = 256 ^ 3 ∧ 2 * st.writes.length = size ∧ st.count = 256 ^ 3 := by
  obtain ⟨st, hrun, hval, -, hcw, hcnt, hlen⟩ := lutBuild_spec conv pbuf
  have e3 : (256 : Nat) ^ 3 = 16777216 := by norm_num
  refine ⟨st, ?_, ?_, ?_, ?_, ?_, ?_⟩
  · rw [e3]
    exact hrun
  · intro Y U V hY hU hV
    rw [show Y * 65536 + U * 256 + V = 65536 * Y + 256 * U + V by omega]
    exact hval Y U V hY hU hV
  · intro w
    rw [e3]
    exact hcw w
  · rw [e3]
    exact hlen
  · rw [hlen]
    rfl
  · rw [e3]
    exact hcnt

/-- C10: for byte values Y, U, V the index `(Y*256*256)+(U*256)+V` that
convert3 uses lies in `[0, 256^3)`, so the two bytes of the entry lie inside a
table of `lut_size` bytes, and distinct triples have distinct indices; hence on
every frame of bytes each table entry that convert3 reads has an index below
256^3. -/
theorem lutIndex_in_bounds_and_injective (Y U V Y' U' V' : Nat)
    (hY : Y < 256) (hU : U < 256) (hV : V < 256)
    (hY' : Y' < 256) (hU' : U' < 256) (hV' : V' < 256) :
    lutIndex Y U V < 256 ^ 3 ∧ 2 * lutIndex Y U V + 1 < lut_size ∧
    lutIndex Y' U' V' < 256 ^ 3 ∧
    (lutIndex Y U V = lutIndex Y' U' V' → Y = Y' ∧ U = U' ∧ V = V') ∧
    (∀ cbp rgb565buf pbuf : Nat → Nat, (∀ i, cbp i < 256) →
      ∃ st, convert3 cbp rgb565buf pbuf = some (0, st) ∧
        ∀ r, r ∈ st.lutReads → r < 256 ^ 3) := by
  refine ⟨?_, ?_, ?_, ?_, ?_⟩
  · simp only [lutIndex]
    omega
  · simp only [lutIndex, lut_size]
    omega
  · simp only [lutIndex]
    omega
  · simp only [lutIndex]
    omega
  · intro cbp rgb565buf pbuf hb
    obtain ⟨st, hrun, -, -, -, -, hlr, -⟩ := convert3_spec cbp rgb565buf pbuf
    refine ⟨st, hrun, ?_⟩
    intro r hr
    obtain ⟨m, -, hm⟩ := hlr r hr
    have b0 := hb (4 * m)
    have b1 := hb (4 * m + 1)
    have b2 := hb (4 * m + 2)
    have b3 := hb (4 * m + 3)
    simp only [lutIndex] at hm
    rcases hm with h | h <;> omega

/-- C10 (witness): the triples (255, 255, 255) and (0, 1, 2). -/
theorem lutIndex_in_bounds_and_injective_witness :
    lutIndex 255 255 255 < 256 ^ 3 ∧ 2 * lutIndex 255 255 255 + 1 < lut_size ∧
    lutIndex 0 1 2 < 256 ^ 3 ∧
    (lutIndex 255 255 255 = lutIndex 0 1 2 → 255 = 0 ∧ 255 = 1 ∧ 255 = 2) ∧
    (∀ cbp rgb565buf pbuf : Nat → Nat, (∀ i, cbp i < 256) →
      ∃ st, convert3 cbp rgb565buf pbuf = some (0, st) ∧
        ∀ r, r ∈ st.lutReads → r < 256 ^ 3) :=
  lutIndex_in_bounds_and_injective 255 255 255 0 1 2 (by decide) (by decide) (by decide)
    (by decide) (by decide) (by decide)

/-- A value shifted left by `k` shares no bit with a value below `2^k`. -/
theorem shiftLeft_and_lt (a b k : Nat) (hb : b < 2 ^ k) : (a <<< k) &&& b = 0 := by
  apply Nat.eq_of_testBit_eq
  intro i
  simp only [Nat.testBit_and, Nat.testBit_shiftLeft, Nat.zero_testBit]
  by_cases h : i ≥ k
  · have : b.testBit i = false :=
      Nat.testBit_lt_two_pow (Nat.lt_of_lt_of_le hb (Nat.pow_le_pow_right (by decide) h))
    simp [this]
  · simp [h]

/-- C12: for 8-bit channel values red, green, blue the pixel that
yuv422_to_rgb565 packs has bits 11-15 equal to `blue>>3`, bits 5-10 equal to
`green>>2` and bits 0-4 equal to `red>>3`; the three fields share no bit (the
pixel is the sum of the three shifted fields); and the lut.c and sv5.c
definitions give the same pixel, for the packing statements and, with the same
floating-point part, for the whole function. -/
theorem pack_bgr565_fields (red green blue : Nat)
    (hr : red < 256) (hg : green < 256) (hb : blue < 256) :
    bitField (pack_bgr565 red green blue) 11 5 = blue >>> 3 ∧
    bitField (pack_bgr565 red green blue) 5 6 = green >>> 2 ∧
    bitField (pack_bgr565 red green blue) 0 5 = red >>> 3 ∧
    pack_bgr565 red green blue =
      (blue >>> 3) * 2 ^ 11 + (green >>> 2) * 2 ^ 5 + (red >>> 3) ∧
    (((blue >>> 3) &&& 0x1f) <<< 11) &&& (((green >>> 2) &&& 0x3f) <<< 5) = 0 ∧
    (((blue >>> 3) &&& 0x1f) <<< 11) &&& ((red >>> 3) &&& 0x1f) = 0 ∧
    (((green >>> 2) &&& 0x3f) <<< 5) &&& ((red >>> 3) &&& 0x1f) = 0 ∧
    lut_pack_bgr565 red green blue = pack_bgr565 red green blue ∧
    (∀ (fp : Nat → Nat → Nat → Rgb888) (Y U V : Nat),
      lut_yuv422_to_rgb565 fp Y U V = yuv422_to_rgb565 fp Y U V) := by
  have eb : (blue >>> 3) &&& 0x1f = blue / 8 := by
    rw [show (0x1f : Nat) = 2 ^ 5 - 1 from rfl, Nat.and_pow_two_sub_one_eq_mod,
      Nat.shiftRight_eq_div_pow]
    omega
  have eg : (green >>> 2) &&& 0x3f = green / 4 := by
    rw [show (0x3f : Nat) = 2 ^ 6 - 1 from rfl, Nat.and_pow_two_sub_one_eq_mod,
      Nat.shiftRight_eq_div_pow]
    omega
  have er : (red >>> 3) &&& 0x1f = red / 8 := by
    rw [show (0x1f : Nat) = 2 ^ 5 - 1 from rfl, Nat.and_pow_two_sub_one_eq_mod,
      Nat.shiftRight_eq_div_pow]
    omega
  have sb : blue >>> 3 = blue / 8 := by rw [Nat.shiftRight_eq_div_pow]
  have sg : green >>> 2 = green / 4 := by rw [Nat.shiftRight_eq_div_pow]
  have sr : red >>> 3 = red / 8 := by rw [Nat.shiftRight_eq_div_pow]
  have hpack : pack_bgr565 red green blue = pack565 (blue / 8) (green / 4) (red / 8) := by
    simp only [pack_bgr565, pack565, eb, eg, er, toU16, Nat.shiftLeft_eq]
    have h1 : blue / 8 * 2 ^ 11 % 65536 = blue / 8 * 2 ^ 11 := by omega
    have h2 : green / 4 * 2 ^ 5 % 65536 = green / 4 * 2 ^ 5 := by omega
    have h3 : red / 8 % 65536 = red / 8 := by omega
    rw [h1, h2, h3]
  have hsum := pack565_eq (blue / 8) (green / 4) (red / 8) (by omega) (by omega) (by omega)
  refine ⟨?_, ?_, ?_, ?_, ?_, ?_, ?_, rfl, fun _ _ _ _ => rfl⟩
  · rw [hpack, hsum, bitField_11_5, sb]
    omega
  · rw [hpack, hsum, bitField_5_6, sg]
    omega
  · rw [hpack, hsum, bitField_0_5, sr]
    omega
  · rw [hpack, hsum, sb, sg, sr]
    omega
  · rw [Nat.and_comm]
    rw [show ((green >>> 2) &&& 0x3f) <<< 5 = (green / 4) * 2 ^ 5 by rw [eg, Nat.shiftLeft_eq]]
    rw [Nat.and_comm]
    exact shiftLeft_and_lt _ _ 11 (by omega)
  · rw [er]
    exact shiftLeft_and_lt _ _ 11 (by omega)
  · rw [er]
    exact shiftLeft_and_lt _ _ 5 (by omega)

/-- C12 (witness): the channel values 255, 128, 7. -/
theorem pack_bgr565_fields_witness :
    bitField (pack_bgr565 255 128 7) 11 5 = 7 >>> 3 ∧
    bitField (pack_bgr565 255 128 7) 5 6 = 128 >>> 2 ∧
    bitField (pack_bgr565 255 128 7) 0 5 = 255 >>> 3 ∧
    pack_bgr565 255 128 7 = (7 >>> 3) * 2 ^ 11 + (128 >>> 2) * 2 ^ 5 + (255 >>> 3) ∧
    (((7 >>> 3) &&& 0x1f) <<< 11) &&& (((128 >>> 2) &&& 0x3f) <<< 5) = 0 ∧
    (((7 >>> 3) &&& 0x1f) <<< 11) &&& ((255 >>> 3) &&& 0x1f) = 0 ∧
    (((128 >>> 2) &&& 0x3f) <<< 5) &&& ((255 >>> 3) &&& 0x1f) = 0 ∧
    lut_pack_bgr565 255 128 7 = pack_bgr565 255 128 7 ∧
    (∀ (fp : Nat → Nat → Nat → Rgb888) (Y U V : Nat),
      lut_yuv422_to_rgb565 fp Y U V = yuv422_to_rgb565 fp Y U V) :=
  pack_bgr565_fields 255 128 7 (by decide) (by decide) (by decide)

/-! ## convert3: iteration count -/

theorem convert3Loop_done (cbp pbuf : Nat → Nat) (fuel i yp op : Nat) (st : ConvState)
    (hi : ¬ i < 207360) : convert3Loop cbp pbuf fuel i yp op st = some st := by
  cases fuel with
  | zero => rw [convert3Loop_zero, if_neg hi]
  | succ n => rw [convert3Loop_succ, if_neg hi]

/-- More fuel does not change the result of the loop of `convert3`. -/
theorem convert3Loop_fuel_mono (cbp pbuf : Nat → Nat) (k : Nat) :
    ∀ (fuel i yp op : Nat) (st st' : ConvState),
      convert3Loop cbp pbuf fuel i yp op st = some st' →
      convert3Loop cbp pbuf (fuel + k) i yp op st = some st' := by
  intro fuel
  induction fuel with
  | zero =>
    intro i yp op st st' h
    rw [convert3Loop_zero] at h
    by_cases hi : i < 207360
    · rw [if_pos hi] at h
      exact absurd h (by simp)
    · rw [if_neg hi] at h
      rw [convert3Loop_done cbp pbuf _ i yp op st hi]
      exact h
  | succ n ih =>
    intro i yp op st st' h
    rw [convert3Loop_succ] at h
    rw [show n + 1 + k = (n + k) + 1 by omega, convert3Loop_succ]
    by_cases hi : i < 207360
    · rw [if_pos hi] at h
      rw [if_pos hi]
      exact ih _ _ _ _ _ h
    · rw [if_neg hi] at h
      rw [if_neg hi]
      exact h

/-- With fewer than `51840 - n` passes left in the budget the loop of `convert3`
entered at macropixel `n` does not finish. -/
theorem convert3Loop_short (cbp pbuf : Nat → Nat) :
    ∀ (fuel n i yp op : Nat) (st : ConvState), i = 4 * n → n + fuel < 51840 →
      convert3Loop cbp pbuf fuel i yp op st = none := by
  intro fuel
  induction fuel with
  | zero =>
    intro n i yp op st hi hf
    rw [convert3Loop_zero, if_pos (by omega)]
  | succ f ih =>
    intro n i yp op st hi hf
    rw [convert3Loop_succ, if_pos (by omega)]
    exact ih (n + 1) _ _ _ _ (by omega) (by omega)

/-- Lengths of the logs of the loop of `convert3`. -/
theorem convert3Loop_lengths (cbp pbuf : Nat → Nat) :
    ∀ (fuel n i yp op : Nat) (st st' : ConvState), i = 4 * n → n ≤ 51840 →
      convert3Loop cbp pbuf fuel i yp op st = some st' →
      st'.writes.length = st.writes.length + 4 * (51840 - n) ∧
      st'.yuvReads.length = st.yuvReads.length + 4 * (51840 - n) := by
  intro fuel
  induction fuel with
  | zero =>
    intro n i yp op st st' hi hn h
    rw [convert3Loop_zero] at h
    by_cases hlt : i < 207360
    · rw [if_pos hlt] at h
      exact absurd h (by simp)
    · rw [if_neg hlt] at h
      have e : st = st' := Option.some.inj h
      subst e
      constructor <;> omega
  | succ f ih =>
    intro n i yp op st st' hi hn h
    rw [convert3Loop_succ] at h
    by_cases hlt : i < 207360
    · rw [if_pos hlt] at h
      have := ih (n + 1) _ _ _ _ _ (by omega) (by omega) h
      simp only [convBody, List.length_cons] at this
      constructor <;> omega
    · rw [if_neg hlt] at h
      have e : st = st' := Option.some.inj h
      subst e
      constructor <;> omega

/-- C13: on a frame of N = 51840 macropixels the loop of convert3 finishes
after exactly N passes through its body (a budget of N passes gives the result,
no smaller budget does); it reads exactly the input bytes 0..4N-1, each once,
makes 2N table lookups, and writes exactly the output bytes 0..4N-1, each once
(2N two-byte pixels), leaving every byte beyond unchanged. -/
theorem convert3_exact_footprint (cbp rgb565buf pbuf : Nat → Nat) :
    ∃ st, convert3 cbp rgb565buf pbuf = some (0, st) ∧
      convert3Loop cbp pbuf 51840 0 0 0
        { rgb565 := rgb565buf, yuvReads := [], lutReads := [], writes := [] } = some st ∧
      (∀ fuel, fuel < 51840 → convert3Loop cbp pbuf fuel 0 0 0
        { rgb565 := rgb565buf, yuvReads := [], lutReads := [], writes := [] } = none) ∧
      (∀ b, st.yuvReads.count b = if b < 4 * 51840 then 1 else 0) ∧
      st.yuvReads.length = 4 * 51840 ∧
      st.lutReads.length = 2 * 51840 ∧
      (∀ b, st.writes.count b = if b < 4 * 51840 then 1 else 0) ∧
      st.writes.length = 2 * (2 * 51840) ∧
      (∀ b, 4 * 51840 ≤ b → st.rgb565 b = rgb565buf b) := by
  obtain ⟨st, hrun, hval, hpres, hcw, hcr, hlr, hlen⟩ :=
    convert3Loop_spec cbp pbuf 51840 0 0 0 0
      { rgb565 := rgb565buf, yuvReads := [], lutReads := [], writes := [] } rfl rfl rfl
      (by omega) (by omega)
  have hbig := convert3Loop_fuel_mono cbp pbuf (207360 - 51840) _ _ _ _ _ _ hrun
  have hl := convert3Loop_lengths cbp pbuf 51840 0 0 0 0 _ st rfl (by omega) hrun
  simp only [List.length_nil] at hl hlen
  refine ⟨st, ?_, hrun, ?_, ?_, ?_, ?_, ?_, ?_, ?_⟩
  · unfold convert3
    rw [show YUYV_SIZE = 51840 + (207360 - 51840) from rfl, hbig]
    rfl
  · intro fuel hf
    exact convert3Loop_short cbp pbuf fuel 0 0 0 0 _ rfl (by omega)
  · intro b
    refine (hcr b).trans ?_
    simp only [List.count_nil, Nat.zero_add, Nat.mul_zero, Nat.zero_le, true_and]
  · omega
  · omega
  · intro b
    refine (hcw b).trans ?_
    simp only [List.count_nil, Nat.zero_add, Nat.mul_zero, Nat.zero_le, true_and]
  · omega
  · intro b hb
    rw [hpres b (by omega)]

/-! ## init_fb_color: loop invariant -/

theorem initFbLoop_succ (color fuel i p : Nat) (st : FbState) :
    initFbLoop color (fuel + 1) i p st =
      if i < 130560 then
        initFbLoop color fuel (i + 1) (p + 1)
          { fb := store st.fb p color, reads := st.reads, writes := p :: st.writes }
      else some st := by
  rw [initFbLoop]
  rfl

theorem initFbLoop_zero (color i p : Nat) (st : FbState) :
    initFbLoop color 0 i p st = if i < 130560 then none else some st := by
  rw [initFbLoop]
  rfl

/-- The loop of `init_fb_color`, entered at pixel `n`. -/
theorem initFbLoop_spec (color : Nat) :
    ∀ (fuel n i p : Nat) (st : FbState), i = n → p = n → n ≤ 130560 → 130560 ≤ n + fuel →
      ∃ st', initFbLoop color fuel i p st = some st' ∧
        (∀ w, n ≤ w → w < 130560 → st'.fb w = color) ∧
        (∀ w, ¬ (n ≤ w ∧ w < 130560) → st'.fb w = st.fb w) ∧
        (∀ w, st'.writes.count w = st.writes.count w + if n ≤ w ∧ w < 130560 then 1 else 0) ∧
        st'.reads = st.reads := by
  intro fuel
  induction fuel with
  | zero =>
    intro n i p st hi hp hn hf
    refine ⟨st, ?_, ?_, ?_, ?_, rfl⟩
    · rw [initFbLoop_zero, if_neg (by omega)]
    · intro w h1 h2
      omega
    · intro w _
      rfl
    · intro w
      rw [if_neg (by omega)]
      rfl
  | succ f ih =>
    intro n i p st hi hp hn hf
    by_cases hlt : i < 130560
    · obtain ⟨st', hrun, hval, hpres, hcw, hrd⟩ :=
        ih (n + 1) (i + 1) (p + 1)
          { fb := store st.fb p color, reads := st.reads, writes := p :: st.writes }
          (by omega) (by omega) (by omega) (by omega)
      refine ⟨st', ?_, ?_, ?_, ?_, hrd⟩
      · rw [initFbLoop_succ, if_pos hlt]
        exact hrun
      · intro w h1 h2
        by_cases hw : w = n
        · rw [hpres _ (by omega)]
          simp only [store]
          rw [if_pos (by omega)]
        · exact hval w (by omega) h2
      · intro w hw
        rw [hpres w (by omega)]
        simp only [store]
        rw [if_neg (by omega)]
      · intro w
        rw [hcw w]
        simp only [List.count_cons, beq_iff_eq]
        split_ifs <;> omega
    · refine ⟨st, ?_, ?_, ?_, ?_, rfl⟩
      · rw [initFbLoop_succ, if_neg hlt]
      · intro w h1 h2
        omega
      · intro w _
        rfl
      · intro w
        rw [if_neg (by omega)]
        rfl

/-- The whole of `init_fb_color`. -/
theorem init_fb_color_spec (fbp : Nat → Nat) (color : Nat) :
    ∃ st, init_fb_color fbp color = some (0, st) ∧
      (∀ w, w < 130560 → st.fb w = color) ∧
      (∀ w, 130560 ≤ w → st.fb w = fbp w) ∧
      (∀ w, st.writes.count w = if w < 130560 then 1 else 0) ∧
      st.reads = [] := by
  obtain ⟨st, hrun, hval, hpres, hcw, hrd⟩ :=
    initFbLoop_spec color (HVGA_WIDTH * HVGA_HEIGHT) 0 0 0
      { fb := fbp, reads := [], writes := [] } rfl rfl (by omega)
      (by rw [show HVGA_WIDTH * HVGA_HEIGHT = 130560 from rfl])
  refine ⟨st, ?_, ?_, ?_, ?_, hrd⟩
  · unfold init_fb_color
    rw [hrun]
    rfl
  · intro w hw
    exact hval w (by omega) hw
  · intro w hw
    rw [hpres w (by omega)]
  · intro w
    refine (hcw w).trans ?_
    simp only [List.count_nil, Nat.zero_add, Nat.zero_le, true_and]

/-- C14: every framebuffer pixel index that display_LCD4 writes and every one
that init_fb_color writes is below 480*272, hence below
`virtual_height * stride` for every surface of at least 272 rows with a stride
of at least 480 pixels. -/
theorem framebuffer_writes_in_bounds (fbp filebuf : Nat → Nat) (color : Nat) :
    (∃ st, display_LCD4 fbp filebuf = some (0, st) ∧ ∀ w, w ∈ st.writes → w < 480 * 272) ∧
    (∃ st, init_fb_color fbp color = some (0, st) ∧ ∀ w, w ∈ st.writes → w < 480 * 272) ∧
    (∀ virtual_height stride w : Nat, 272 ≤ virtual_height → 480 ≤ stride → w < 480 * 272 →
      w < virtual_height * stride) := by
  refine ⟨?_, ?_, ?_⟩
  · obtain ⟨st, hrun, -, -, hcw, -⟩ := display_LCD4_spec fbp filebuf
    refine ⟨st, hrun, ?_⟩
    intro w hw
    by_contra hge
    have h0 : st.writes.count w = 0 := by
      rw [hcw w, if_neg (by omega)]
    exact (List.count_eq_zero.mp h0) hw
  · obtain ⟨st, hrun, -, -, hcw, -⟩ := init_fb_color_spec fbp color
    refine ⟨st, hrun, ?_⟩
    intro w hw
    by_contra hge
    have h0 : st.writes.count w = 0 := by
      rw [hcw w, if_neg (by omega)]
    exact (List.count_eq_zero.mp h0) hw
  · intro vh stride w h1 h2 hw
    have : 272 * 480 ≤ vh * stride := Nat.mul_le_mul h1 h2
    omega

/-- C15 (counterexample): on a surface with a line stride of 512 pixels the
claimed index of source pixel (239, 0) is `512*(16+239)+24`; display_LCD4 never
writes it, so on a black framebuffer it stays 0 while the source pixel is 1. -/
theorem display_LCD4_ignores_stride :
    ∃ st, display_LCD4 (fun _ => 0) (fun _ => 1) = some (0, st) ∧
      st.writes.count (512 * (16 + 239) + 24 + 0) = 0 ∧
      st.fb (512 * (16 + 239) + 24 + 0) = 0 ∧
      st.fb (512 * (16 + 239) + 24 + 0) ≠ (fun _ => 1) (432 * 239 + 0) := by
  obtain ⟨st, hrun, -, hpres, hcw, -⟩ := display_LCD4_spec (fun _ => 0) (fun _ => 1)
  have h1 : st.fb (512 * (16 + 239) + 24 + 0) = 0 := hpres _ (by omega)
  refine ⟨st, hrun, ?_, h1, ?_⟩
  · rw [hcw, if_neg (by omega)]
  · rw [h1]
    decide

/-- C15 (amended): display_LCD4 addresses the surface with the fixed row width
480 (`HVGA_WIDTH`), whatever the line stride: source pixel (i, j) is written at
framebuffer index `480*(16+i) + 24 + j` and at no other index, and for a
surface of stride S this is the index `S*(16+i) + 24 + j` of panel row 16+i,
column 24+j exactly when S = 480. -/
theorem display_LCD4_fixed_row_width (fbp filebuf : Nat → Nat) :
    ∃ st, display_LCD4 fbp filebuf = some (0, st) ∧
      (∀ i j, i < 240 → j < 432 →
        st.fb (HVGA_WIDTH * (16 + i) + 24 + j) = filebuf (432 * i + j) ∧
        st.writes.count (HVGA_WIDTH * (16 + i) + 24 + j) = 1) ∧
      (∀ w, w ∈ st.writes → ∃ i j, i < 240 ∧ j < 432 ∧ w = HVGA_WIDTH * (16 + i) + 24 + j) ∧
      (∀ S i j : Nat, i < 240 → j < 432 →
        (HVGA_WIDTH * (16 + i) + 24 + j = S * (16 + i) + 24 + j ↔ S = 480)) := by
  obtain ⟨st, hrun, hval, -, hcw, -⟩ := display_LCD4_spec fbp filebuf
  have hW : HVGA_WIDTH = 480 := rfl
  refine ⟨st, hrun, ?_, ?_, ?_⟩
  · intro i j hi hj
    rw [hW]
    refine ⟨hval i j hi hj, ?_⟩
    rw [hcw, if_pos (by omega)]
  · intro w hw
    by_cases hc : 16 ≤ w / 480 ∧ w / 480 ≤ 255 ∧ 24 ≤ w % 480 ∧ w % 480 ≤ 455
    · refine ⟨w / 480 - 16, w % 480 - 24, by omega, by omega, ?_⟩
      rw [hW]
      omega
    · have h0 : st.writes.count w = 0 := by
        rw [hcw w, if_neg hc]
      exact absurd hw (List.count_eq_zero.mp h0)
  · intro S i j hi hj
    rw [hW]
    constructor
    · intro h
      have h2 : 480 * (16 + i) = S * (16 + i) := by omega
      have h3 : (16 + i) * 480 = (16 + i) * S := by
        rw [Nat.mul_comm (16 + i) 480, Nat.mul_comm (16 + i) S]
        exact h2
      exact (Nat.eq_of_mul_eq_mul_left (by omega : 0 < 16 + i) h3).symm
    · intro h
      rw [h]

/-- C16: for every colour c, init_fb_color returns 0 and leaves every pixel of
the 480x272 surface (indices below 480*272) equal to c; display_LCD4 run on the
filled surface leaves every pixel of the surface outside rows 16..255 x columns
24..455 equal to c. -/
theorem init_fb_color_fills_surface (fbp filebuf : Nat → Nat) (c : Nat) :
    ∃ st1, init_fb_color fbp c = some (0, st1) ∧
      (∀ w, w < 480 * 272 → st1.fb w = c) ∧
      ∃ st2, display_LCD4 st1.fb filebuf = some (0, st2) ∧
        ∀ r col, r < 272 → col < 480 → ¬ (16 ≤ r ∧ r ≤ 255 ∧ 24 ≤ col ∧ col ≤ 455) →
          st2.fb (480 * r + col) = c := by
  obtain ⟨st1, hrun1, hval1, -⟩ := init_fb_color_spec fbp c
  obtain ⟨st2, hrun2, -, hpres2, -⟩ := display_LCD4_spec st1.fb filebuf
  refine ⟨st1, hrun1, ?_, st2, hrun2, ?_⟩
  · intro w hw
    exact hval1 w (by omega)
  · intro r col hr hc hout
    rw [hpres2 (480 * r + col) (by omega)]
    exact hval1 _ (by omega)

/-! ## main: the frame functions in sequence -/

/-- The output bytes of `convert3` below 207360 do not depend on what the
output buffer held. -/
theorem convert3_congr (cbp pbuf buf1 buf2 : Nat → Nat) (cs1 cs2 : ConvState)
    (h1 : convert3 cbp buf1 pbuf = some (0, cs1)) (h2 : convert3 cbp buf2 pbuf = some (0, cs2)) :
    ∀ b, b < 207360 → cs1.rgb565 b = cs2.rgb565 b := by
  obtain ⟨st1, hr1, hv1, -⟩ := convert3_spec cbp buf1 pbuf
  obtain ⟨st2, hr2, hv2, -⟩ := convert3_spec cbp buf2 pbuf
  rw [h1] at hr1
  rw [h2] at hr2
  have e1 : cs1 = st1 := by
    have := Option.some.inj hr1
    exact (Prod.mk.inj this).2
  have e2 : cs2 = st2 := by
    have := Option.some.inj hr2
    exact (Prod.mk.inj this).2
  subst e1
  subst e2
  intro b hb
  obtain ⟨a0, a1, a2, a3⟩ := hv1 (b / 4) (by omega)
  obtain ⟨c0, c1, c2, c3⟩ := hv2 (b / 4) (by omega)
  have hcase : b = 4 * (b / 4) ∨ b = 4 * (b / 4) + 1 ∨ b = 4 * (b / 4) + 2 ∨
      b = 4 * (b / 4) + 3 := by omega
  rcases hcase with h | h | h | h
  · rw [h, a0, c0]
  · rw [h, a1, c1]
  · rw [h, a2, c2]
  · rw [h, a3, c3]

/-- The output pixels of `HaarDwt` below 103680 depend only on the input pixels
below 103680. -/
theorem HaarDwt_congr (f g out1 out2 : Nat → Nat) (hs1 hs2 : HaarState)
    (hfg : ∀ r, r < 103680 → f r = g r)
    (h1 : HaarDwt f out1 = some (0, hs1)) (h2 : HaarDwt g out2 = some (0, hs2)) :
    ∀ w, w < 103680 → hs1.imgout w = hs2.imgout w := by
  obtain ⟨st1, hr1, hv1, -⟩ := HaarDwt_spec f out1
  obtain ⟨st2, hr2, hv2, -⟩ := HaarDwt_spec g out2
  rw [h1] at hr1
  rw [h2] at hr2
  have e1 : hs1 = st1 := (Prod.mk.inj (Option.some.inj hr1)).2
  have e2 : hs2 = st2 := (Prod.mk.inj (Option.some.inj hr2)).2
  subst e1
  subst e2
  intro w hw
  obtain ⟨bi, bj, hbi, hbj, hcase⟩ := quadrant_decode w hw
  obtain ⟨a1, a2, a3, a4⟩ := hv1 bi bj hbi hbj
  obtain ⟨b1, b2, b3, b4⟩ := hv2 bi bj hbi hbj
  rw [blockAt_congr f g hfg bi bj hbi hbj] at a1 a2 a3 a4
  rcases hcase with h | h | h | h
  · rw [h, a1, b1]
  · rw [h, a2, b2]
  · rw [h, a3, b3]
  · rw [h, a4, b4]

/-- The three frame functions in sequence (lines 413-429): they always return,
and the framebuffer afterwards holds, in the interior, the pixels of HaarDwt of
convert3 of the captured frame, and outside it what it held before. -/
theorem processFrame_spec (cbp lut_ptr : Nat → Nat) (b : Bufs) :
    ∃ b', processFrame cbp lut_ptr b = some b' ∧
      (∀ w, ¬ (16 ≤ w / 480 ∧ w / 480 ≤ 255 ∧ 24 ≤ w % 480 ∧ w % 480 ≤ 455) →
        b'.fb w = b.fb w) ∧
      (∀ buf out : Nat → Nat, ∃ cs hs,
        convert3 cbp buf lut_ptr = some (0, cs) ∧
        HaarDwt (readU16LE cs.rgb565) out = some (0, hs) ∧
        ∀ i j, i < 240 → j < 432 →
          b'.fb (480 * (16 + i) + 24 + j) = hs.imgout (432 * i + j)) := by
  obtain ⟨cs, hc, -⟩ := convert3_spec cbp b.rgb565 lut_ptr
  obtain ⟨hs, hh, -⟩ := HaarDwt_spec (readU16LE cs.rgb565) b.imgout
  obtain ⟨ds, hd, hdv, hdp, -⟩ := display_LCD4_spec b.fb hs.imgout
  refine ⟨{ rgb565 := cs.rgb565, imgout := hs.imgout, fb := ds.fb }, ?_, ?_, ?_⟩
  · unfold processFrame
    rw [hc, Option.some_bind, hh, Option.some_bind, hd, Option.map_some']
  · intro w hw
    exact hdp w hw
  · intro buf out
    obtain ⟨cs2, hc2, -⟩ := convert3_spec cbp buf lut_ptr
    obtain ⟨hs2, hh2, -⟩ := HaarDwt_spec (readU16LE cs2.rgb565) out
    refine ⟨cs2, hs2, hc2, hh2, ?_⟩
    intro i j hi hj
    have hbytes := convert3_congr cbp lut_ptr b.rgb565 buf cs cs2 hc hc2
    have hpix : ∀ r, r < 103680 → readU16LE cs.rgb565 r = readU16LE cs2.rgb565 r := by
      intro r hr
      simp only [readU16LE]
      rw [hbytes (2 * r) (by omega), hbytes (2 * r + 1) (by omega)]
    have hout := HaarDwt_congr _ _ _ _ hs hs2 hpix hh hh2 (432 * i + j) (by omega)
    show ds.fb (480 * (16 + i) + 24 + j) = hs2.imgout (432 * i + j)
    rw [hdv i j hi hj, hout]

/-! ## main: the streaming loop -/

theorem streamBody_qbuf_fails (sys : Sys) (s : LoopState) (hq : sys.qbuf s.n = false) :
    streamBody sys s = some (BodyResult.exit 1
      { s with trace := s.trace ++ [Event.call Call.VIDIOC_QBUF false] }) := by
  simp only [streamBody, hq, if_true]

theorem streamBody_dqbuf_fails (sys : Sys) (s : LoopState) (hq : sys.qbuf s.n = true)
    (hd : sys.dqbuf s.n = false) :
    streamBody sys s = some (BodyResult.exit 1
      { s with trace := s.trace ++ [Event.call Call.VIDIOC_QBUF true,
        Event.call Call.VIDIOC_DQBUF false] }) := by
  simp [streamBody, hq, hd]

theorem streamBody_next (sys : Sys) (s : LoopState) (hq : sys.qbuf s.n = true)
    (hd : sys.dqbuf s.n = true) :
    ∃ b', processFrame (sys.frame s.n) sys.lut s.bufs = some b' ∧
      streamBody sys s = some (BodyResult.next
        { count := s.count - 1, n := s.n + 1, bufs := b', trace := s.trace ++ round }) := by
  obtain ⟨b', hp, -⟩ := processFrame_spec (sys.frame s.n) sys.lut s.bufs
  refine ⟨b', hp, ?_⟩
  unfold streamBody
  rw [hp]
  simp [hq, hd, tlog, round]

theorem streamLoop_zero (sys : Sys) (s : LoopState) :
    streamLoop sys 0 s = if s.count ≠ 0 then none else some ⟨none, s⟩ := by
  rw [streamLoop]

theorem streamLoop_succ (sys : Sys) (fuel : Nat) (s : LoopState) :
    streamLoop sys (fuel + 1) s =
      if s.count ≠ 0 then
        match streamBody sys s with
        | none => none
        | some r =>
          match r with
          | BodyResult.exit status s' => some ⟨some status, s'⟩
          | BodyResult.next s' => streamLoop sys fuel s'
      else some ⟨none, s⟩ := by
  rw [streamLoop]

theorem rounds_succ_last (k : Nat) : rounds (k + 1) = rounds k ++ round := by
  induction k with
  | zero => simp [rounds]
  | succ n ih =>
    show round ++ rounds (n + 1) = (round ++ rounds n) ++ round
    rw [ih, List.append_assoc]

theorem streamBody_cases (sys : Sys) (s : LoopState) :
    (sys.qbuf s.n = false ∧ streamBody sys s = some (BodyResult.exit 1
      { s with trace := s.trace ++ [Event.call Call.VIDIOC_QBUF false] })) ∨
    (sys.qbuf s.n = true ∧ sys.dqbuf s.n = false ∧ streamBody sys s = some (BodyResult.exit 1
      { s with trace := s.trace ++ [Event.call Call.VIDIOC_QBUF true,
        Event.call Call.VIDIOC_DQBUF false] })) ∨
    (sys.qbuf s.n = true ∧ sys.dqbuf s.n = true ∧
      ∃ b', processFrame (sys.frame s.n) sys.lut s.bufs = some b' ∧
        streamBody sys s = some (BodyResult.next
          { count := s.count - 1, n := s.n + 1, bufs := b', trace := s.trace ++ round })) := by
  cases hq : sys.qbuf s.n with
  | false => exact Or.inl ⟨rfl, streamBody_qbuf_fails sys s hq⟩
  | true =>
    cases hd : sys.dqbuf s.n with
    | false => exact Or.inr (Or.inl ⟨rfl, rfl, streamBody_dqbuf_fails sys s hq hd⟩)
    | true => exact Or.inr (Or.inr ⟨rfl, rfl, streamBody_next sys s hq hd⟩)

theorem afterPasses_zero (sys : Sys) (s : LoopState) : afterPasses sys 0 s = some s := rfl

theorem afterPasses_succ (sys : Sys) (k : Nat) (s s' : LoopState)
    (h : streamBody sys s = some (BodyResult.next s')) :
    afterPasses sys (k + 1) s = afterPasses sys k s' := by
  rw [afterPasses, h]

theorem afterPasses_succ_inv (sys : Sys) (k : Nat) (s sk : LoopState)
    (h : afterPasses sys (k + 1) s = some sk) :
    ∃ s1, streamBody sys s = some (BodyResult.next s1) ∧ afterPasses sys k s1 = some sk := by
  rcases streamBody_cases sys s with ⟨_, hb⟩ | ⟨_, _, hb⟩ | ⟨_, _, b', _, hb⟩
  · rw [afterPasses, hb] at h
    exact absurd h (by simp)
  · rw [afterPasses, hb] at h
    exact absurd h (by simp)
  · refine ⟨_, hb, ?_⟩
    rw [afterPasses_succ sys k s _ hb] at h
    exact h

/-- The state after `k` passes without `exit`: counters, trace, the calls that
succeeded and the framebuffer outside the interior. -/
theorem afterPasses_spec (sys : Sys) :
    ∀ (k : Nat) (s sk : LoopState), afterPasses sys k s = some sk →
      sk.n = s.n + k ∧ sk.count = s.count - (k : Int) ∧ sk.trace = s.trace ++ rounds k ∧
      (∀ m, m < k → sys.qbuf (s.n + m) = true ∧ sys.dqbuf (s.n + m) = true) ∧
      (∀ w, ¬ (16 ≤ w / 480 ∧ w / 480 ≤ 255 ∧ 24 ≤ w % 480 ∧ w % 480 ≤ 455) →
        sk.bufs.fb w = s.bufs.fb w) := by
  intro k
  induction k with
  | zero =>
    intro s sk h
    have e : s = sk := Option.some.inj h
    subst e
    refine ⟨rfl, by simp, by simp [rounds], ?_, fun _ _ => rfl⟩
    intro m hm
    omega
  | succ n ih =>
    intro s sk h
    obtain ⟨s1, hb, h1⟩ := afterPasses_succ_inv sys n s sk h
    obtain ⟨i1, i2, i3, i4, i5⟩ := ih s1 sk h1
    rcases streamBody_cases sys s with ⟨_, hb'⟩ | ⟨_, _, hb'⟩ | ⟨hq, hd, b', hp, hb'⟩
    · rw [hb] at hb'
      exact absurd hb' (by simp)
    · rw [hb] at hb'
      exact absurd hb' (by simp)
    · rw [hb] at hb'
      have e : s1 = { count := s.count - 1, n := s.n + 1, bufs := b', trace := s.trace ++ round } :=
        BodyResult.next.inj (Option.some.inj hb')
      subst e
      obtain ⟨b2, hp2, hmargin, -⟩ := processFrame_spec (sys.frame s.n) sys.lut s.bufs
      rw [hp] at hp2
      have e2 : b' = b2 := Option.some.inj hp2
      subst e2
      simp only at i1 i2 i3 i4 i5
      refine ⟨by omega, by push_cast; omega, ?_, ?_, ?_⟩
      · rw [i3, List.append_assoc]
        rfl
      · intro m hm
        by_cases h0 : m = 0
        · subst h0
          exact ⟨hq, hd⟩
        · have := i4 (m - 1) (by omega)
          rw [show s.n + 1 + (m - 1) = s.n + m by omega] at this
          exact this
      · intro w hw
        rw [i5 w hw, hmargin w hw]

/-- The last of `k + 1` passes without `exit` is a pass of the frame functions
on frame `s.n + k`. -/
theorem afterPasses_last (sys : Sys) :
    ∀ (k : Nat) (s s' : LoopState), afterPasses sys (k + 1) s = some s' →
      ∃ sk, afterPasses sys k s = some sk ∧
        processFrame (sys.frame (s.n + k)) sys.lut sk.bufs = some s'.bufs := by
  intro k
  induction k with
  | zero =>
    intro s s' h
    obtain ⟨s1, hb, h1⟩ := afterPasses_succ_inv sys 0 s s' h
    have e : s1 = s' := Option.some.inj h1
    subst e
    refine ⟨s, rfl, ?_⟩
    rcases streamBody_cases sys s with ⟨_, hb'⟩ | ⟨_, _, hb'⟩ | ⟨_, _, b', hp, hb'⟩
    · rw [hb] at hb'
      exact absurd hb' (by simp)
    · rw [hb] at hb'
      exact absurd hb' (by simp)
    · rw [hb] at hb'
      have e : s1 = { count := s.count - 1, n := s.n + 1, bufs := b', trace := s.trace ++ round } :=
        BodyResult.next.inj (Option.some.inj hb')
      subst e
      exact hp
  | succ n ih =>
    intro s s' h
    obtain ⟨s1, hb, h1⟩ := afterPasses_succ_inv sys (n + 1) s s' h
    obtain ⟨sk, hk, hp⟩ := ih s1 s' h1
    have hn : s1.n = s.n + 1 := by
      have := (afterPasses_spec sys 1 s s1 (by rw [afterPasses_succ sys 0 s s1 hb]; rfl)).1
      exact this
    refine ⟨sk, ?_, ?_⟩
    · rw [afterPasses_succ sys n s s1 hb]
      exact hk
    · rw [show s.n + (n + 1) = s1.n + n by omega]
      exact hp

/-- When the calls of the next `k` passes succeed, the state after `k` passes
exists. -/
theorem afterPasses_total (sys : Sys) :
    ∀ (k : Nat) (s : LoopState),
      (∀ m, m < k → sys.qbuf (s.n + m) = true ∧ sys.dqbuf (s.n + m) = true) →
      ∃ sk, afterPasses sys k s = some sk := by
  intro k
  induction k with
  | zero =>
    intro s _
    exact ⟨s, rfl⟩
  | succ n ih =>
    intro s h
    obtain ⟨hq, hd⟩ := h 0 (by omega)
    obtain ⟨b', -, hb⟩ := streamBody_next sys s hq hd
    obtain ⟨sk, hk⟩ := ih ⟨s.count - 1, s.n + 1, b', s.trace ++ round⟩ (by
        intro m hm
        have := h (m + 1) (by omega)
        rw [show s.n + (m + 1) = s.n + 1 + m by omega] at this
        exact this)
    exact ⟨sk, by rw [afterPasses_succ sys n s _ hb]; exact hk⟩

/-- The streaming loop entered with `count = c`: it ends, after `k ≤ c` passes
without `exit`, either by leaving the loop (`k = c`) or by the `exit(1)` of a
failed `VIDIOC_QBUF` or `VIDIOC_DQBUF` in the next pass. -/
theorem streamLoop_spec (sys : Sys) :
    ∀ (fuel c : Nat) (s : LoopState), s.count = (c : Int) → c ≤ fuel →
      ∃ e k sk, streamLoop sys fuel s = some e ∧ k ≤ c ∧ afterPasses sys k s = some sk ∧
        ((e.exited = none ∧ k = c ∧ e.s = sk) ∨
         (e.exited = some 1 ∧ k < c ∧ sys.qbuf sk.n = false ∧
           e.s = { sk with trace := sk.trace ++ [Event.call Call.VIDIOC_QBUF false] }) ∨
         (e.exited = some 1 ∧ k < c ∧ sys.qbuf sk.n = true ∧ sys.dqbuf sk.n = false ∧
           e.s = { sk with trace := sk.trace ++ [Event.call Call.VIDIOC_QBUF true,
             Event.call Call.VIDIOC_DQBUF false] })) := by
  intro fuel
  induction fuel with
  | zero =>
    intro c s hc hf
    have h0 : c = 0 := by omega
    subst h0
    refine ⟨⟨none, s⟩, 0, s, ?_, Nat.le_refl 0, rfl, Or.inl ⟨rfl, rfl, rfl⟩⟩
    rw [streamLoop_zero, if_neg]
    simp [hc]
  | succ f ih =>
    intro c s hc hf
    by_cases h0 : c = 0
    · subst h0
      refine ⟨⟨none, s⟩, 0, s, ?_, Nat.le_refl 0, rfl, Or.inl ⟨rfl, rfl, rfl⟩⟩
      rw [streamLoop_succ, if_neg]
      simp [hc]
    · have hne : s.count ≠ 0 := by
        rw [hc]
        exact_mod_cast h0
      rcases streamBody_cases sys s with ⟨hq, hb⟩ | ⟨hq, hd, hb⟩ | ⟨hq, hd, b', hp, hb⟩
      · refine ⟨⟨some 1, { s with trace := s.trace ++ [Event.call Call.VIDIOC_QBUF false] }⟩, 0, s,
          ?_, Nat.zero_le c, rfl, Or.inr (Or.inl ⟨rfl, by omega, hq, rfl⟩)⟩
        rw [streamLoop_succ, if_pos hne, hb]
      · refine ⟨⟨some 1, { s with trace := s.trace ++ [Event.call Call.VIDIOC_QBUF true,
          Event.call Call.VIDIOC_DQBUF false] }⟩, 0, s,
          ?_, Nat.zero_le c, rfl, Or.inr (Or.inr ⟨rfl, by omega, hq, hd, rfl⟩)⟩
        rw [streamLoop_succ, if_pos hne, hb]
      · obtain ⟨e, k, sk, hrun, hk, hap, hcase⟩ :=
          ih (c - 1) { count := s.count - 1, n := s.n + 1, bufs := b', trace := s.trace ++ round }
            (by simp only [hc]; omega) (by omega)
        refine ⟨e, k + 1, sk, ?_, by omega, ?_, ?_⟩
        · rw [streamLoop_succ, if_pos hne, hb]
          exact hrun
        · rw [afterPasses_succ sys k s _ hb]
          exact hap
        · rcases hcase with ⟨a1, a2, a3⟩ | ⟨a1, a2, a3, a4⟩ | ⟨a1, a2, a3, a4, a5⟩
          · exact Or.inl ⟨a1, by omega, a3⟩
          · exact Or.inr (Or.inl ⟨a1, by omega, a3, a4⟩)
          · exact Or.inr (Or.inr ⟨a1, by omega, a3, a4, a5⟩)

/-- With fewer than `c` passes in the budget the streaming loop entered with
`count = c` does not finish when no call fails. -/
theorem streamLoop_short (sys : Sys) :
    ∀ (fuel c : Nat) (s : LoopState), s.count = (c : Int) → fuel < c →
      (∀ m, m < c → sys.qbuf (s.n + m) = true ∧ sys.dqbuf (s.n + m) = true) →
      streamLoop sys fuel s = none := by
  intro fuel
  induction fuel with
  | zero =>
    intro c s hc hf _
    rw [streamLoop_zero, if_pos]
    rw [hc]
    exact_mod_cast (by omega : c ≠ 0)
  | succ f ih =>
    intro c s hc hf hok
    have hne : s.count ≠ 0 := by
      rw [hc]
      exact_mod_cast (by omega : c ≠ 0)
    obtain ⟨hq, hd⟩ := hok 0 (by omega)
    obtain ⟨b', -, hb⟩ := streamBody_next sys s hq hd
    rw [streamLoop_succ, if_pos hne, hb]
    exact ih (c - 1) _ (by simp only [hc]; omega) (by omega) (by
      intro m hm
      have := hok (m + 1) (by omega)
      rw [show s.n + (m + 1) = s.n + 1 + m by omega] at this
      exact this)

/-! ## main: the calls before the streaming loop -/

theorem ite_sum (P : Sum Outcome (List Event) → Prop) (c : Prop) [Decidable c]
    (a b : Sum Outcome (List Event)) (ha : c → P a) (hb : ¬ c → P b) :
    P (if c then a else b) := by
  split_ifs with h
  · exact ha h
  · exact hb h

/-- The calls of `setup` are none of the events of the streaming loop. -/
theorem setup_no_loopEvent (hdr : Videodev2) (sys : Sys) :
    ∀ e, e ∈ sumTrace (setup hdr sys) → loopEvent e = false := by
  simp only [setup, List.append_assoc, List.singleton_append, List.cons_append, List.nil_append]
  repeat'
    refine ite_sum (fun x => ∀ e, e ∈ sumTrace x → loopEvent e = false) _ _ _
      (fun _ => ?_) (fun _ => ?_)
  all_goals simp [sumTrace, loopEvent]

/-- When `main` leaves in `setup` no pass of the loop was made and the
framebuffer is untouched. -/
theorem setup_inl_frames (hdr : Videodev2) (sys : Sys) :
    ∀ o, setup hdr sys = Sum.inl o → o.frames = 0 ∧ o.fb = sys.fb := by
  simp only [setup, List.append_assoc, List.singleton_append, List.cons_append, List.nil_append]
  repeat'
    refine ite_sum (fun x => ∀ o, x = Sum.inl o → o.frames = 0 ∧ o.fb = sys.fb) _ _ _
      (fun _ => ?_) (fun _ => ?_)
  all_goals
    intro o ho
    first
      | (cases ho; exact ⟨rfl, rfl⟩)
      | cases ho

/-- The camera part of `setup` (lines 209-236), when the framebuffer part
succeeded. -/
theorem setup_camera (hdr : Videodev2) (sys : Sys) (h1 : sys.open_fb = true)
    (h2 : sys.fbioput_vscreeninfo = true) (h3 : sys.mmap_fb = true) :
    (¬ (sys.open_video = true ∧ sys.querycap = true ∧
          sys.capabilities &&& hdr.V4L2_CAP_VIDEO_CAPTURE ≠ 0 ∧
          sys.capabilities &&& hdr.V4L2_CAP_STREAMING ≠ 0) →
        ∃ o, setup hdr sys = Sum.inl o ∧ o.status = 1 ∧
          ∀ b, Event.call Call.VIDIOC_S_FMT b ∉ o.trace) ∧
    ((sys.open_video = true ∧ sys.querycap = true ∧
          sys.capabilities &&& hdr.V4L2_CAP_VIDEO_CAPTURE ≠ 0 ∧
          sys.capabilities &&& hdr.V4L2_CAP_STREAMING ≠ 0) →
        Event.call Call.VIDIOC_S_FMT sys.s_fmt ∈ sumTrace (setup hdr sys)) := by
  simp only [setup, List.append_assoc, List.singleton_append, List.cons_append, List.nil_append]
  repeat'
    refine ite_sum (fun x =>
        (¬ (sys.open_video = true ∧ sys.querycap = true ∧
              sys.capabilities &&& hdr.V4L2_CAP_VIDEO_CAPTURE ≠ 0 ∧
              sys.capabilities &&& hdr.V4L2_CAP_STREAMING ≠ 0) →
            ∃ o, x = Sum.inl o ∧ o.status = 1 ∧
              ∀ b, Event.call Call.VIDIOC_S_FMT b ∉ o.trace) ∧
        ((sys.open_video = true ∧ sys.querycap = true ∧
              sys.capabilities &&& hdr.V4L2_CAP_VIDEO_CAPTURE ≠ 0 ∧
              sys.capabilities &&& hdr.V4L2_CAP_STREAMING ≠ 0) →
            Event.call Call.VIDIOC_S_FMT sys.s_fmt ∈ sumTrace x)) _ _ _
      (fun _ => ?_) (fun _ => ?_)
  all_goals simp_all [sumTrace]

/-- When no tested call fails `main` reaches the end of `setup`. -/
theorem setup_noFailure (hdr : Videodev2) (sys : Sys) (h : NoFailure hdr sys) :
    ∃ tr, setup hdr sys = Sum.inr tr := by
  obtain ⟨h1, h2, h3, h4, h5, h6, h7, h8, h9, h10, h11, h12, h13, h14, -, -⟩ := h
  simp only [setup, List.append_assoc, List.singleton_append, List.cons_append, List.nil_append]
  repeat'
    refine ite_sum (fun x => ∃ tr, x = Sum.inr tr) _ _ _ (fun _ => ?_) (fun _ => ?_)
  all_goals simp_all

/-! ## main: the whole run -/

theorem shutdown_left (sys : Sys) (s : LoopState) :
    shutdown sys ⟨none, s⟩ =
      ⟨if sys.streamoff = false then 1 else 0,
        s.trace ++ [Event.call Call.VIDIOC_STREAMOFF sys.streamoff], s.bufs.fb, s.n⟩ := by
  cases h : sys.streamoff <;> simp [shutdown, h]

theorem shutdown_exited (sys : Sys) (status : Int) (s : LoopState) :
    shutdown sys ⟨some status, s⟩ = ⟨status, s.trace, s.bufs.fb, s.n⟩ := rfl

/-- Every run of `main` ends: in `setup`, or after `k` complete passes of the
streaming loop, either with `VIDIOC_STREAMOFF` after `SAMPLE_SIZE` passes or at
the failed `VIDIOC_QBUF` or `VIDIOC_DQBUF` of pass `k`. -/
theorem main_spec (hdr : Videodev2) (sys : Sys) :
    (∃ o, setup hdr sys = Sum.inl o ∧ main hdr sys = some o) ∨
    (∃ tr r0 k sk tail status, setup hdr sys = Sum.inr tr ∧
      init_fb_color sys.fb GRAY = some (0, r0) ∧ k ≤ SAMPLE_SIZE ∧
      afterPasses sys k ⟨count, 0, ⟨fun _ => 0, fun _ => 0xffff, r0.fb⟩, tr ++ [Event.init_fb_color]⟩ = some sk ∧
      main hdr sys = some ⟨status, sk.trace ++ tail, sk.bufs.fb, k⟩ ∧
      ((k = SAMPLE_SIZE ∧ tail = [Event.call Call.VIDIOC_STREAMOFF sys.streamoff] ∧
          status = if sys.streamoff = false then 1 else 0) ∨
       (k < SAMPLE_SIZE ∧ sys.qbuf k = false ∧ tail = [Event.call Call.VIDIOC_QBUF false] ∧
          status = 1) ∨
       (k < SAMPLE_SIZE ∧ sys.qbuf k = true ∧ sys.dqbuf k = false ∧
          tail = [Event.call Call.VIDIOC_QBUF true, Event.call Call.VIDIOC_DQBUF false] ∧
          status = 1))) := by
  cases hs : setup hdr sys with
  | inl o =>
    refine Or.inl ⟨o, rfl, ?_⟩
    unfold main
    rw [hs]
  | inr tr =>
    obtain ⟨r0, hinit, -⟩ := init_fb_color_spec sys.fb GRAY
    obtain ⟨e, k, sk, hrun, hk, hap, hcase⟩ :=
      streamLoop_spec sys SAMPLE_SIZE SAMPLE_SIZE
        ⟨count, 0, ⟨fun _ => 0, fun _ => 0xffff, r0.fb⟩, tr ++ [Event.init_fb_color]⟩ rfl (Nat.le_refl _)
    have hn : sk.n = k := by
      have := (afterPasses_spec sys k _ sk hap).1
      simpa using this
    have hmain : main hdr sys = some (shutdown sys e) := by
      unfold main
      rw [hs]
      dsimp only
      rw [hinit, Option.some_bind]
      dsimp only
      rw [hrun, Option.map_some']
    obtain ⟨ex, es⟩ := e
    rcases hcase with ⟨a1, a2, a3⟩ | ⟨a1, a2, a3, a4⟩ | ⟨a1, a2, a3, a4, a5⟩
    · simp only at a1 a3
      subst a1 a3
      refine Or.inr ⟨tr, r0, k, es, _, _, rfl, hinit, hk, hap, ?_, Or.inl ⟨a2, rfl, rfl⟩⟩
      rw [hmain, shutdown_left, hn]
    · simp only at a1 a4
      subst a1 a4
      refine Or.inr ⟨tr, r0, k, sk, _, _, rfl, hinit, hk, hap, ?_,
        Or.inr (Or.inl ⟨a2, by rw [← hn]; exact a3, rfl, rfl⟩)⟩
      rw [hmain, shutdown_exited, ← hn]
    · simp only at a1 a5
      subst a1 a5
      refine Or.inr ⟨tr, r0, k, sk, _, _, rfl, hinit, hk, hap, ?_,
        Or.inr (Or.inr ⟨a2, by rw [← hn]; exact a3, by rw [← hn]; exact a4, rfl, rfl⟩)⟩
      rw [hmain, shutdown_exited, ← hn]

/-! ## The capture-buffer lifecycle over a trace -/

theorem bufRun_append (a b : List Event) :
    ∀ s, bufRun s (a ++ b) = (bufRun s a).bind fun s' => bufRun s' b := by
  induction a with
  | nil =>
    intro s
    rfl
  | cons e es ih =>
    intro s
    cases h : bufStep s e with
    | none => simp [bufRun, h]
    | some s' => simp [bufRun, h, ih]

theorem bufStep_of_not_loopEvent (s : BufState) (e : Event) (h : loopEvent e = false) :
    bufStep s e = some s := by
  cases e with
  | call c ok => cases c <;> cases ok <;> first | rfl | exact absurd h (by decide)
  | init_fb_color => rfl
  | convert3 => exact absurd h (by decide)
  | HaarDwt => exact absurd h (by decide)
  | display_LCD4 => exact absurd h (by decide)

theorem bufRun_of_not_loopEvent (l : List Event) :
    ∀ s, (∀ e, e ∈ l → loopEvent e = false) → bufRun s l = some s := by
  induction l with
  | nil =>
    intro s _
    rfl
  | cons e es ih =>
    intro s h
    have h1 := bufStep_of_not_loopEvent s e (h e (List.mem_cons_self e es))
    have h2 := ih s (fun x hx => h x (List.mem_cons_of_mem e hx))
    simp [bufRun, h1, h2]

theorem bufRun_round (s : BufState) (h : s ≠ BufState.Queued) :
    bufRun s round = some BufState.Dequeued := by
  cases s with
  | Unqueued => rfl
  | Queued => exact absurd rfl h
  | Dequeued => rfl

theorem bufRun_rounds (k : Nat) :
    ∀ s, s ≠ BufState.Queued → ∃ s', bufRun s (rounds k) = some s' ∧ s' ≠ BufState.Queued := by
  induction k with
  | zero =>
    intro s h
    exact ⟨s, rfl, h⟩
  | succ n ih =>
    intro s h
    obtain ⟨s', h1, h2⟩ := ih BufState.Dequeued (by decide)
    refine ⟨s', ?_, h2⟩
    show bufRun s (round ++ rounds n) = some s'
    rw [bufRun_append, bufRun_round s h]
    exact h1

theorem bufRun_tail (s : BufState) (h : s ≠ BufState.Queued) (b : Bool) (tail : List Event)
    (ht : tail = [] ∨ tail = [Event.call Call.VIDIOC_STREAMOFF b] ∨
      tail = [Event.call Call.VIDIOC_QBUF false] ∨
      tail = [Event.call Call.VIDIOC_QBUF true, Event.call Call.VIDIOC_DQBUF false]) :
    ∃ s', bufRun s tail = some s' := by
  rcases ht with ht | ht | ht | ht <;> subst ht
  · exact ⟨s, rfl⟩
  · exact ⟨s, by cases b <;> rfl⟩
  · exact ⟨s, rfl⟩
  · exact ⟨BufState.Queued, by
      cases s with
      | Unqueued => rfl
      | Queued => exact absurd rfl h
      | Dequeued => rfl⟩

/-! ## Claims about main -/

/-- C17 (divergence): the exit status of `main` is 0 although a step failed.
In the environment in which every call succeeds except `VIDIOC_REQBUFS`, `main`
ends with status 0 (the `exit(0)` of line 267) after no pass of the loop, the
failed call being the last event; the same holds when only the `open` of the
table fails (`return(0)`, line 325) and when only the `mmap` of the table fails
(`return(0)`, line 335). When only `VIDIOC_S_FMT` fails the status is 1. -/
theorem main_status_zero_on_failed_step :
    (main hdrLinux { sysOk with reqbufs := false }).map
        (fun o => (o.status, o.frames, o.trace.getLast?)) =
      some (0, 0, some (Event.call Call.VIDIOC_REQBUFS false)) ∧
    (main hdrLinux { sysOk with open_lut := false }).map
        (fun o => (o.status, o.frames, o.trace.getLast?)) =
      some (0, 0, some (Event.call Call.open_lut false)) ∧
    (main hdrLinux { sysOk with mmap_lut := false }).map
        (fun o => (o.status, o.frames, o.trace.getLast?)) =
      some (0, 0, some (Event.call Call.mmap_lut false)) ∧
    (main hdrLinux { sysOk with s_fmt := false }).map
        (fun o => (o.status, o.frames, o.trace.getLast?)) =
      some (1, 0, some (Event.call Call.VIDIOC_S_FMT false)) :=
  ⟨rfl, rfl, rfl, rfl⟩

/-- C18: every run of `main` ends, and its events are: events that are none of
the loop's, then `frames` times the sequence successful `VIDIOC_QBUF`,
successful `VIDIOC_DQBUF`, `convert3`, `HaarDwt`, `display_LCD4`, then nothing,
or `VIDIOC_STREAMOFF`, or a failed `VIDIOC_QBUF`, or a successful `VIDIOC_QBUF`
and a failed `VIDIOC_DQBUF`. The whole trace obeys the buffer lifecycle: the
buffer is never queued while queued, dequeued only while queued, and read by
`convert3` only while dequeued. -/
theorem main_buffer_operations_alternate (hdr : Videodev2) (sys : Sys) :
    ∃ o, main hdr sys = some o ∧
      (∃ pre tail, o.trace = pre ++ rounds o.frames ++ tail ∧
        (∀ e, e ∈ pre → loopEvent e = false) ∧
        (tail = [] ∨ tail = [Event.call Call.VIDIOC_STREAMOFF sys.streamoff] ∨
          tail = [Event.call Call.VIDIOC_QBUF false] ∨
          tail = [Event.call Call.VIDIOC_QBUF true, Event.call Call.VIDIOC_DQBUF false])) ∧
      (∃ s, bufRun BufState.Unqueued o.trace = some s) := by
  have hrun : ∀ (pre tail : List Event) (k : Nat), (∀ e, e ∈ pre → loopEvent e = false) →
      (tail = [] ∨ tail = [Event.call Call.VIDIOC_STREAMOFF sys.streamoff] ∨
        tail = [Event.call Call.VIDIOC_QBUF false] ∨
        tail = [Event.call Call.VIDIOC_QBUF true, Event.call Call.VIDIOC_DQBUF false]) →
      ∃ s, bufRun BufState.Unqueued (pre ++ rounds k ++ tail) = some s := by
    intro pre tail k hpre htail
    obtain ⟨s1, h1, h2⟩ := bufRun_rounds k BufState.Unqueued (by decide)
    obtain ⟨s2, h3⟩ := bufRun_tail s1 h2 sys.streamoff tail htail
    refine ⟨s2, ?_⟩
    rw [bufRun_append, bufRun_append, bufRun_of_not_loopEvent pre _ hpre, Option.some_bind, h1,
      Option.some_bind]
    exact h3
  rcases main_spec hdr sys with ⟨o, hs, hmain⟩ |
    ⟨tr, r0, k, sk, tail, status, hs, hinit, hk, hap, hmain, hcase⟩
  · have hpre : ∀ e, e ∈ o.trace → loopEvent e = false := by
      have := setup_no_loopEvent hdr sys
      rw [hs] at this
      exact this
    have hf : o.frames = 0 := (setup_inl_frames hdr sys o hs).1
    have htr : o.trace = o.trace ++ rounds o.frames ++ [] := by
      rw [hf]
      simp [rounds]
    refine ⟨o, hmain, ⟨o.trace, [], htr, hpre, Or.inl rfl⟩, ?_⟩
    rw [htr]
    exact hrun o.trace [] o.frames hpre (Or.inl rfl)
  · have hpre : ∀ e, e ∈ tr ++ [Event.init_fb_color] → loopEvent e = false := by
      intro e he
      rcases List.mem_append.1 he with he | he
      · have := setup_no_loopEvent hdr sys
        rw [hs] at this
        exact this e he
      · rw [List.mem_singleton.1 he]
        rfl
    have htrace : sk.trace = tr ++ [Event.init_fb_color] ++ rounds k :=
      (afterPasses_spec sys k _ sk hap).2.2.1
    have htail : tail = [] ∨ tail = [Event.call Call.VIDIOC_STREAMOFF sys.streamoff] ∨
        tail = [Event.call Call.VIDIOC_QBUF false] ∨
        tail = [Event.call Call.VIDIOC_QBUF true, Event.call Call.VIDIOC_DQBUF false] := by
      rcases hcase with ⟨-, a, -⟩ | ⟨-, -, a, -⟩ | ⟨-, -, -, a, -⟩
      · exact Or.inr (Or.inl a)
      · exact Or.inr (Or.inr (Or.inl a))
      · exact Or.inr (Or.inr (Or.inr a))
    refine ⟨_, hmain, ⟨tr ++ [Event.init_fb_color], tail, ?_, hpre, htail⟩, ?_⟩
    · show sk.trace ++ tail = tr ++ [Event.init_fb_color] ++ rounds k ++ tail
      rw [htrace]
    · show ∃ s, bufRun BufState.Unqueued (sk.trace ++ tail) = some s
      rw [htrace]
      exact hrun _ tail k hpre htail

/-- C19: when the framebuffer steps succeed, `main` reaches the format
negotiation `VIDIOC_S_FMT` exactly when `/dev/video0` opens, `VIDIOC_QUERYCAP`
succeeds and the reported capabilities have a bit in common with
`V4L2_CAP_VIDEO_CAPTURE` and one with `V4L2_CAP_STREAMING`; otherwise `main`
ends with status 1, no `VIDIOC_S_FMT` in its trace and no pass of the loop. -/
theorem main_camera_open (hdr : Videodev2) (sys : Sys) (h1 : sys.open_fb = true)
    (h2 : sys.fbioput_vscreeninfo = true) (h3 : sys.mmap_fb = true) :
    ∃ o, main hdr sys = some o ∧
      ((∃ b, Event.call Call.VIDIOC_S_FMT b ∈ o.trace) ↔
        (sys.open_video = true ∧ sys.querycap = true ∧
          sys.capabilities &&& hdr.V4L2_CAP_VIDEO_CAPTURE ≠ 0 ∧
          sys.capabilities &&& hdr.V4L2_CAP_STREAMING ≠ 0)) ∧
      (¬ (sys.open_video = true ∧ sys.querycap = true ∧
          sys.capabilities &&& hdr.V4L2_CAP_VIDEO_CAPTURE ≠ 0 ∧
          sys.capabilities &&& hdr.V4L2_CAP_STREAMING ≠ 0) →
        o.status = 1 ∧ o.frames = 0 ∧ ∀ b, Event.call Call.VIDIOC_S_FMT b ∉ o.trace) := by
  obtain ⟨hfail, hok⟩ := setup_camera hdr sys h1 h2 h3
  by_cases hc : sys.open_video = true ∧ sys.querycap = true ∧
      sys.capabilities &&& hdr.V4L2_CAP_VIDEO_CAPTURE ≠ 0 ∧
      sys.capabilities &&& hdr.V4L2_CAP_STREAMING ≠ 0
  · have hm := hok hc
    rcases main_spec hdr sys with ⟨o, hs, hmain⟩ |
      ⟨tr, r0, k, sk, tail, status, hs, hinit, hk, hap, hmain, hcase⟩
    · rw [hs] at hm
      exact ⟨o, hmain, ⟨fun _ => hc, fun _ => ⟨sys.s_fmt, hm⟩⟩, fun hn => absurd hc hn⟩
    · rw [hs] at hm
      have htrace : sk.trace = tr ++ [Event.init_fb_color] ++ rounds k :=
        (afterPasses_spec sys k _ sk hap).2.2.1
      refine ⟨_, hmain, ⟨fun _ => hc, fun _ => ⟨sys.s_fmt, ?_⟩⟩, fun hn => absurd hc hn⟩
      show Event.call Call.VIDIOC_S_FMT sys.s_fmt ∈ sk.trace ++ tail
      rw [htrace]
      exact List.mem_append_left _ (List.mem_append_left _ (List.mem_append_left _ hm))
  · obtain ⟨o, hs, hst, hno⟩ := hfail hc
    have hmain : main hdr sys = some o := by
      unfold main
      rw [hs]
    exact ⟨o, hmain, ⟨fun hb => by
        obtain ⟨b, hb⟩ := hb
        exact absurd hb (hno b), fun h => absurd h hc⟩,
      fun _ => ⟨hst, (setup_inl_frames hdr sys o hs).1, hno⟩⟩

/-- C19, an instance: with the masks of the header and every call succeeding
the framebuffer steps succeed and `VIDIOC_S_FMT` is reached. -/
theorem main_camera_open_witness :
    sysOk.open_fb = true ∧ sysOk.fbioput_vscreeninfo = true ∧ sysOk.mmap_fb = true ∧
      ∃ o, main hdrLinux sysOk = some o ∧ ∃ b, Event.call Call.VIDIOC_S_FMT b ∈ o.trace := by
  obtain ⟨o, hmain, hiff, -⟩ := main_camera_open hdrLinux sysOk rfl rfl rfl
  exact ⟨rfl, rfl, rfl, o, hmain, hiff.2 ⟨rfl, rfl, by decide, by decide⟩⟩

/-- C20: when no tested call fails, `main` returns 0 after exactly
`SAMPLE_SIZE` = 100 passes of the streaming loop (fewer passes do not end the
loop), its events after `setup` are `init_fb_color`, 100 times the sequence
`VIDIOC_QBUF`, `VIDIOC_DQBUF`, `convert3`, `HaarDwt`, `display_LCD4`, and
`VIDIOC_STREAMOFF`; after `k` passes `count` is `100 - k`, every pixel of the
480x272 surface outside the interior is GRAY, and for `k ≥ 1` the interior
holds the pixels that `HaarDwt` makes of the output of `convert3` on the frame
of pass `k - 1` (whatever the two work buffers held before). -/
theorem main_runs_sample_size_passes (hdr : Videodev2) (sys : Sys) (h : NoFailure hdr sys) :
    ∃ tr r0 o s0, setup hdr sys = Sum.inr tr ∧ init_fb_color sys.fb GRAY = some (0, r0) ∧
      s0 = ⟨count, 0, ⟨fun _ => 0, fun _ => 0xffff, r0.fb⟩, tr ++ [Event.init_fb_color]⟩ ∧
      main hdr sys = some o ∧ o.status = 0 ∧ o.frames = SAMPLE_SIZE ∧
      o.trace = tr ++ [Event.init_fb_color] ++ rounds SAMPLE_SIZE ++
        [Event.call Call.VIDIOC_STREAMOFF true] ∧
      (∀ fuel, fuel < SAMPLE_SIZE → streamLoop sys fuel s0 = none) ∧
      (∀ k, k ≤ SAMPLE_SIZE → ∃ sk, afterPasses sys k s0 = some sk ∧
        sk.count = (SAMPLE_SIZE : Int) - k ∧ sk.n = k ∧
        (k = SAMPLE_SIZE → o.fb = sk.bufs.fb) ∧
        (∀ w, w < HVGA_WIDTH * HVGA_HEIGHT →
          ¬ (16 ≤ w / 480 ∧ w / 480 ≤ 255 ∧ 24 ≤ w % 480 ∧ w % 480 ≤ 455) →
          sk.bufs.fb w = GRAY) ∧
        (1 ≤ k → ∀ buf out : Nat → Nat, ∃ cs hs,
          convert3 (sys.frame (k - 1)) buf sys.lut = some (0, cs) ∧
          HaarDwt (readU16LE cs.rgb565) out = some (0, hs) ∧
          ∀ i j, i < 240 → j < 432 →
            sk.bufs.fb (480 * (16 + i) + 24 + j) = hs.imgout (432 * i + j))) := by
  obtain ⟨tr, hs⟩ := setup_noFailure hdr sys h
  obtain ⟨-, -, -, -, -, -, -, -, -, -, -, -, -, -, hloop, hoff⟩ := h
  obtain ⟨st, hinit0, hgray, -⟩ := init_fb_color_spec sys.fb GRAY
  rcases main_spec hdr sys with ⟨o, hs', -⟩ |
    ⟨tr', r0, k, sk, tail, status, hs', hinit, hk, hap, hmain, hcase⟩
  · rw [hs] at hs'
    cases hs'
  · rw [hs] at hs'
    have e1 : tr = tr' := Sum.inr.inj hs'
    subst e1
    rw [hinit0] at hinit
    have e2 : st = r0 := by
      have := Option.some.inj hinit
      exact (Prod.mk.inj this).2
    subst e2
    have hk100 : k = SAMPLE_SIZE ∧ tail = [Event.call Call.VIDIOC_STREAMOFF true] ∧ status = 0 := by
      rcases hcase with ⟨a1, a2, a3⟩ | ⟨a1, a2, -⟩ | ⟨a1, -, a2, -⟩
      · refine ⟨a1, ?_, ?_⟩
        · rw [a2, hoff]
        · rw [a3, hoff]
          rfl
      · rw [(hloop k a1).1] at a2
        cases a2
      · rw [(hloop k a1).2] at a2
        cases a2
    obtain ⟨hk1, hk2, hk3⟩ := hk100
    subst hk1 hk2 hk3
    have hcalls : ∀ m, m < SAMPLE_SIZE → sys.qbuf (0 + m) = true ∧ sys.dqbuf (0 + m) = true := by
      intro m hm
      rw [Nat.zero_add]
      exact hloop m hm
    have htrace : sk.trace = tr ++ [Event.init_fb_color] ++ rounds SAMPLE_SIZE :=
      (afterPasses_spec sys SAMPLE_SIZE _ sk hap).2.2.1
    refine ⟨tr, st, _, _, hs, hinit0, rfl, hmain, rfl, rfl, ?_, ?_, ?_⟩
    · show sk.trace ++ _ = _
      rw [htrace]
    · intro fuel hf
      exact streamLoop_short sys fuel SAMPLE_SIZE _ rfl hf hcalls
    · intro j hj
      obtain ⟨sj, hsj⟩ := afterPasses_total sys j
        ⟨count, 0, ⟨fun _ => 0, fun _ => 0xffff, st.fb⟩, tr ++ [Event.init_fb_color]⟩
        (fun m hm => hcalls m (by omega))
      obtain ⟨i1, i2, -, -, i5⟩ := afterPasses_spec sys j _ sj hsj
      refine ⟨sj, hsj, ?_, ?_, ?_, ?_, ?_⟩
      · rw [i2]
        rfl
      · rw [i1]
        exact Nat.zero_add j
      · intro hj100
        subst hj100
        rw [hap] at hsj
        rw [Option.some.inj hsj]
      · intro w hw hmargin
        rw [i5 w hmargin]
        exact hgray w hw
      · intro hj1
        obtain ⟨m, rfl⟩ : ∃ m, j = m + 1 := ⟨j - 1, by omega⟩
        obtain ⟨sm, -, hp⟩ := afterPasses_last sys m _ sj hsj
        obtain ⟨b', hp', -, hint⟩ := processFrame_spec (sys.frame m) sys.lut sm.bufs
        have hp2 : processFrame (sys.frame m) sys.lut sm.bufs = some sj.bufs := by
          have e : (0 : Nat) + m = m := Nat.zero_add m
          rw [← e]
          exact hp
        rw [hp2] at hp'
        have e3 : sj.bufs = b' := Option.some.inj hp'
        rw [e3, Nat.add_sub_cancel]
        exact hint

/-- C20, an instance: the environment in which every call succeeds has no
failure, and `main` returns 0 after 100 passes. -/
theorem main_runs_sample_size_passes_witness :
    NoFailure hdrLinux sysOk ∧
      ∃ o, main hdrLinux sysOk = some o ∧ o.status = 0 ∧ o.frames = SAMPLE_SIZE := by
  have hnf : NoFailure hdrLinux sysOk :=
    ⟨rfl, rfl, rfl, rfl, rfl, by decide, by decide, rfl, rfl, rfl, rfl, rfl, rfl, rfl,
      fun _ _ => ⟨rfl, rfl⟩, rfl⟩
  obtain ⟨_, _, o, _, -, -, -, hmain, hst, hfr, -⟩ := main_runs_sample_size_passes hdrLinux sysOk hnf
  exact ⟨hnf, o, hmain, hst, hfr⟩

/-! ## HaarDwt of haar4.c: loop invariants -/

theorem haar4Cols_succ (imgin : Nat → Nat) (i q fuel j k : Nat) (st : HaarState) :
    haar4Cols imgin i q (fuel + 1) j k st =
      if j < 512 then haar4Cols imgin i q fuel (j + 1 + 1) (k + 1) (haar4Body imgin i q j k st)
      else some st := by
  rw [haar4Cols]
  rfl

theorem haar4Cols_zero (imgin : Nat → Nat) (i q j k : Nat) (st : HaarState) :
    haar4Cols imgin i q 0 j k st = if j < 512 then none else some st := by
  rw [haar4Cols]
  rfl

/-- The inner loop of `HaarDwt` of haar4.c on block row `h`, entered at block column `k0`. -/
theorem haar4Cols_spec (imgin : Nat → Nat) (h : Nat) (hh : h < 256) :
    ∀ (fuel k0 j k : Nat) (st : HaarState), j = 2 * k0 → k = k0 → k0 ≤ 256 → 256 ≤ k0 + fuel →
      ∃ st', haar4Cols imgin (2 * h) (haar4_QUAD_ROW_OFFSET * h) fuel j k st = some st' ∧
        (∀ c, k0 ≤ c → c < 256 →
          st'.imgout (512 * h + c) = (blockOf 512 imgin h c).rgb565_ll ∧
          st'.imgout (512 * h + 256 + c) = (blockOf 512 imgin h c).rgb565_lh ∧
          st'.imgout (512 * (256 + h) + c) = (blockOf 512 imgin h c).rgb565_hl ∧
          st'.imgout (512 * (256 + h) + 256 + c) = (blockOf 512 imgin h c).rgb565_hh) ∧
        (∀ w, ¬ (w < 262144 ∧ w % 131072 / 512 = h ∧ k0 ≤ w % 256) →
          st'.imgout w = st.imgout w) ∧
        (∀ w, st'.writes.count w = st.writes.count w +
          if w < 262144 ∧ w % 131072 / 512 = h ∧ k0 ≤ w % 256 then 1 else 0) ∧
        (∀ r, r ∈ st'.reads → r ∈ st.reads ∨ r < 262144) := by
  intro fuel
  induction fuel with
  | zero =>
    intro k0 j k st hj hk hk0 hf
    refine ⟨st, ?_, ?_, ?_, ?_, ?_⟩
    · rw [haar4Cols_zero, if_neg (by omega)]
    · intro c h1 h2
      omega
    · intro w _
      rfl
    · intro w
      rw [if_neg (by omega)]
      rfl
    · intro r hr
      exact Or.inl hr
  | succ n ih =>
    intro k0 j k st hj hk hk0 hf
    by_cases hlt : k0 < 256
    · obtain ⟨st', hrun, hval, hpres, hcnt, hrd⟩ :=
        ih (k0 + 1) (j + 1 + 1) (k + 1) (haar4Body imgin (2 * h) (haar4_QUAD_ROW_OFFSET * h) j k st)
          (by omega) (by omega) (by omega) (by omega)
      have hQ1 : haar4_QUAD_ROW_OFFSET = 512 := rfl
      have hQ2 : haar4_QUAD_COL_OFFSET = 256 := rfl
      have hQ3 : haar4_QUAD_ROW_ORIGIN = 131072 := rfl
      have hQ4 : haar4_H_ROW_WIDTH = 512 := rfl
      refine ⟨st', ?_, ?_, ?_, ?_, ?_⟩
      · rw [haar4Cols_succ, if_pos (by omega)]
        exact hrun
      · intro c h1 h2
        by_cases hc : c = k0
        · subst hc
          rw [hpres _ (by omega), hpres _ (by omega), hpres _ (by omega), hpres _ (by omega)]
          simp only [haar4Body, store, hQ1, hQ2, hQ3, hQ4, blockOf, hj, hk]
          refine ⟨?_, ?_, ?_, ?_⟩
          · rw [if_neg (by omega), if_neg (by omega), if_neg (by omega), if_pos trivial]
          · rw [if_neg (by omega), if_neg (by omega), if_pos (by omega)]
          · rw [if_neg (by omega), if_pos (by omega)]
          · rw [if_pos (by omega)]
        · exact hval c (by omega) h2
      · intro w hw
        rw [hpres w (by omega)]
        simp only [haar4Body, store, hQ1, hQ2, hQ3, hQ4, hk]
        rw [if_neg (by omega), if_neg (by omega), if_neg (by omega), if_neg (by omega)]
      · intro w
        rw [hcnt w]
        simp only [haar4Body, hQ1, hQ2, hQ3, hQ4, hk, List.count_cons, beq_iff_eq]
        split_ifs <;> omega
      · intro r hr
        rcases hrd r hr with h1 | h1
        · simp only [haar4Body, hQ4, hj, List.mem_cons] at h1
          rcases h1 with h1 | h1 | h1 | h1 | h1
          · right; omega
          · right; omega
          · right; omega
          · right; omega
          · exact Or.inl h1
        · exact Or.inr h1
    · have hk216 : k0 = 256 := by omega
      refine ⟨st, ?_, ?_, ?_, ?_, ?_⟩
      · rw [haar4Cols_succ, if_neg (by omega)]
      · intro c h1 h2
        omega
      · intro w _
        rfl
      · intro w
        rw [if_neg (by omega)]
        rfl
      · intro r hr
        exact Or.inl hr

theorem haar4Rows_succ (imgin : Nat → Nat) (fuel i h : Nat) (st : HaarState) :
    haar4Rows imgin (fuel + 1) i h st =
      if i < 512 then
        match haar4Cols imgin i (haar4_QUAD_ROW_OFFSET * h) 512 0 0 st with
        | none => none
        | some st => haar4Rows imgin fuel (i + 1 + 1) (h + 1) st
      else some st := by
  rw [haar4Rows]
  rfl

theorem haar4Rows_zero (imgin : Nat → Nat) (i h : Nat) (st : HaarState) :
    haar4Rows imgin 0 i h st = if i < 512 then none else some st := by
  rw [haar4Rows]
  rfl

/-- The outer loop of `HaarDwt` of haar4.c, entered at block row `h0`. -/
theorem haar4Rows_spec (imgin : Nat → Nat) :
    ∀ (fuel h0 i h : Nat) (st : HaarState), i = 2 * h0 → h = h0 → h0 ≤ 256 → 256 ≤ h0 + fuel →
      ∃ st', haar4Rows imgin fuel i h st = some st' ∧
        (∀ bi bj, h0 ≤ bi → bi < 256 → bj < 256 →
          st'.imgout (512 * bi + bj) = (blockOf 512 imgin bi bj).rgb565_ll ∧
          st'.imgout (512 * bi + 256 + bj) = (blockOf 512 imgin bi bj).rgb565_lh ∧
          st'.imgout (512 * (256 + bi) + bj) = (blockOf 512 imgin bi bj).rgb565_hl ∧
          st'.imgout (512 * (256 + bi) + 256 + bj) = (blockOf 512 imgin bi bj).rgb565_hh) ∧
        (∀ w, ¬ (w < 262144 ∧ h0 ≤ w % 131072 / 512) → st'.imgout w = st.imgout w) ∧
        (∀ w, st'.writes.count w = st.writes.count w +
          if w < 262144 ∧ h0 ≤ w % 131072 / 512 then 1 else 0) ∧
        (∀ r, r ∈ st'.reads → r ∈ st.reads ∨ r < 262144) := by
  intro fuel
  induction fuel with
  | zero =>
    intro h0 i h st hi hh hh0 hf
    refine ⟨st, ?_, ?_, ?_, ?_, ?_⟩
    · rw [haar4Rows_zero, if_neg (by omega)]
    · intro bi bj h1 h2
      omega
    · intro w _
      rfl
    · intro w
      rw [if_neg (by omega)]
      rfl
    · intro r hr
      exact Or.inl hr
  | succ n ih =>
    intro h0 i h st hi hh hh0 hf
    by_cases hlt : h0 < 256
    · subst hh
      subst hi
      obtain ⟨st1, hrun1, hval1, hpres1, hcnt1, hrd1⟩ :=
        haar4Cols_spec imgin h hlt 512 0 0 0 st rfl rfl (by omega) (by omega)
      obtain ⟨st', hrun, hval, hpres, hcnt, hrd⟩ :=
        ih (h + 1) (2 * h + 1 + 1) (h + 1) st1 (by omega) rfl (by omega) (by omega)
      refine ⟨st', ?_, ?_, ?_, ?_, ?_⟩
      · rw [haar4Rows_succ, if_pos (by omega), hrun1]
        exact hrun
      · intro bi bj h1 h2 h3
        by_cases hb : bi = h
        · subst hb
          rw [hpres _ (by omega), hpres _ (by omega), hpres _ (by omega), hpres _ (by omega)]
          exact hval1 bj (by omega) h3
        · exact hval bi bj (by omega) h2 h3
      · intro w hw
        rw [hpres w (by omega), hpres1 w (by omega)]
      · intro w
        rw [hcnt w, hcnt1 w]
        split_ifs <;> omega
      · intro r hr
        rcases hrd r hr with h1 | h1
        · exact hrd1 r h1
        · exact Or.inr h1
    · refine ⟨st, ?_, ?_, ?_, ?_, ?_⟩
      · rw [haar4Rows_succ, if_neg (by omega)]
      · intro bi bj h1 h2
        omega
      · intro w _
        rfl
      · intro w
        rw [if_neg (by omega)]
        rfl
      · intro r hr
        exact Or.inl hr

/-- The whole of `HaarDwt` of haar4.c: it returns 0, every block is placed in the four
quadrants, nothing else changes, every output index below 262144 is written
once and every input index read is below 262144. -/
theorem haar4_HaarDwt_spec (imgin imgout : Nat → Nat) :
    ∃ st, haar4_HaarDwt imgin imgout = some (0, st) ∧
      (∀ bi bj, bi < 256 → bj < 256 →
        st.imgout (512 * bi + bj) = (blockOf 512 imgin bi bj).rgb565_ll ∧
        st.imgout (512 * bi + 256 + bj) = (blockOf 512 imgin bi bj).rgb565_lh ∧
        st.imgout (512 * (256 + bi) + bj) = (blockOf 512 imgin bi bj).rgb565_hl ∧
        st.imgout (512 * (256 + bi) + 256 + bj) = (blockOf 512 imgin bi bj).rgb565_hh) ∧
      (∀ w, 262144 ≤ w → st.imgout w = imgout w) ∧
      (∀ w, st.writes.count w = if w < 262144 then 1 else 0) ∧
      (∀ r, r ∈ st.reads → r < 262144) := by
  obtain ⟨st, hrun, hval, hpres, hcnt, hrd⟩ :=
    haar4Rows_spec imgin 512 0 0 0 { imgout := imgout, reads := [], writes := [] } rfl rfl
      (by omega) (by omega)
  refine ⟨st, ?_, ?_, ?_, ?_, ?_⟩
  · unfold haar4_HaarDwt
    rw [show haar4_H_ROW_WIDTH = 512 from rfl, hrun]
    rfl
  · intro bi bj h1 h2
    exact hval bi bj (by omega) h1 h2
  · intro w hw
    rw [hpres w (by omega)]
  · intro w
    rw [hcnt w]
    simp only [List.count_nil, Nat.zero_add]
    split_ifs <;> omega
  · intro r hr
    rcases hrd r hr with h1 | h1
    · simp at h1
    · exact h1

/-! ## The packed detail pixels and the 8-bit stores -/

theorem natChannel_lt (M a b c d : Nat) :
    (natChannel M a b c d).ll < 256 ∧ (natChannel M a b c d).lh < 256 ∧
    (natChannel M a b c d).hl < 256 ∧ (natChannel M a b c d).hh < 256 := by
  simp only [natChannel]
  exact ⟨Nat.mod_lt _ (by decide), Nat.mod_lt _ (by decide), Nat.mod_lt _ (by decide),
    Nat.mod_lt _ (by decide)⟩

/-- C21: for every block, each detail pixel (LH, HL, HH) that HaarDwt writes is
`((A << 11) | (B << 5) | C) mod 2^16` of the stored 8-bit scaled detail values
A, B, C of the bits-11-15, bits-5-10 and bits-0-4 channels, with no masking to
5, 6 and 5 bits; HaarDwt writes these pixels at the LH, HL and HH positions of
the block. With bits-0-4 values 31, 0, 31, 0 and the other channels 0 the LH
pixel is 0x0096: its bits 5-10 hold 4 although the stored value of that
channel is 0. The same values in the bits-11-15 channel give the LH pixel
0xB000 from the stored value 150. -/
theorem HaarDwt_detail_pixels_not_masked (imgin imgout : Nat → Nat) :
    (∀ r1c1 r1c2 r2c1 r2c2 : Nat,
      (haarBlock r1c1 r1c2 r2c1 r2c2).rgb565_lh =
        (((haarBlockChans r1c1 r1c2 r2c1 r2c2).red.lh <<< 11) |||
          ((haarBlockChans r1c1 r1c2 r2c1 r2c2).grn.lh <<< 5) |||
          (haarBlockChans r1c1 r1c2 r2c1 r2c2).blu.lh) % 2 ^ 16 ∧
      (haarBlock r1c1 r1c2 r2c1 r2c2).rgb565_hl =
        (((haarBlockChans r1c1 r1c2 r2c1 r2c2).red.hl <<< 11) |||
          ((haarBlockChans r1c1 r1c2 r2c1 r2c2).grn.hl <<< 5) |||
          (haarBlockChans r1c1 r1c2 r2c1 r2c2).blu.hl) % 2 ^ 16 ∧
      (haarBlock r1c1 r1c2 r2c1 r2c2).rgb565_hh =
        (((haarBlockChans r1c1 r1c2 r2c1 r2c2).red.hh <<< 11) |||
          ((haarBlockChans r1c1 r1c2 r2c1 r2c2).grn.hh <<< 5) |||
          (haarBlockChans r1c1 r1c2 r2c1 r2c2).blu.hh) % 2 ^ 16 ∧
      (haarBlockChans r1c1 r1c2 r2c1 r2c2).red.lh < 256 ∧
      (haarBlockChans r1c1 r1c2 r2c1 r2c2).grn.lh < 256 ∧
      (haarBlockChans r1c1 r1c2 r2c1 r2c2).blu.lh < 256 ∧
      (haarBlockChans r1c1 r1c2 r2c1 r2c2).red.hl < 256 ∧
      (haarBlockChans r1c1 r1c2 r2c1 r2c2).grn.hl < 256 ∧
      (haarBlockChans r1c1 r1c2 r2c1 r2c2).blu.hl < 256 ∧
      (haarBlockChans r1c1 r1c2 r2c1 r2c2).red.hh < 256 ∧
      (haarBlockChans r1c1 r1c2 r2c1 r2c2).grn.hh < 256 ∧
      (haarBlockChans r1c1 r1c2 r2c1 r2c2).blu.hh < 256) ∧
    (∃ st, HaarDwt imgin imgout = some (0, st) ∧
      ∀ bi bj, bi < 120 → bj < 216 →
        st.imgout (432 * bi + 216 + bj) = (blockAt imgin bi bj).rgb565_lh ∧
        st.imgout (432 * (120 + bi) + bj) = (blockAt imgin bi bj).rgb565_hl ∧
        st.imgout (432 * (120 + bi) + 216 + bj) = (blockAt imgin bi bj).rgb565_hh) ∧
    ((haarBlock 31 0 31 0).rgb565_lh = 0x0096 ∧ bitField 0x0096 5 6 = 4 ∧
      (haarBlockChans 31 0 31 0).grn.lh = 0 ∧ (haarBlockChans 31 0 31 0).blu.lh = 150) ∧
    ((haarBlock (31 <<< 11) 0 (31 <<< 11) 0).rgb565_lh = 0xB000 ∧
      (haarBlockChans (31 <<< 11) 0 (31 <<< 11) 0).red.lh = 150 ∧
      bitField 0xB000 11 5 = 150 % 32) := by
  refine ⟨?_, ?_, ⟨rfl, by decide, rfl, rfl⟩, ⟨rfl, rfl, by decide⟩⟩
  · intro r1c1 r1c2 r2c1 r2c2
    refine ⟨rfl, rfl, rfl, ?_⟩
    rw [haarBlockChans_eq]
    have h1 := natChannel_lt 31 (r1c1 / 2048 % 32) (r1c2 / 2048 % 32) (r2c1 / 2048 % 32)
      (r2c2 / 2048 % 32)
    have h2 := natChannel_lt 63 (r1c1 / 32 % 64) (r1c2 / 32 % 64) (r2c1 / 32 % 64)
      (r2c2 / 32 % 64)
    have h3 := natChannel_lt 31 (r1c1 % 32) (r1c2 % 32) (r2c1 % 32) (r2c2 % 32)
    exact ⟨h1.2.1, h2.2.1, h3.2.1, h1.2.2.1, h2.2.2.1, h3.2.2.1, h1.2.2.2, h2.2.2.2, h3.2.2.2⟩
  · obtain ⟨st, hrun, hval, -⟩ := HaarDwt_spec imgin imgout
    refine ⟨st, hrun, ?_⟩
    intro bi bj hbi hbj
    exact (hval bi bj hbi hbj).2

/-- C23: in HaarDwt each scaled detail is stored in a `uint8_t`, so for channel
values up to M (31 or 63) the stored LH, HL, HH are `(10*v) mod 256` of the
clamped pre-scale details v. The stored value is 10*v for HH in both cases and
for LH and HL when M = 31; when M = 63 the stored LH (HL) differs from 10*v
exactly when v is at least 26. This is reachable: green values 63, 0, 63, 0
give v = 31 and a stored LH of 54, not 310. -/
theorem haarChannel_details_stored_mod_256 (M a b c d : Nat) (hM : M = 31 ∨ M = 63)
    (ha : a ≤ M) (hb : b ≤ M) (hc : c ≤ M) (hd : d ≤ M) :
    (haarChannel M a b c d).lh = 10 * (natPre M a b c d).lh % 256 ∧
    (haarChannel M a b c d).hl = 10 * (natPre M a b c d).hl % 256 ∧
    (haarChannel M a b c d).hh = 10 * (natPre M a b c d).hh % 256 ∧
    (haarChannel M a b c d).hh = 10 * (natPre M a b c d).hh ∧
    (M = 31 → (haarChannel M a b c d).lh = 10 * (natPre M a b c d).lh ∧
      (haarChannel M a b c d).hl = 10 * (natPre M a b c d).hl) ∧
    (M = 63 →
      ((haarChannel M a b c d).lh ≠ 10 * (natPre M a b c d).lh ↔ 26 ≤ (natPre M a b c d).lh) ∧
      ((haarChannel M a b c d).hl ≠ 10 * (natPre M a b c d).hl ↔ 26 ≤ (natPre M a b c d).hl)) ∧
    ((natPre 63 63 0 63 0).lh = 31 ∧ (haarChannel 63 63 0 63 0).lh = 54 ∧
      10 * (natPre 63 63 0 63 0).lh = 310) := by
  obtain ⟨-, b2, b3, b4⟩ := natPre_bounds M a b c d ha hb hc hd
  rw [haarChannel_eq_nat]
  simp only [natChannel]
  generalize (natPre M a b c d).lh = vlh at *
  generalize (natPre M a b c d).hl = vhl at *
  generalize (natPre M a b c d).hh = vhh at *
  refine ⟨by omega, by omega, by omega, ?_, ?_, ?_, ⟨by decide, rfl, by decide⟩⟩
  · rcases hM with h | h <;> subst h <;> omega
  · intro h
    subst h
    constructor <;> omega
  · intro h
    subst h
    constructor <;> omega

/-- C23, an instance: the green values 63, 0, 63, 0 with M = 63. -/
theorem haarChannel_details_stored_mod_256_witness :
    ((63 : Nat) = 31 ∨ (63 : Nat) = 63) ∧
      (haarChannel 63 63 0 63 0).lh = 10 * (natPre 63 63 0 63 0).lh % 256 ∧
      (haarChannel 63 63 0 63 0).lh ≠ 10 * (natPre 63 63 0 63 0).lh := by
  have h := haarChannel_details_stored_mod_256 63 63 0 63 0 (Or.inr rfl) (by decide) (by decide)
    (by decide) (by decide)
  exact ⟨Or.inr rfl, h.1, (h.2.2.2.2.2.1 rfl).1.2 (by decide)⟩

/-! ## The transform parameterised by width and height -/

/-- The parameterised transform at row `r`, column `c`. -/
theorem haarTransform_at (W H : Nat) (imgin imgout : Nat → Nat) (r c : Nat) (hr : r < H)
    (hc : c < W) :
    haarTransform W H imgin imgout (W * r + c) =
      if r < H / 2 then
        (if c < W / 2 then (blockOf W imgin (r % (H / 2)) (c % (W / 2))).rgb565_ll
          else (blockOf W imgin (r % (H / 2)) (c % (W / 2))).rgb565_lh)
      else
        (if c < W / 2 then (blockOf W imgin (r % (H / 2)) (c % (W / 2))).rgb565_hl
          else (blockOf W imgin (r % (H / 2)) (c % (W / 2))).rgb565_hh) := by
  have hW : 0 < W := by omega
  have hlt : W * r + c < W * H := by
    have h1 : W * r + c < W * (r + 1) := by
      rw [Nat.mul_succ]
      omega
    exact Nat.lt_of_lt_of_le h1 (Nat.mul_le_mul_left W hr)
  have hdiv : (W * r + c) / W = r := by
    rw [Nat.mul_add_div hW, Nat.div_eq_of_lt hc, Nat.add_zero]
  have hmod : (W * r + c) % W = c := by
    rw [Nat.mul_add_mod, Nat.mod_eq_of_lt hc]
  simp only [haarTransform, if_pos hlt, hdiv, hmod]

/-- The quadrant placement of the parameterised transform. -/
theorem haarTransform_placement (W H : Nat) (imgin imgout : Nat → Nat) (bi bj : Nat)
    (hbi : bi < H / 2) (hbj : bj < W / 2) :
    haarTransform W H imgin imgout (W * bi + bj) = (blockOf W imgin bi bj).rgb565_ll ∧
    haarTransform W H imgin imgout (W * bi + (W / 2 + bj)) = (blockOf W imgin bi bj).rgb565_lh ∧
    haarTransform W H imgin imgout (W * (H / 2 + bi) + bj) = (blockOf W imgin bi bj).rgb565_hl ∧
    haarTransform W H imgin imgout (W * (H / 2 + bi) + (W / 2 + bj)) =
      (blockOf W imgin bi bj).rgb565_hh := by
  have m1 : bi % (H / 2) = bi := Nat.mod_eq_of_lt hbi
  have m2 : bj % (W / 2) = bj := Nat.mod_eq_of_lt hbj
  have m3 : (H / 2 + bi) % (H / 2) = bi := by
    rw [Nat.add_mod_left, m1]
  have m4 : (W / 2 + bj) % (W / 2) = bj := by
    rw [Nat.add_mod_left, m2]
  refine ⟨?_, ?_, ?_, ?_⟩
  · rw [haarTransform_at W H imgin imgout bi bj (by omega) (by omega), if_pos hbi, if_pos hbj,
      m1, m2]
  · rw [haarTransform_at W H imgin imgout bi (W / 2 + bj) (by omega) (by omega), if_pos hbi,
      if_neg (by omega), m1, m4]
  · rw [haarTransform_at W H imgin imgout (H / 2 + bi) bj (by omega) (by omega),
      if_neg (by omega), if_pos hbj, m3, m2]
  · rw [haarTransform_at W H imgin imgout (H / 2 + bi) (W / 2 + bj) (by omega) (by omega),
      if_neg (by omega), if_neg (by omega), m3, m4]

/-- The output of `HaarDwt` of sv5.c is the parameterised transform at
(432, 240). -/
theorem HaarDwt_eq_haarTransform (imgin imgout : Nat → Nat) (st : HaarState)
    (hval : ∀ bi bj, bi < 120 → bj < 216 →
      st.imgout (432 * bi + bj) = (blockAt imgin bi bj).rgb565_ll ∧
      st.imgout (432 * bi + 216 + bj) = (blockAt imgin bi bj).rgb565_lh ∧
      st.imgout (432 * (120 + bi) + bj) = (blockAt imgin bi bj).rgb565_hl ∧
      st.imgout (432 * (120 + bi) + 216 + bj) = (blockAt imgin bi bj).rgb565_hh)
    (hpres : ∀ w, 103680 ≤ w → st.imgout w = imgout w) :
    ∀ w, st.imgout w = haarTransform 432 240 imgin imgout w := by
  intro w
  by_cases hw : w < 103680
  · have e : w = 432 * (w / 432) + w % 432 := (Nat.div_add_mod w 432).symm
    have hb : ∀ bi bj, blockAt imgin bi bj = blockOf 432 imgin bi bj := fun _ _ => rfl
    obtain ⟨a1, a2, a3, a4⟩ := hval (w / 432 % 120) (w % 432 % 216) (by omega) (by omega)
    rw [hb] at a1 a2 a3 a4
    have hT := haarTransform_at 432 240 imgin imgout (w / 432) (w % 432) (by omega) (by omega)
    rw [← e] at hT
    rw [hT, show (240 : Nat) / 2 = 120 from rfl, show (432 : Nat) / 2 = 216 from rfl]
    by_cases h1 : w / 432 < 120
    · by_cases h2 : w % 432 < 216
      · rw [if_pos h1, if_pos h2, ← a1]
        congr 1
        omega
      · rw [if_pos h1, if_neg h2, ← a2]
        congr 1
        omega
    · by_cases h2 : w % 432 < 216
      · rw [if_neg h1, if_pos h2, ← a3]
        congr 1
        omega
      · rw [if_neg h1, if_neg h2, ← a4]
        congr 1
        omega
  · rw [hpres w (by omega)]
    simp only [haarTransform]
    rw [if_neg (by omega)]

/-- The output of `HaarDwt` of haar4.c is the parameterised transform at
(512, 512). -/
theorem haar4_HaarDwt_eq_haarTransform (imgin imgout : Nat → Nat) (st : HaarState)
    (hval : ∀ bi bj, bi < 256 → bj < 256 →
      st.imgout (512 * bi + bj) = (blockOf 512 imgin bi bj).rgb565_ll ∧
      st.imgout (512 * bi + 256 + bj) = (blockOf 512 imgin bi bj).rgb565_lh ∧
      st.imgout (512 * (256 + bi) + bj) = (blockOf 512 imgin bi bj).rgb565_hl ∧
      st.imgout (512 * (256 + bi) + 256 + bj) = (blockOf 512 imgin bi bj).rgb565_hh)
    (hpres : ∀ w, 262144 ≤ w → st.imgout w = imgout w) :
    ∀ w, st.imgout w = haarTransform 512 512 imgin imgout w := by
  intro w
  by_cases hw : w < 262144
  · have e : w = 512 * (w / 512) + w % 512 := (Nat.div_add_mod w 512).symm
    obtain ⟨a1, a2, a3, a4⟩ := hval (w / 512 % 256) (w % 512 % 256) (by omega) (by omega)
    have hT := haarTransform_at 512 512 imgin imgout (w / 512) (w % 512) (by omega) (by omega)
    rw [← e] at hT
    rw [hT, show (512 : Nat) / 2 = 256 from rfl]
    by_cases h1 : w / 512 < 256
    · by_cases h2 : w % 512 < 256
      · rw [if_pos h1, if_pos h2, ← a1]
        congr 1
        omega
      · rw [if_pos h1, if_neg h2, ← a2]
        congr 1
        omega
    · by_cases h2 : w % 512 < 256
      · rw [if_neg h1, if_pos h2, ← a3]
        congr 1
        omega
      · rw [if_neg h1, if_neg h2, ← a4]
        congr 1
        omega
  · rw [hpres w (by omega)]
    simp only [haarTransform]
    rw [if_neg (by omega)]

/-- An index that occurs in a log is counted at least once. -/
theorem lt_of_mem_of_count (l : List Nat) (n w : Nat)
    (hc : l.count w = if w < n then 1 else 0) (hw : w ∈ l) : w < n := by
  by_contra hge
  rw [if_neg hge] at hc
  exact (List.count_eq_zero.mp hc) hw

/-- C22: the HaarDwt of sv5.c and the HaarDwt of haar4.c both return, and the
output buffer of each is the one transform `haarTransform W H` (the shared
per-block kernel, LL at (bi, bj), LH at (bi, W/2+bj), HL at (H/2+bi, bj), HH at
(H/2+bi, W/2+bj), row-major with row width W), at (W, H) = (432, 240) and at
(512, 512); each reads and writes only indices below W*H. -/
theorem HaarDwt_instances_of_one_transform (imgin imgout : Nat → Nat) :
    (∃ st, HaarDwt imgin imgout = some (0, st) ∧
      (∀ w, st.imgout w = haarTransform 432 240 imgin imgout w) ∧
      (∀ r, r ∈ st.reads → r < 432 * 240) ∧ (∀ w, w ∈ st.writes → w < 432 * 240)) ∧
    (∃ st, haar4_HaarDwt imgin imgout = some (0, st) ∧
      (∀ w, st.imgout w = haarTransform 512 512 imgin imgout w) ∧
      (∀ r, r ∈ st.reads → r < 512 * 512) ∧ (∀ w, w ∈ st.writes → w < 512 * 512)) ∧
    (∀ W H bi bj : Nat, bi < H / 2 → bj < W / 2 →
      haarTransform W H imgin imgout (W * bi + bj) = (blockOf W imgin bi bj).rgb565_ll ∧
      haarTransform W H imgin imgout (W * bi + (W / 2 + bj)) =
        (blockOf W imgin bi bj).rgb565_lh ∧
      haarTransform W H imgin imgout (W * (H / 2 + bi) + bj) =
        (blockOf W imgin bi bj).rgb565_hl ∧
      haarTransform W H imgin imgout (W * (H / 2 + bi) + (W / 2 + bj)) =
        (blockOf W imgin bi bj).rgb565_hh) := by
  refine ⟨?_, ?_, ?_⟩
  · obtain ⟨st, hrun, hval, hpres, hcw, hrd⟩ := HaarDwt_spec imgin imgout
    exact ⟨st, hrun, HaarDwt_eq_haarTransform imgin imgout st hval hpres, hrd,
      fun w hw => lt_of_mem_of_count st.writes 103680 w (hcw w) hw⟩
  · obtain ⟨st, hrun, hval, hpres, hcw, hrd⟩ := haar4_HaarDwt_spec imgin imgout
    exact ⟨st, hrun, haar4_HaarDwt_eq_haarTransform imgin imgout st hval hpres, hrd,
      fun w hw => lt_of_mem_of_count st.writes 262144 w (hcw w) hw⟩
  · intro W H bi bj hbi hbj
    exact haarTransform_placement W H imgin imgout bi bj hbi hbj

/-! ## convert2 against convert3 with the built table -/

theorem convert2Loop_succ (conv : Nat → Nat → Nat → Nat) (cbp : Nat → Nat) (fuel i yp op : Nat)
    (st : ConvState) :
    convert2Loop conv cbp (fuel + 1) i yp op st =
      if i < 207360 then
        convert2Loop conv cbp fuel (i + 1 + 1 + 1 + 1) (yp + 1 + 1 + 1 + 1) (op + 1 + 1 + 1 + 1)
          (conv2Body conv cbp yp op st)
      else some st := by
  rw [convert2Loop]
  rfl

theorem convert2Loop_zero (conv : Nat → Nat → Nat → Nat) (cbp : Nat → Nat) (i yp op : Nat)
    (st : ConvState) :
    convert2Loop conv cbp 0 i yp op st = if i < 207360 then none else some st := by
  rw [convert2Loop]
  rfl

/-- The two loops run in step: with a table that holds `conv Y U V` at index
`lutIndex Y U V` and input bytes below 256 they leave the same output bytes,
the same read log of the input and the same write log. -/
theorem convert2Loop_sim (conv : Nat → Nat → Nat → Nat) (cbp pbuf : Nat → Nat)
    (htab : ∀ Y U V, Y < 256 → U < 256 → V < 256 → pbuf (lutIndex Y U V) = conv Y U V)
    (hbytes : ∀ i, cbp i < 256) :
    ∀ (fuel i yp op : Nat) (st2 st3 : ConvState), st2.rgb565 = st3.rgb565 →
      st2.yuvReads = st3.yuvReads → st2.writes = st3.writes →
      (∃ r2 r3, convert2Loop conv cbp fuel i yp op st2 = some r2 ∧
        convert3Loop cbp pbuf fuel i yp op st3 = some r3 ∧ r2.rgb565 = r3.rgb565 ∧
        r2.yuvReads = r3.yuvReads ∧ r2.writes = r3.writes ∧ r2.lutReads = st2.lutReads) ∨
      (convert2Loop conv cbp fuel i yp op st2 = none ∧
        convert3Loop cbp pbuf fuel i yp op st3 = none) := by
  intro fuel
  induction fuel with
  | zero =>
    intro i yp op st2 st3 h1 h2 h3
    rw [convert2Loop_zero, convert3Loop_zero]
    by_cases hi : i < 207360
    · rw [if_pos hi, if_pos hi]
      exact Or.inr ⟨rfl, rfl⟩
    · rw [if_neg hi, if_neg hi]
      exact Or.inl ⟨st2, st3, rfl, rfl, h1, h2, h3, rfl⟩
  | succ n ih =>
    intro i yp op st2 st3 h1 h2 h3
    rw [convert2Loop_succ, convert3Loop_succ]
    by_cases hi : i < 207360
    · rw [if_pos hi, if_pos hi]
      have hb1 : (conv2Body conv cbp yp op st2).rgb565 = (convBody cbp pbuf yp op st3).rgb565 := by
        simp only [conv2Body, convBody, h1,
          htab _ _ _ (hbytes _) (hbytes _) (hbytes _)]
      have hb2 : (conv2Body conv cbp yp op st2).yuvReads =
          (convBody cbp pbuf yp op st3).yuvReads := by
        simp only [conv2Body, convBody, h2]
      have hb3 : (conv2Body conv cbp yp op st2).writes = (convBody cbp pbuf yp op st3).writes := by
        simp only [conv2Body, convBody, h3]
      rcases ih (i + 1 + 1 + 1 + 1) (yp + 1 + 1 + 1 + 1) (op + 1 + 1 + 1 + 1)
        (conv2Body conv cbp yp op st2) (convBody cbp pbuf yp op st3) hb1 hb2 hb3 with
        ⟨r2, r3, e2, e3, e4, e5, e6, e7⟩ | ⟨e2, e3⟩
      · exact Or.inl ⟨r2, r3, e2, e3, e4, e5, e6, e7⟩
      · exact Or.inr ⟨e2, e3⟩
    · rw [if_neg hi, if_neg hi]
      exact Or.inl ⟨st2, st3, rfl, rfl, h1, h2, h3, rfl⟩

/-- C24: for every frame of bytes, whatever the floating-point part `fp` of
`yuv422_to_rgb565` computes (the same in lut.c and sv5.c), the table-building
loops of lut.c return a table, and convert3 with that table and convert2 with
the function itself both return 0 and leave the same output bytes (at every
offset), having read the same input bytes and written the same offsets in the
same order. -/
theorem convert3_with_built_table_eq_convert2 (fp : Nat → Nat → Nat → Rgb888)
    (cbp rgb565buf tbl : Nat → Nat) (hbytes : ∀ i, cbp i < 256) :
    ∃ n t cs3 cs2, lutBuild (lut_yuv422_to_rgb565 fp) tbl = some (n, t) ∧
      convert3 cbp rgb565buf t.pbuf = some (0, cs3) ∧
      convert2 (yuv422_to_rgb565 fp) cbp rgb565buf = some (0, cs2) ∧
      (∀ b, cs3.rgb565 b = cs2.rgb565 b) ∧
      cs3.yuvReads = cs2.yuvReads ∧ cs3.writes = cs2.writes := by
  obtain ⟨t, hbuild, htab, -⟩ := lutBuild_spec (lut_yuv422_to_rgb565 fp) tbl
  have hsame : ∀ Y U V, lut_yuv422_to_rgb565 fp Y U V = yuv422_to_rgb565 fp Y U V :=
    fun _ _ _ => rfl
  have htab2 : ∀ Y U V, Y < 256 → U < 256 → V < 256 →
      t.pbuf (lutIndex Y U V) = yuv422_to_rgb565 fp Y U V := by
    intro Y U V hY hU hV
    rw [← hsame, ← htab Y U V hY hU hV]
    congr 1
    simp only [lutIndex]
    omega
  obtain ⟨cs3, hrun3, -⟩ := convert3_spec cbp rgb565buf t.pbuf
  have hloop3 : convert3Loop cbp t.pbuf 207360 0 0 0
      { rgb565 := rgb565buf, yuvReads := [], lutReads := [], writes := [] } = some cs3 := by
    unfold convert3 at hrun3
    rw [show YUYV_SIZE = 207360 from rfl] at hrun3
    cases hl : convert3Loop cbp t.pbuf 207360 0 0 0
        { rgb565 := rgb565buf, yuvReads := [], lutReads := [], writes := [] } with
    | none =>
      rw [hl] at hrun3
      cases hrun3
    | some x =>
      rw [hl] at hrun3
      have := Option.some.inj hrun3
      rw [(Prod.mk.inj this).2]
  rcases convert2Loop_sim (yuv422_to_rgb565 fp) cbp t.pbuf htab2 hbytes 207360 0 0 0
    { rgb565 := rgb565buf, yuvReads := [], lutReads := [], writes := [] }
    { rgb565 := rgb565buf, yuvReads := [], lutReads := [], writes := [] } rfl rfl rfl with
    ⟨r2, r3, e2, e3, e4, e5, e6, -⟩ | ⟨-, e3⟩
  · rw [hloop3] at e3
    have e : cs3 = r3 := Option.some.inj e3
    subst e
    refine ⟨16777216, t, cs3, r2, hbuild, hrun3, ?_, ?_, e5.symm, e6.symm⟩
    · unfold convert2
      rw [show YUYV_SIZE = 207360 from rfl, e2]
      rfl
    · intro b
      rw [e4]
  · rw [hloop3] at e3
    cases e3

/-- C24, an instance: the frame of zero bytes, with a floating-point part that
returns the three zero channels. -/
theorem convert3_with_built_table_eq_convert2_witness :
    (∀ i : Nat, (fun _ => 0 : Nat → Nat) i < 256) ∧
      ∃ (n : Nat) (t : LutState) (cs3 cs2 : ConvState),
        lutBuild (lut_yuv422_to_rgb565 (fun _ _ _ => ⟨0, 0, 0⟩)) (fun _ => 0) = some (n, t) ∧
        convert3 (fun _ => 0) (fun _ => 0) t.pbuf = some (0, cs3) ∧
        convert2 (yuv422_to_rgb565 (fun _ _ _ => ⟨0, 0, 0⟩)) (fun _ => 0) (fun _ => 0) =
          some (0, cs2) ∧
        ∀ b, cs3.rgb565 b = cs2.rgb565 b := by
  have hb : ∀ i : Nat, (fun _ => 0 : Nat → Nat) i < 256 := fun _ => Nat.zero_lt_succ 255
  obtain ⟨n, t, cs3, cs2, h0, h1, h2, h3, -⟩ :=
    convert3_with_built_table_eq_convert2 (fun _ _ _ => ⟨0, 0, 0⟩) (fun _ => 0) (fun _ => 0)
      (fun _ => 0) hb
  exact ⟨hb, n, t, cs3, cs2, h0, h1, h2, h3⟩

/-! ## HaarDwt without the clamp statements -/

/-- On channel values up to `M` the channel computation without clamps gives
the stored results of the one with clamps. -/
theorem haarChannelNoClamp_eq (M a b c d : Nat) (ha : a ≤ M) (hb : b ≤ M) (hc : c ≤ M)
    (hd : d ≤ M) :
    haarChannelNoClamp (a : Int) (b : Int) (c : Int) (d : Int) =
      haarChannel (M : Int) (a : Int) (b : Int) (c : Int) (d : Int) := by
  rw [haarChannel_eq_nat]
  simp only [haarChannelNoClamp, natChannel, natPre, tdiv2_add, cAbs_tdiv2_sub, toU8_nat,
    toU8_mul10]
  have h1 : min ((a + c) / 2) M = (a + c) / 2 := by omega
  have h2 : min ((b + d) / 2) M = (b + d) / 2 := by omega
  have h3 : min (((a - c) + (c - a)) / 2) M = ((a - c) + (c - a)) / 2 := by omega
  have h4 : min (((b - d) + (d - b)) / 2) M = ((b - d) + (d - b)) / 2 := by omega
  rw [h1, h2, h3, h4]
  have b1 : (a + c) / 2 ≤ M := by omega
  have b2 : (b + d) / 2 ≤ M := by omega
  have b3 : ((a - c) + (c - a)) / 2 ≤ M := by omega
  have b4 : ((b - d) + (d - b)) / 2 ≤ M := by omega
  generalize (a + c) / 2 = L1 at *
  generalize (b + d) / 2 = L2 at *
  generalize ((a - c) + (c - a)) / 2 = H1 at *
  generalize ((b - d) + (d - b)) / 2 = H2 at *
  have h5 : min ((L1 + L2) / 2) M = (L1 + L2) / 2 := by omega
  have h6 : min (((L1 - L2) + (L2 - L1)) / 2) M = ((L1 - L2) + (L2 - L1)) / 2 := by omega
  have h7 : min ((H1 + H2) / 2) M = (H1 + H2) / 2 := by omega
  have h8 : min (((H1 - H2) + (H2 - H1)) / 2) M = ((H1 - H2) + (H2 - H1)) / 2 := by omega
  rw [h5, h6, h7, h8]

/-- The block computation without clamps gives the same four pixels. -/
theorem haarBlockNoClamp_eq (r1c1 r1c2 r2c1 r2c2 : Nat) :
    haarBlockNoClamp r1c1 r1c2 r2c1 r2c2 = haarBlock r1c1 r1c2 r2c1 r2c2 := by
  have hr : ∀ p, unpackRed p ≤ 31 := by
    intro p
    rw [unpackRed_eq]
    omega
  have hg : ∀ p, unpackGrn p ≤ 63 := by
    intro p
    rw [unpackGrn_eq]
    omega
  have hb : ∀ p, unpackBlu p ≤ 31 := by
    intro p
    rw [unpackBlu_eq]
    omega
  simp only [haarBlockNoClamp, haarBlock, haarBlockChans]
  rw [haarChannelNoClamp_eq 31 _ _ _ _ (hr r1c1) (hr r1c2) (hr r2c1) (hr r2c2),
    haarChannelNoClamp_eq 63 _ _ _ _ (hg r1c1) (hg r1c2) (hg r2c1) (hg r2c2),
    haarChannelNoClamp_eq 31 _ _ _ _ (hb r1c1) (hb r1c2) (hb r2c1) (hb r2c2)]
  rfl

theorem haarColsNoClamp_eq (imgin : Nat → Nat) (i q : Nat) :
    ∀ (fuel j k : Nat) (st : HaarState),
      haarColsNoClamp imgin i q fuel j k st = haarCols imgin i q fuel j k st := by
  intro fuel
  induction fuel with
  | zero =>
    intro j k st
    rw [haarColsNoClamp, haarCols]
  | succ n ih =>
    intro j k st
    rw [haarColsNoClamp, haarCols]
    simp only [haarBlockNoClamp_eq, ih]

theorem haarRowsNoClamp_eq (imgin : Nat → Nat) :
    ∀ (fuel i h : Nat) (st : HaarState),
      haarRowsNoClamp imgin fuel i h st = haarRows imgin fuel i h st := by
  intro fuel
  induction fuel with
  | zero =>
    intro i h st
    rw [haarRowsNoClamp, haarRows]
  | succ n ih =>
    intro i h st
    rw [haarRowsNoClamp, haarRows]
    simp only [haarColsNoClamp_eq, ih]

theorem haar4ColsNoClamp_eq (imgin : Nat → Nat) (i q : Nat) :
    ∀ (fuel j k : Nat) (st : HaarState),
      haar4ColsNoClamp imgin i q fuel j k st = haar4Cols imgin i q fuel j k st := by
  intro fuel
  induction fuel with
  | zero =>
    intro j k st
    rw [haar4ColsNoClamp, haar4Cols]
  | succ n ih =>
    intro j k st
    rw [haar4ColsNoClamp, haar4Cols]
    simp only [haarBlockNoClamp_eq, ih]

theorem haar4RowsNoClamp_eq (imgin : Nat → Nat) :
    ∀ (fuel i h : Nat) (st : HaarState),
      haar4RowsNoClamp imgin fuel i h st = haar4Rows imgin fuel i h st := by
  intro fuel
  induction fuel with
  | zero =>
    intro i h st
    rw [haar4RowsNoClamp, haar4Rows]
  | succ n ih =>
    intro i h st
    rw [haar4RowsNoClamp, haar4Rows]
    simp only [haar4ColsNoClamp_eq, ih]

/-- C25: no clamp of HaarDwt fires. For channel values a, b, c, d up to the
channel maximum M the low-pass values lp1, lp2, lp3 are at most M, the
pre-scale LH and HL values (and hp1, hp2) at most M/2 and the pre-scale HH
value at most M/4, and the channel computation with every `if(x>M) x=M`
deleted stores the same four results; so for all pixels the block computation
without clamps gives the same four output pixels, and HaarDwt without clamps
(sv5.c and haar4.c) returns the same result and state for every input. -/
theorem HaarDwt_clamps_never_fire (imgin imgout : Nat → Nat) :
    (∀ M a b c d : Nat, a ≤ M → b ≤ M → c ≤ M → d ≤ M →
      ((a : Int) + c).tdiv 2 ≤ M ∧ ((b : Int) + d).tdiv 2 ≤ M ∧
      ((((a : Int) + c).tdiv 2) + (((b : Int) + d).tdiv 2)).tdiv 2 ≤ M ∧
      cAbs (((((a : Int) + c).tdiv 2) - (((b : Int) + d).tdiv 2)).tdiv 2) ≤ ((M / 2 : Nat) : Int) ∧
      cAbs (((a : Int) - c).tdiv 2) ≤ ((M / 2 : Nat) : Int) ∧
      cAbs (((b : Int) - d).tdiv 2) ≤ ((M / 2 : Nat) : Int) ∧
      (cAbs (((a : Int) - c).tdiv 2) + cAbs (((b : Int) - d).tdiv 2)).tdiv 2 ≤
        ((M / 2 : Nat) : Int) ∧
      cAbs ((cAbs (((a : Int) - c).tdiv 2) - cAbs (((b : Int) - d).tdiv 2)).tdiv 2) ≤
        ((M / 4 : Nat) : Int) ∧
      haarChannelNoClamp a b c d = haarChannel M a b c d) ∧
    (∀ r1c1 r1c2 r2c1 r2c2 : Nat,
      haarBlockNoClamp r1c1 r1c2 r2c1 r2c2 = haarBlock r1c1 r1c2 r2c1 r2c2) ∧
    HaarDwtNoClamp imgin imgout = HaarDwt imgin imgout ∧
    haar4_HaarDwtNoClamp imgin imgout = haar4_HaarDwt imgin imgout := by
  refine ⟨?_, haarBlockNoClamp_eq, ?_, ?_⟩
  · intro M a b c d ha hb hc hd
    simp only [tdiv2_add, cAbs_tdiv2_sub]
    have b1 : (a + c) / 2 ≤ M := by omega
    have b2 : (b + d) / 2 ≤ M := by omega
    have b3 : ((a - c) + (c - a)) / 2 ≤ M / 2 := by omega
    have b4 : ((b - d) + (d - b)) / 2 ≤ M / 2 := by omega
    refine ⟨by omega, by omega, ?_, ?_, by omega, by omega, ?_, ?_,
      haarChannelNoClamp_eq M a b c d ha hb hc hd⟩
    · generalize (a + c) / 2 = L1 at *
      generalize (b + d) / 2 = L2 at *
      omega
    · generalize (a + c) / 2 = L1 at *
      generalize (b + d) / 2 = L2 at *
      omega
    · generalize ((a - c) + (c - a)) / 2 = H1 at *
      generalize ((b - d) + (d - b)) / 2 = H2 at *
      omega
    · generalize ((a - c) + (c - a)) / 2 = H1 at *
      generalize ((b - d) + (d - b)) / 2 = H2 at *
      omega
  · unfold HaarDwtNoClamp HaarDwt
    rw [haarRowsNoClamp_eq]
  · unfold haar4_HaarDwtNoClamp haar4_HaarDwt
    rw [haar4RowsNoClamp_eq]

/-! ## Symmetries and bounds of the kernel -/

theorem natPre_swap_rows (M a b c d : Nat) : natPre M c d a b = natPre M a b c d := by
  simp only [natPre, Nat.add_comm]

theorem natPre_swap_cols (M a b c d : Nat) : natPre M b a d c = natPre M a b c d := by
  simp only [natPre, Nat.add_comm]

theorem natChannel_swap_rows (M a b c d : Nat) : natChannel M c d a b = natChannel M a b c d := by
  simp only [natChannel, natPre_swap_rows M a b c d]

theorem natChannel_swap_cols (M a b c d : Nat) : natChannel M b a d c = natChannel M a b c d := by
  simp only [natChannel, natPre_swap_cols M a b c d]

theorem haarBlock_swap_rows (r1c1 r1c2 r2c1 r2c2 : Nat) :
    haarBlock r2c1 r2c2 r1c1 r1c2 = haarBlock r1c1 r1c2 r2c1 r2c2 := by
  simp only [haarBlock, haarBlockChans_eq]
  rw [natChannel_swap_rows 31 (r1c1 / 2048 % 32), natChannel_swap_rows 63 (r1c1 / 32 % 64),
    natChannel_swap_rows 31 (r1c1 % 32)]

theorem haarBlock_swap_cols (r1c1 r1c2 r2c1 r2c2 : Nat) :
    haarBlock r1c2 r1c1 r2c2 r2c1 = haarBlock r1c1 r1c2 r2c1 r2c2 := by
  simp only [haarBlock, haarBlockChans_eq]
  rw [natChannel_swap_cols 31 (r1c1 / 2048 % 32), natChannel_swap_cols 63 (r1c1 / 32 % 64),
    natChannel_swap_cols 31 (r1c1 % 32)]

/-- Two images with the same blocks have the same transform. -/
theorem HaarDwt_of_blocks_eq (f g out : Nat → Nat)
    (hblk : ∀ bi bj, bi < 120 → bj < 216 → blockAt f bi bj = blockAt g bi bj) :
    ∃ st1 st2, HaarDwt f out = some (0, st1) ∧ HaarDwt g out = some (0, st2) ∧
      ∀ w, st1.imgout w = st2.imgout w := by
  obtain ⟨st1, hrun1, hval1, hpres1, -⟩ := HaarDwt_spec f out
  obtain ⟨st2, hrun2, hval2, hpres2, -⟩ := HaarDwt_spec g out
  refine ⟨st1, st2, hrun1, hrun2, ?_⟩
  intro w
  by_cases hw : w < 103680
  · obtain ⟨bi, bj, hbi, hbj, hcase⟩ := quadrant_decode w hw
    obtain ⟨a1, a2, a3, a4⟩ := hval1 bi bj hbi hbj
    obtain ⟨b1, b2, b3, b4⟩ := hval2 bi bj hbi hbj
    rw [hblk bi bj hbi hbj] at a1 a2 a3 a4
    rcases hcase with h | h | h | h
    · rw [h, a1, b1]
    · rw [h, a2, b2]
    · rw [h, a3, b3]
    · rw [h, a4, b4]
  · rw [hpres1 w (by omega), hpres2 w (by omega)]

/-- C26: the per-block kernel of HaarDwt gives the same four output pixels
when the two rows of the block are swapped and when its two columns are
swapped. Hence it is not injective: the blocks (4, 0, 0, 0) and (0, 0, 4, 0)
differ and give the same pixels, and the frame whose only nonzero pixel is
pixel 0 (value 4) and the frame whose only nonzero pixel is pixel 432 (value 4,
one row below)
have the same HaarDwt output, so the input cannot be recovered from the
output. -/
theorem haarBlock_swap_invariant (r1c1 r1c2 r2c1 r2c2 : Nat) (out : Nat → Nat) :
    haarBlock r2c1 r2c2 r1c1 r1c2 = haarBlock r1c1 r1c2 r2c1 r2c2 ∧
    haarBlock r1c2 r1c1 r2c2 r2c1 = haarBlock r1c1 r1c2 r2c1 r2c2 ∧
    (haarBlock 4 0 0 0 = haarBlock 0 0 4 0 ∧
      ((4 : Nat), (0 : Nat), (0 : Nat), (0 : Nat)) ≠ (0, 0, 4, 0)) ∧
    (∃ st1 st2,
      HaarDwt (fun i => if i = 0 then 4 else 0) out = some (0, st1) ∧
      HaarDwt (fun i => if i = 432 then 4 else 0) out = some (0, st2) ∧
      (∀ w, st1.imgout w = st2.imgout w) ∧
      (fun i => if i = 0 then 4 else 0 : Nat → Nat) 0 ≠
        (fun i => if i = 432 then 4 else 0 : Nat → Nat) 0) := by
  refine ⟨haarBlock_swap_rows r1c1 r1c2 r2c1 r2c2, haarBlock_swap_cols r1c1 r1c2 r2c1 r2c2,
    ⟨(haarBlock_swap_rows 0 0 4 0), by decide⟩, ?_⟩
  obtain ⟨st1, st2, h1, h2, h3⟩ := HaarDwt_of_blocks_eq (fun i => if i = 0 then 4 else 0)
    (fun i => if i = 432 then 4 else 0) out (by
      intro bi bj hbi hbj
      by_cases h0 : bi = 0 ∧ bj = 0
      · obtain ⟨hb1, hb2⟩ := h0
        subst hb1 hb2
        exact haarBlock_swap_rows 0 0 4 0
      · have hf : ∀ i : Nat, i ≠ 0 → (if i = 0 then 4 else 0 : Nat) = 0 := fun _ hi => if_neg hi
        have hg : ∀ i : Nat, i ≠ 432 → (if i = 432 then 4 else 0 : Nat) = 0 :=
          fun _ hi => if_neg hi
        have n1 : 432 * (2 * bi) + 2 * bj ≠ 0 := by omega
        have n2 : 432 * (2 * bi) + 2 * bj ≠ 432 := by omega
        simp only [blockAt]
        rw [hf _ n1, hg _ n2, hf (432 * (2 * bi) + (2 * bj + 1)) (by omega),
          hg (432 * (2 * bi) + (2 * bj + 1)) (by omega)]
        rw [hf (432 * (2 * bi + 1) + 2 * bj) (by omega),
          hg (432 * (2 * bi + 1) + 2 * bj) (by omega)]
        rw [hf (432 * (2 * bi + 1) + (2 * bj + 1)) (by omega),
          hg (432 * (2 * bi + 1) + (2 * bj + 1)) (by omega)])
  exact ⟨st1, st2, h1, h2, h3, by decide⟩

/-- C27: for channel values a = r1c1, b = r1c2, c = r2c1, d = r2c2 up to the
channel maximum M (M below 256) the LL value that HaarDwt stores is
((a+c)/2 + (b+d)/2)/2; it lies between the least and the greatest of the four
values, is at most floor((a+b+c+d)/4) and at least that floor minus 1; the
lower bound is attained at (3, 1, 0, 0), where LL is 0 and the floor is 1. -/
theorem haarChannel_ll_two_stage_average (M a b c d : Nat) (hM : M < 256) (ha : a ≤ M)
    (hb : b ≤ M) (hc : c ≤ M) (hd : d ≤ M) :
    (haarChannel M a b c d).ll = ((a + c) / 2 + (b + d) / 2) / 2 ∧
    min (min a b) (min c d) ≤ (haarChannel M a b c d).ll ∧
    (haarChannel M a b c d).ll ≤ max (max a b) (max c d) ∧
    (haarChannel M a b c d).ll ≤ (a + b + c + d) / 4 ∧
    (a + b + c + d) / 4 ≤ (haarChannel M a b c d).ll + 1 ∧
    ((haarChannel 31 3 1 0 0).ll = 0 ∧ (3 + 1 + 0 + 0) / 4 = 1) := by
  have e : (haarChannel M a b c d).ll = ((a + c) / 2 + (b + d) / 2) / 2 := by
    rw [haarChannel_eq_nat]
    simp only [natChannel, natPre]
    have h1 : min ((a + c) / 2) M = (a + c) / 2 := by omega
    have h2 : min ((b + d) / 2) M = (b + d) / 2 := by omega
    rw [h1, h2]
    have b1 : (a + c) / 2 ≤ M := by omega
    have b2 : (b + d) / 2 ≤ M := by omega
    generalize (a + c) / 2 = L1 at *
    generalize (b + d) / 2 = L2 at *
    omega
  have e0 : (haarChannel 31 3 1 0 0).ll = 0 := rfl
  rw [e]
  refine ⟨rfl, ?_, ?_, ?_, ?_, e0, by decide⟩
  · omega
  · omega
  · omega
  · omega

/-- C27, an instance: the blue values (3, 1, 0, 0) with M = 31. -/
theorem haarChannel_ll_two_stage_average_witness :
    (haarChannel 31 3 1 0 0).ll = ((3 + 0) / 2 + (1 + 0) / 2) / 2 ∧
      (3 + 1 + 0 + 0) / 4 ≤ (haarChannel 31 3 1 0 0).ll + 1 := by
  have h := haarChannel_ll_two_stage_average 31 3 1 0 0 (by decide) (by decide) (by decide)
    (by decide) (by decide)
  exact ⟨h.1, h.2.2.2.2.1⟩

/-! ## Rounding: error bound and granularity -/

theorem rneQuot_err (a b : Nat) (hb : 0 < b) :
    2 * (rneQuot a b * b) ≤ 2 * a + b ∧ 2 * a ≤ 2 * (rneQuot a b * b) + b := by
  have h1 : b * (a / b) + a % b = a := Nat.div_add_mod a b
  have h2 : a % b < b := Nat.mod_lt a hb
  have h3 : (a / b + 1) * b = b * (a / b) + b := by
    rw [Nat.add_mul, Nat.one_mul, Nat.mul_comm]
  have h4 : a / b * b = b * (a / b) := Nat.mul_comm _ _
  simp only [rneQuot]
  split_ifs
  · rw [h4]
    omega
  · rw [h3]
    omega
  · rw [h4]
    omega
  · rw [h3]
    omega

/-- The rounding of `x` to `p` bits is a multiple of a power of two `2^s`, at
most half of it away from `x`; `s` is bounded by the magnitude of `x`. -/
theorem roundBits_spec (p : Nat) (hp : 1 ≤ p) (x : Int) :
    ∃ s : Nat, (2 : Int) ^ s ∣ roundBits p x ∧
      2 * (roundBits p x - x) ≤ 2 ^ s ∧ 2 * (x - roundBits p x) ≤ 2 ^ s ∧
      (∀ B, x.natAbs < 2 ^ B → s ≤ B - p) ∧ (∀ k, 2 ^ k ≤ x.natAbs → k + 1 - p ≤ s) := by
  obtain ⟨e1, e2⟩ := rneQuot_err x.natAbs (2 ^ ((Nat.log2 x.natAbs + 1) - p))
    (Nat.two_pow_pos _)
  have hT : ((2 : Int) ^ ((Nat.log2 x.natAbs + 1) - p)) =
      ((2 ^ ((Nat.log2 x.natAbs + 1) - p) : Nat) : Int) := by
    push_cast
    rfl
  refine ⟨(Nat.log2 x.natAbs + 1) - p, ?_, ?_, ?_, ?_, ?_⟩
  · simp only [roundBits]
    split_ifs
    · exact (Int.dvd_neg).mpr ⟨_, by push_cast; ring⟩
    · exact ⟨_, by push_cast; ring⟩
  · rw [hT]
    simp only [roundBits]
    generalize 2 ^ ((Nat.log2 x.natAbs + 1) - p) = T at *
    generalize rneQuot x.natAbs T * T = R at *
    split_ifs <;> omega
  · rw [hT]
    simp only [roundBits]
    generalize 2 ^ ((Nat.log2 x.natAbs + 1) - p) = T at *
    generalize rneQuot x.natAbs T * T = R at *
    split_ifs <;> omega
  · intro B hB
    by_cases h0 : x.natAbs = 0
    · rw [h0]
      simp only [Nat.log2_zero]
      omega
    · have := (Nat.log2_lt h0).2 hB
      omega
  · intro k hk
    have h0 : x.natAbs ≠ 0 := by
      intro h
      rw [h] at hk
      have := Nat.two_pow_pos k
      omega
    have := (Nat.le_log2 h0).2 hk
    omega

/-- A `double` operation on a value below `2^10` errs by at most `2^-44`. -/
theorem toDouble_err (x : Int) (hx : x.natAbs < 2 ^ 64) :
    2 * (toDouble x - x) ≤ 2 ^ 11 ∧ 2 * (x - toDouble x) ≤ 2 ^ 11 := by
  obtain ⟨s, -, h1, h2, h3, -⟩ := roundBits_spec 53 (by decide) x
  have hs : s ≤ 11 := h3 64 hx
  have hpow : (2 : Int) ^ s ≤ 2 ^ 11 := by
    exact_mod_cast Nat.pow_le_pow_right (by decide : 0 < 2) hs
  unfold toDouble
  constructor <;> omega

theorem clampToU8_neg (r : Int) (h : r < 0) : clampToU8 r = 0 := by
  simp only [clampToU8, if_pos h]
  rfl

theorem clampToU8_hi (r : Int) (h : 255 * 2 ^ 54 ≤ r) : clampToU8 r = 255 := by
  have h0 : ¬ r < 0 := by omega
  simp only [clampToU8, if_neg h0]
  by_cases h1 : r > 255 * 2 ^ 54
  · rw [if_pos h1]
    rfl
  · have e : r = 255 * 2 ^ 54 := by omega
    rw [if_neg h1, e]
    rfl

theorem clampToU8_mid (r : Int) (h0 : 0 ≤ r) (h1 : r ≤ 255 * 2 ^ 54) :
    clampToU8 r = (r / 2 ^ 54).toNat := by
  have h2 : ¬ r < 0 := by omega
  have h3 : ¬ r > 255 * 2 ^ 54 := by omega
  simp only [clampToU8, if_neg h2, if_neg h3, toU8]
  rw [Int.tdiv_eq_ediv h0 (by decide)]
  have h4 : r / 2 ^ 54 % 256 = r / 2 ^ 54 := by omega
  rw [h4]

/-- The channel value that the code stores, from a `double` within `2^-31` of
the exact value `N / 1000` of the formula. -/
theorem clampToU8_toFloat (D N : Int) (hD : D.natAbs < 2 ^ 64)
    (h1 : 1000 * D - N * 2 ^ 54 ≤ 2 ^ 23) (h2 : N * 2 ^ 54 - 1000 * D ≤ 2 ^ 23) :
    clampToU8 (toFloat D) = specThousandths N := by
  obtain ⟨s, hdvd, e1, e2, hB, hk⟩ := roundBits_spec 24 (by decide) D
  have hs40 : s ≤ 40 := hB 64 hD
  have hpow : (2 : Int) ^ s ≤ 2 ^ 40 := by
    exact_mod_cast Nat.pow_le_pow_right (by decide : 0 < 2) hs40
  unfold toFloat
  generalize hF : roundBits 24 D = F at *
  simp only [specThousandths]
  by_cases hm : N % 1000 = 0
  · by_cases hn1 : N < 0
    · rw [if_pos hn1, clampToU8_neg F (by omega)]
    · by_cases hn2 : N > 255000
      · rw [if_neg hn1, if_pos hn2, clampToU8_hi F (by omega)]
      · rw [if_neg hn1, if_neg hn2]
        by_cases hn0 : N = 0
        · subst hn0
          by_cases hf : F < 0
          · rw [clampToU8_neg F hf]
            rfl
          · rw [clampToU8_mid F (by omega) (by omega)]
            congr 1
            omega
        · have hDlo : 2 ^ 53 ≤ D.natAbs := by omega
          have hDhi : D.natAbs < 2 ^ 62 := by omega
          have hs30 : 30 ≤ s := hk 53 hDlo
          have hs38 : s ≤ 38 := hB 62 hDhi
          have hpow30 : (2 : Int) ^ 30 ≤ 2 ^ s := by
            exact_mod_cast Nat.pow_le_pow_right (by decide : 0 < 2) hs30
          have hd54 : (2 : Int) ^ s ∣ 2 ^ 54 := pow_dvd_pow 2 (by omega)
          have hdn : (2 : Int) ^ s ∣ N / 1000 * 2 ^ 54 := Dvd.dvd.mul_left hd54 _
          have hsub : (2 : Int) ^ s ∣ F - N / 1000 * 2 ^ 54 := Int.dvd_sub hdvd hdn
          generalize (2 : Int) ^ s = T at *
          have habs : |F - N / 1000 * 2 ^ 54| < T := by
            rw [abs_lt]
            constructor <;> omega
          have hz := Int.eq_zero_of_abs_lt_dvd hsub habs
          have hFe : F = N / 1000 * 2 ^ 54 := by omega
          rw [clampToU8_mid F (by omega) (by omega), hFe]
          congr 1
          omega
  · by_cases hn1 : N < 0
    · rw [if_pos hn1, clampToU8_neg F (by omega)]
    · by_cases hn2 : N > 255000
      · rw [if_neg hn1, if_pos hn2, clampToU8_hi F (by omega)]
      · have hdm : N % 1000 + 1000 * (N / 1000) = N := Int.emod_add_ediv N 1000
        have hr1 : 1 ≤ N % 1000 := by omega
        have hr2 : N % 1000 ≤ 999 := by omega
        have hk1 : 0 ≤ N / 1000 := by omega
        have hk2 : N / 1000 ≤ 254 := by omega
        generalize N / 1000 = k at *
        generalize N % 1000 = r at *
        have hlo : k * 2 ^ 54 ≤ F := by linarith
        have hhi : F < (k + 1) * 2 ^ 54 := by linarith
        rw [if_neg hn1, if_neg hn2, clampToU8_mid F (by omega) (by omega)]
        congr 1
        omega

/-! ## The exact formula in thousandths -/

theorem specChannel_thousandths (N : Int) :
    specChannel ((N : ℚ) / 1000) = specThousandths N := by
  have hfl : ⌊((N : ℚ) / 1000)⌋ = N / 1000 := by
    have := Rat.floor_intCast_div_natCast N 1000
    simpa using this
  have h1 : ((N : ℚ) / 1000 < 0) ↔ N < 0 := by
    rw [div_lt_iff₀ (by norm_num : (0 : ℚ) < 1000)]
    simp
  have h2 : ((N : ℚ) / 1000 > 255) ↔ N > 255000 := by
    rw [gt_iff_lt, lt_div_iff₀ (by norm_num : (0 : ℚ) < 1000)]
    norm_num
    exact_mod_cast Iff.rfl
  simp only [specChannel, specThousandths]
  by_cases c1 : N < 0
  · rw [if_pos (h1.2 c1), if_pos c1]
    simp
  · by_cases c2 : N > 255000
    · rw [if_neg (fun h => c1 (h1.1 h)), if_pos (h2.2 c2), if_neg c1, if_pos c2]
      simp
    · rw [if_neg (fun h => c1 (h1.1 h)), if_neg (fun h => c2 (h2.1 h)), if_neg c1, if_neg c2, hfl]

theorem specRed_eq (Y V : Nat) :
    specRed Y V = specThousandths (1164 * ((Y : Int) - 16) + 1596 * ((V : Int) - 128)) := by
  rw [← specChannel_thousandths]
  unfold specRed
  congr 1
  push_cast
  norm_num
  ring

theorem specGreen_eq (Y U V : Nat) :
    specGreen Y U V = specThousandths
      (1164 * ((Y : Int) - 16) - 813 * ((V : Int) - 128) - 391 * ((U : Int) - 128)) := by
  rw [← specChannel_thousandths]
  unfold specGreen
  congr 1
  push_cast
  norm_num
  ring

theorem specBlue_eq (Y U : Nat) :
    specBlue Y U = specThousandths (1164 * ((Y : Int) - 16) + 2018 * ((U : Int) - 128)) := by
  rw [← specChannel_thousandths]
  unfold specBlue
  congr 1
  push_cast
  norm_num
  ring

/-! ## The three channels of the code -/

theorem fpRed_eq (Y V : Nat) (hY : Y < 256) (hV : V < 256) :
    fpRed Y V = specThousandths (1164 * ((Y : Int) - 16) + 1596 * ((V : Int) - 128)) := by
  have c1 : d1_164 = 20968759865037028 := rfl
  have c2 : d1_596 = 28750980021133248 := rfl
  unfold fpRed
  rw [c1, c2]
  obtain ⟨a1, a2⟩ := toDouble_err (20968759865037028 * ((Y : Int) - 16)) (by omega)
  obtain ⟨b1, b2⟩ := toDouble_err (28750980021133248 * ((V : Int) - 128)) (by omega)
  generalize toDouble (20968759865037028 * ((Y : Int) - 16)) = P1 at *
  generalize toDouble (28750980021133248 * ((V : Int) - 128)) = P2 at *
  obtain ⟨s1, s2⟩ := toDouble_err (P1 + P2) (by omega)
  generalize toDouble (P1 + P2) = D at *
  exact clampToU8_toFloat D _ (by omega) (by omega) (by omega)

theorem fpGreen_eq (Y U V : Nat) (hY : Y < 256) (hU : U < 256) (hV : V < 256) :
    fpGreen Y U V = specThousandths
      (1164 * ((Y : Int) - 16) - 813 * ((V : Int) - 128) - 391 * ((U : Int) - 128)) := by
  have c1 : d1_164 = 20968759865037028 := rfl
  have c2 : d0_813 = 14645705988208852 := rfl
  have c3 : d0_391 = 7043629817207456 := rfl
  unfold fpGreen
  rw [c1, c2, c3]
  obtain ⟨a1, a2⟩ := toDouble_err (20968759865037028 * ((Y : Int) - 16)) (by omega)
  obtain ⟨b1, b2⟩ := toDouble_err (14645705988208852 * ((V : Int) - 128)) (by omega)
  obtain ⟨g1, g2⟩ := toDouble_err (7043629817207456 * ((U : Int) - 128)) (by omega)
  generalize toDouble (20968759865037028 * ((Y : Int) - 16)) = P1 at *
  generalize toDouble (14645705988208852 * ((V : Int) - 128)) = P2 at *
  generalize toDouble (7043629817207456 * ((U : Int) - 128)) = P3 at *
  obtain ⟨s1, s2⟩ := toDouble_err (P1 - P2) (by omega)
  generalize toDouble (P1 - P2) = S1 at *
  obtain ⟨t1, t2⟩ := toDouble_err (S1 - P3) (by omega)
  generalize toDouble (S1 - P3) = D at *
  exact clampToU8_toFloat D _ (by omega) (by omega) (by omega)

theorem fpBlue_eq (Y U : Nat) (hY : Y < 256) (hU : U < 256) :
    fpBlue Y U = specThousandths (1164 * ((Y : Int) - 16) + 2018 * ((U : Int) - 128)) := by
  have c1 : d1_164 = 20968759865037028 := rfl
  have c2 : d2_018 = 36353056192134640 := rfl
  unfold fpBlue
  rw [c1, c2]
  obtain ⟨a1, a2⟩ := toDouble_err (20968759865037028 * ((Y : Int) - 16)) (by omega)
  obtain ⟨b1, b2⟩ := toDouble_err (36353056192134640 * ((U : Int) - 128)) (by omega)
  generalize toDouble (20968759865037028 * ((Y : Int) - 16)) = P1 at *
  generalize toDouble (36353056192134640 * ((U : Int) - 128)) = P2 at *
  obtain ⟨s1, s2⟩ := toDouble_err (P1 + P2) (by omega)
  generalize toDouble (P1 + P2) = D at *
  exact clampToU8_toFloat D _ (by omega) (by omega) (by omega)

/-- C11: for all Y, U, V in [0, 255], under strict IEEE-754 evaluation (every
`double` operation rounded once to 53 bits, the assignment rounded to `float`,
no fused multiply-add), the three channel values that `yuv422_to_rgb565`
computes are those of the exact formula of section 4.1, clamped to [0, 255]
and truncated; hence the pixel returned by the function of sv5.c, by the
function of lut.c, and the entry that the loops of lut.c store at index
`Y*65536 + U*256 + V` of the table, equal the packing of the formula's values.
The five decimal constants are normal `double`s with the stated number of
fraction bits. -/
theorem yuv422_to_rgb565_matches_formula (Y U V : Nat) (hY : Y < 256) (hU : U < 256)
    (hV : V < 256) :
    (fpStrict Y U V).red = specRed Y V ∧
    (fpStrict Y U V).green = specGreen Y U V ∧
    (fpStrict Y U V).blue = specBlue Y U ∧
    yuv422_to_rgb565 fpStrict Y U V =
      pack_bgr565 (specRed Y V) (specGreen Y U V) (specBlue Y U) ∧
    lut_yuv422_to_rgb565 fpStrict Y U V =
      pack_bgr565 (specRed Y V) (specGreen Y U V) (specBlue Y U) ∧
    (∀ tbl : Nat → Nat, ∃ n t, lutBuild (lut_yuv422_to_rgb565 fpStrict) tbl = some (n, t) ∧
      t.pbuf (lutIndex Y U V) = pack_bgr565 (specRed Y V) (specGreen Y U V) (specBlue Y U)) ∧
    (2 ^ 52 ≤ rneQuot (1164 * 2 ^ 52) 1000 ∧ rneQuot (1164 * 2 ^ 52) 1000 < 2 ^ 53 ∧
      2 ^ 52 ≤ rneQuot (1596 * 2 ^ 52) 1000 ∧ rneQuot (1596 * 2 ^ 52) 1000 < 2 ^ 53 ∧
      2 ^ 52 ≤ rneQuot (813 * 2 ^ 53) 1000 ∧ rneQuot (813 * 2 ^ 53) 1000 < 2 ^ 53 ∧
      2 ^ 52 ≤ rneQuot (391 * 2 ^ 54) 1000 ∧ rneQuot (391 * 2 ^ 54) 1000 < 2 ^ 53 ∧
      2 ^ 52 ≤ rneQuot (2018 * 2 ^ 51) 1000 ∧ rneQuot (2018 * 2 ^ 51) 1000 < 2 ^ 53) := by
  have hr : (fpStrict Y U V).red = specRed Y V := by
    rw [specRed_eq]
    exact fpRed_eq Y V hY hV
  have hg : (fpStrict Y U V).green = specGreen Y U V := by
    rw [specGreen_eq]
    exact fpGreen_eq Y U V hY hU hV
  have hb : (fpStrict Y U V).blue = specBlue Y U := by
    rw [specBlue_eq]
    exact fpBlue_eq Y U hY hU
  have hpix : yuv422_to_rgb565 fpStrict Y U V =
      pack_bgr565 (specRed Y V) (specGreen Y U V) (specBlue Y U) := by
    unfold yuv422_to_rgb565
    rw [hr, hg, hb]
  have hlut : lut_yuv422_to_rgb565 fpStrict Y U V = yuv422_to_rgb565 fpStrict Y U V := rfl
  refine ⟨hr, hg, hb, hpix, hlut.trans hpix, ?_, by decide⟩
  intro tbl
  obtain ⟨t, hbuild, htab, -⟩ := lutBuild_spec (lut_yuv422_to_rgb565 fpStrict) tbl
  refine ⟨16777216, t, hbuild, ?_⟩
  have hidx : lutIndex Y U V = 65536 * Y + 256 * U + V := by
    simp only [lutIndex]
    omega
  rw [hidx, htab Y U V hY hU hV, hlut, hpix]

/-- C11, an instance: Y = 177, U = 7, V = 129, where the exact red value is the
integer 189 (1.164*161 + 1.596*1) and green and blue are 233 and 0. -/
theorem yuv422_to_rgb565_matches_formula_witness :
    (177 < 256 ∧ 7 < 256 ∧ 129 < 256) ∧
      (fpStrict 177 7 129).red = specRed 177 129 ∧
      (fpStrict 177 7 129).green = specGreen 177 7 129 ∧
      (fpStrict 177 7 129).blue = specBlue 177 7 ∧
      (fpStrict 177 7 129).red = 189 ∧ (fpStrict 177 7 129).green = 233 ∧
      (fpStrict 177 7 129).blue = 0 := by
  have h := yuv422_to_rgb565_matches_formula 177 7 129 (by decide) (by decide) (by decide)
  have r1 : specRed 177 129 = 189 := by
    rw [specRed_eq]
    decide
  have g1 : specGreen 177 7 129 = 233 := by
    rw [specGreen_eq]
    decide
  have b1 : specBlue 177 7 = 0 := by
    rw [specBlue_eq]
    decide
  exact ⟨⟨by decide, by decide, by decide⟩, h.1, h.2.1, h.2.2.1, h.1.trans r1, h.2.1.trans g1,
    h.2.2.1.trans b1⟩

end SV5
